import Mathlib

/-!
TurtleSilicon: the patcher of `pkg/patching/patching.go`, the game supervisor
of `pkg/launcher/launcher.go` and the status panel of `pkg/ui/status.go`.

A shallow embedding of the `Config.wtf` text operations
(`updateOrAddConfigSetting`, `removeConfigSetting`, `isConfigSettingCorrect`,
`applyShadowLODSetting`, `removeShadowLODSetting`) together with the part of
Go's `regexp` package they run on; of the editor of the manifest `dlls.txt`
(`enableLibSiliconPatchInDlls`, `disableLibSiliconPatchInDlls`) together with
the part of Go's `strings` package it runs on; of the four buttons
(`PatchTurtleWoW`, `UnpatchTurtleWoW`, `PatchCrossOver`, `UnpatchCrossOver`);
of the graphics settings (`ApplyGraphicsSettingsForVersion`,
`CheckGraphicsSettings`, `CheckGraphicsSettingsPresence`); of the supervisor
(`runGameIntegrated`, `StopGame`, `IsGameRunning`, `LaunchGame`); and of
`updateCrossoverStatus`.

The model.

* The files a button touches are a world state, `World`: the settings file,
  the manifest, the binary files by byte content, the stored preferences, the
  bundled resources, the dialogs shown, and the list `ops` of the `os` calls
  made so far.  The field `fails` tells which call fails.
* Go ranges over a map in no fixed order: the orders in which
  `PatchTurtleWoW` visits its two maps of files are the parameters `order`
  and `rorder`.
* The supervisor is the pair of the running flag and the process handle that
  the mutex guards; a function that holds the mutex is one step of the
  relation `Step`, and `Reachable` are the states that steps lead to from the
  idle state.

* A Go string is a `List Char`: the model covers texts, keys and values that
  are valid UTF-8.
* The three regular expressions of the source are

  * `SET\s+K\s+"[^"]*"`          (`updateOrAddConfigSetting`)
  * `SET\s+K\s+"[^"]*"[\r\n]*`   (`removeConfigSetting`, `removeShadowLODSetting`)
  * `SET\s+K\s+"([^"]*)"`        (`isConfigSettingCorrect`)

  where `K` is `regexp.QuoteMeta(setting)`, the key taken literally.  They are
  embedded as a backtracking matcher with Go's leftmost-first preference order:
  a greedy repetition tries the longest run first and gives characters back one
  at a time.  As in Go, `\s` is `[\t\n\f\r ]` and `[^"]` also matches line
  feeds.
* `ReplaceAllString` expands its replacement text as a template (`$name`,
  `${name}`, `$$`); the patterns it is called with have no capture group, so
  only group `0` has a value.  The letter and digit tables of Go's `unicode`
  package above ASCII are not part of the repository and are the parameter
  `uni` of the functions that reach `expand`.
* The settings file is part of a small world state, `ConfigFs`, that also
  records which `os` calls fail.

The statements.

The section "The claims" at the end holds one theorem for each claim, with its
witness and, where the claim does not hold as written, a counterexample.
-/

namespace TurtleSilicon

/-! ## Go `regexp`: the matcher -/

/-- The class `\s` of Go's regexp syntax, `[\t\n\f\r ]`. -/
def isSpace (c : Char) : Bool :=
  c == '\t' || c == '\n' || c == Char.ofNat 12 || c == '\r' || c == ' '

/-- The class `[\r\n]`. -/
def isLineBreak (c : Char) : Bool :=
  c == '\r' || c == '\n'

/-- The double quote character. -/
def dq : Char := Char.ofNat 34

/-- The dollar sign. -/
def dollar : Char := Char.ofNat 36

/-- A literal: strips `lit` from the front of the input, or fails. -/
def matchLiteral : List Char → List Char → Option (List Char)
  | [], s => some s
  | _ :: _, [] => none
  | a :: lit, c :: s => if a = c then matchLiteral lit s else none

/-- The greedy repetition `\s+` followed by the rest of the pattern `k`: one
white-space character is required; then the longer run is tried first and the
rest of the pattern is tried here only when every longer run fails. -/
def matchSpaces {α : Type} (k : List Char → Option α) : List Char → Option α
  | [] => none
  | c :: s =>
    if isSpace c then
      match matchSpaces k s with
      | some r => some r
      | none => k s
    else none

/-- The tail `([^"]*)"` after the opening quote: the greedy repetition takes
every character other than a double quote, then the closing quote is required.
Returns the captured value and the input left after the closing quote. -/
def matchValue : List Char → Option (List Char × List Char)
  | [] => none
  | c :: s =>
    if c = dq then some ([], s)
    else
      match matchValue s with
      | some (v, r) => some (c :: v, r)
      | none => none

/-- The opening quote followed by `([^"]*)"`. -/
def matchQuoted : List Char → Option (List Char × List Char)
  | [] => none
  | c :: s => if c = dq then matchValue s else none

/-- One attempt of `SET\s+K\s+"([^"]*)"` at the start of the input, where `K`
is the key `setting` taken literally.  On success returns the captured value
and the input left after the match. -/
def matchSettingAt (setting s : List Char) : Option (List Char × List Char) :=
  match matchLiteral ['S', 'E', 'T'] s with
  | none => none
  | some s1 =>
    matchSpaces (fun s2 =>
      match matchLiteral setting s2 with
      | none => none
      | some s3 => matchSpaces matchQuoted s3) s1

/-- One attempt of `SET\s+K\s+"[^"]*"[\r\n]*` at the start of the input: the
directive, then the longest run of carriage returns and line feeds. -/
def matchSettingLineAt (setting s : List Char) : Option (List Char × List Char) :=
  match matchSettingAt setting s with
  | none => none
  | some (v, r) => some (v, r.dropWhile isLineBreak)

/-- The leftmost match of a pattern given by its one-position matcher `m`:
`(before, value, after)`. -/
def findFirst (m : List Char → Option (List Char × List Char)) :
    List Char → Option (List Char × List Char × List Char)
  | [] =>
    match m [] with
    | some (v, r) => some ([], v, r)
    | none => none
  | c :: s =>
    match m (c :: s) with
    | some (v, r) => some ([], v, r)
    | none =>
      match findFirst m s with
      | some (b, v, r) => some (c :: b, v, r)
      | none => none

/-- The method `MatchString`. -/
def matchString (m : List Char → Option (List Char × List Char)) (s : List Char) : Bool :=
  (findFirst m s).isSome

/-- The loop of `replaceAll`: copies the text before each successive leftmost
match, writes `repl` applied to the matched text, and resumes after the match.
No pattern of the source matches the empty text, so the search always resumes
at the end of the match and nothing is tried at the end of the input.  `fuel`
bounds the number of loop rounds. -/
def replaceAllLoop (m : List Char → Option (List Char × List Char))
    (repl : List Char → List Char) : Nat → List Char → List Char
  | 0, s => s
  | fuel + 1, s =>
    match s with
    | [] => []
    | c :: t =>
      match m (c :: t) with
      | some (_, r) =>
        repl ((c :: t).take ((c :: t).length - r.length)) ++ replaceAllLoop m repl fuel r
      | none => c :: replaceAllLoop m repl fuel t

/-! ## Go `regexp`: the replacement template -/

/-- The test of `extract` for a character of a group name:
`unicode.IsLetter(r) || unicode.IsDigit(r) || r == '_'`.  The tables of Go's
`unicode` package above ASCII are the parameter `uni`. -/
def isNameRune (uni : Char → Bool) (c : Char) : Bool :=
  c.isAlpha || c.isDigit || c == '_' || (decide (128 ≤ c.toNat) && uni c)

/-- The function `extract` of `regexp`: the group name at the start of a
template, after the dollar sign, written `name` or `{name}`, and the template
left after it. -/
def extract (uni : Char → Bool) (str : List Char) : Option (List Char × List Char) :=
  match str with
  | [] => none
  | c :: t =>
    let brace := c == '{'
    let body := if brace then t else c :: t
    let name := body.takeWhile (isNameRune uni)
    let rest := body.dropWhile (isNameRune uni)
    if name.isEmpty then none
    else if brace then
      match rest with
      | '}' :: rest1 => some (name, rest1)
      | _ => none
    else some (name, rest)

/-- The method `expand` for a pattern without capture groups: `$$` is a dollar
sign, `$0` and `${0}` are the matched text, any other group reference is
empty, and a dollar sign that starts no group name stands for itself. -/
def expandLoop (uni : Char → Bool) (matched : List Char) : Nat → List Char → List Char
  | 0, template => template
  | _ + 1, [] => []
  | fuel + 1, c :: t =>
    if c = dollar then
      match t with
      | [] => [dollar]
      | d :: t1 =>
        if d = dollar then dollar :: expandLoop uni matched fuel t1
        else
          match extract uni (d :: t1) with
          | none => dollar :: expandLoop uni matched fuel (d :: t1)
          | some (name, rest) =>
            (if name = ['0'] then matched else []) ++ expandLoop uni matched fuel rest
    else c :: expandLoop uni matched fuel t

/-- The method `expand` on a whole template. -/
def expand (uni : Char → Bool) (template matched : List Char) : List Char :=
  expandLoop uni matched (template.length + 1) template

/-- The method `ReplaceAllString` for a pattern without capture groups. -/
def replaceAllString (uni : Char → Bool) (m : List Char → Option (List Char × List Char))
    (src repl : List Char) : List Char :=
  replaceAllLoop m (expand uni repl) (src.length + 1) src

/-! ## The settings engine -/

/-- The text `SET <setting> "<value>"` built by `fmt.Sprintf`. -/
def newSetting (setting value : List Char) : List Char :=
  ['S', 'E', 'T', ' '] ++ setting ++ [' ', dq] ++ value ++ [dq]

/-- The function `updateOrAddConfigSetting`: when `SET\s+K\s+"[^"]*"` matches
somewhere in `configText`, every match is replaced through `ReplaceAllString`
by the text `SET <setting> "<value>"`; otherwise a line feed is added to a
non-empty text that does not end with one, and the new directive and a line
feed are appended.  The calls of `debug.Printf` only write to the log. -/
def updateOrAddConfigSetting (uni : Char → Bool) (configText setting value : List Char) :
    List Char :=
  if matchString (matchSettingAt setting) configText then
    replaceAllString uni (matchSettingAt setting) configText (newSetting setting value)
  else
    (if configText ≠ [] ∧ configText.getLast? ≠ some '\n' then configText ++ ['\n']
     else configText) ++ newSetting setting value ++ ['\n']

/-- The function `removeConfigSetting`: when `SET\s+K\s+"[^"]*"[\r\n]*` matches
somewhere in `configText`, every match is replaced by the empty text through
`ReplaceAllString`; otherwise the text is returned as it is. -/
def removeConfigSetting (uni : Char → Bool) (configText setting : List Char) : List Char :=
  if matchString (matchSettingLineAt setting) configText then
    replaceAllString uni (matchSettingLineAt setting) configText []
  else configText

/-- The function `isConfigSettingCorrect`: `FindStringSubmatch` gives the
leftmost match of `SET\s+K\s+"([^"]*)"`; without a match the answer is false,
otherwise it says whether the captured value is `expectedValue`. -/
def isConfigSettingCorrect (configText setting expectedValue : List Char) : Bool :=
  match findFirst (matchSettingAt setting) configText with
  | none => false
  | some (_, currentValue, _) => currentValue == expectedValue

/-! ## The settings file on disk -/

/-- The errors the settings functions return. -/
inductive ConfigError where
  /-- Error `TurtleWoW path not set`. -/
  | pathNotSet
  /-- Error `failed to create WTF directory`. -/
  | mkdirFailed
  /-- Error `failed to read Config.wtf`. -/
  | readFailed
  /-- Error `failed to write Config.wtf`. -/
  | writeFailed
  deriving DecidableEq, Repr

/-- The files and directories the functions of `patching.go` name, under the
game folder and under the CrossOver bundle. -/
inductive Path where
  /-- The directory `WTF`. -/
  | wtfDir
  /-- The file `WTF/Config.wtf`. -/
  | configWtf
  /-- The file `dlls.txt`. -/
  | dllsTxt
  /-- The file `winerosetta.dll`. -/
  | winerosettaDll
  /-- The file `d3d9.dll`. -/
  | d3d9Dll
  /-- The file `libSiliconPatch.dll`. -/
  | libSiliconPatchDll
  /-- The directory `rosettax87`. -/
  | rosettaDir
  /-- The file `rosettax87/rosettax87`. -/
  | rosettax87
  /-- The file `rosettax87/libRuntimeRosettax87`. -/
  | libRuntimeRosettax87
  /-- The file `wineloader` of CrossOver. -/
  | wineloader
  /-- The file `wineloader2` of CrossOver. -/
  | wineloader2
  deriving DecidableEq, Repr

/-- A call that touches the file system. -/
inductive FileOp where
  /-- The calls `os.Stat`, `utils.PathExists` and `utils.DirExists`. -/
  | stat (p : Path)
  /-- The call `os.MkdirAll`. -/
  | mkdirAll (p : Path)
  /-- The call `os.ReadFile`. -/
  | readFile (p : Path)
  /-- The call `os.WriteFile`. -/
  | writeFile (p : Path)
  /-- The call `os.Create`. -/
  | create (p : Path)
  /-- The calls `io.Copy` into the file and `utils.CopyFile` to it. -/
  | copy (p : Path)
  /-- The call `os.Chmod`. -/
  | chmod (p : Path)
  /-- The call `os.Remove`. -/
  | remove (p : Path)
  /-- The call `os.RemoveAll`. -/
  | removeAll (p : Path)
  /-- The command `codesign --remove-signature` run on the file. -/
  | codesign (p : Path)
  deriving DecidableEq, Repr

/-- Whether the call can create, change or delete a file or directory: every
call but `stat` and `readFile`. -/
def FileOp.isWrite : FileOp → Bool
  | FileOp.stat _ => false
  | FileOp.readFile _ => false
  | _ => true

/-- The part of the world the settings functions see: the install root
`paths.TurtlewowPath`, the directory `WTF` and the file `WTF/Config.wtf` under
it, the outcome of the `os` calls that can fail, and the calls made so far.  A
failing call changes nothing on disk. -/
structure ConfigFs where
  /-- The variable `paths.TurtlewowPath`. -/
  turtlewowPath : List Char
  /-- Whether the directory `WTF` exists. -/
  wtfDir : Bool
  /-- The content of `WTF/Config.wtf`, `none` when the file does not exist. -/
  config : Option (List Char)
  /-- Whether `os.MkdirAll` returns an error. -/
  mkdirFails : Bool
  /-- Whether `os.ReadFile` returns an error on the existing file. -/
  readFails : Bool
  /-- Whether `os.WriteFile` returns an error and leaves the file as it is. -/
  writeFails : Bool
  /-- The calls that touched the file system so far, oldest first. -/
  ops : List FileOp := []

/-- The world after one more call that touches the file system. -/
def ConfigFs.log (fs : ConfigFs) (op : FileOp) : ConfigFs :=
  { fs with ops := fs.ops ++ [op] }

/-- The key `shadowLOD`. -/
def shadowLOD : List Char := "shadowLOD".toList

/-- The key `M2UseShaders`. -/
def M2UseShaders : List Char := "M2UseShaders".toList

/-- The body shared by `applyShadowLODSetting` and
`applyVertexAnimShadersSetting`, which differ only in the key and the value:
the returned error (`none` for `nil`) and the world after the call.  An unset
root is an error; the directory `WTF` is created; a file that cannot be read
counts as empty text; the text after `updateOrAddConfigSetting` is written
back. -/
def applySetting (uni : Char → Bool) (setting value : List Char) (fs : ConfigFs) :
    Option ConfigError × ConfigFs :=
  if fs.turtlewowPath = [] then (some ConfigError.pathNotSet, fs)
  else
    let fs0 := fs.log (FileOp.mkdirAll Path.wtfDir)
    if fs0.mkdirFails then (some ConfigError.mkdirFailed, fs0)
    else
      let fs1 := { fs0 with wtfDir := true }.log (FileOp.readFile Path.configWtf)
      let configText :=
        match fs1.config with
        | some content => if fs1.readFails then [] else content
        | none => []
      let configText := updateOrAddConfigSetting uni configText setting value
      let fs2 := fs1.log (FileOp.writeFile Path.configWtf)
      if fs2.writeFails then (some ConfigError.writeFailed, fs2)
      else (none, { fs2 with config := some configText })

/-- The function `applyShadowLODSetting`. -/
def applyShadowLODSetting (uni : Char → Bool) (fs : ConfigFs) : Option ConfigError × ConfigFs :=
  applySetting uni shadowLOD "0".toList fs

/-- The function `applyVertexAnimShadersSetting`. -/
def applyVertexAnimShadersSetting (uni : Char → Bool) (fs : ConfigFs) :
    Option ConfigError × ConfigFs :=
  applySetting uni M2UseShaders "1".toList fs

/-- The function `removeShadowLODSetting`: the returned error (`none` for
`nil`) and the world after the call.  An unset root is an error; a missing
file is left missing; the file is written back only when the pattern for
`shadowLOD` matches its text. -/
def removeShadowLODSetting (uni : Char → Bool) (fs : ConfigFs) : Option ConfigError × ConfigFs :=
  if fs.turtlewowPath = [] then (some ConfigError.pathNotSet, fs)
  else
    let fs0 := fs.log (FileOp.stat Path.configWtf)
    match fs0.config with
    | none => (none, fs0)
    | some content =>
      let fs1 := fs0.log (FileOp.readFile Path.configWtf)
      if fs1.readFails then (some ConfigError.readFailed, fs1)
      else if matchString (matchSettingLineAt shadowLOD) content then
        let configText := replaceAllString uni (matchSettingLineAt shadowLOD) content []
        let fs2 := fs1.log (FileOp.writeFile Path.configWtf)
        if fs2.writeFails then (some ConfigError.writeFailed, fs2)
        else (none, { fs2 with config := some configText })
      else (none, fs1)

/-! ## The process supervisor of `pkg/launcher/launcher.go` -/

/-- The two package variables `isGameRunning` and `currentGameProcess` that
`gameMutex` guards.  A command is named by a number; `none` is `nil`. -/
structure Supervisor where
  /-- The variable `isGameRunning`. -/
  isGameRunning : Bool
  /-- The variable `currentGameProcess`. -/
  currentGameProcess : Option Nat
  deriving DecidableEq, Repr

/-- What happens to the command `runGameIntegrated` builds: one of the two
pipe calls fails, `cmd.Start` fails, or the process is spawned. -/
inductive SpawnOutcome where
  /-- The call `cmd.StdoutPipe` returns an error. -/
  | stdoutPipeFails
  /-- The call `cmd.StderrPipe` returns an error. -/
  | stderrPipeFails
  /-- The call `cmd.Start` returns an error. -/
  | startFails
  /-- The call `cmd.Start` spawns the process. -/
  | started
  deriving DecidableEq, Repr

/-- The errors `runGameIntegrated` returns. -/
inductive LaunchError where
  /-- Error `game is already running`. -/
  | alreadyRunning
  /-- The error of `cmd.StdoutPipe`. -/
  | stdoutPipe
  /-- The error of `cmd.StderrPipe`. -/
  | stderrPipe
  /-- The error of `cmd.Start`. -/
  | start
  deriving DecidableEq, Repr

/-- The result of one call of `runGameIntegrated`. -/
structure LaunchResult where
  /-- The returned error, `none` for `nil`. -/
  err : Option LaunchError
  /-- The guarded variables when the mutex is released. -/
  sup : Supervisor
  /-- Whether a process was spawned. -/
  spawned : Bool
  deriving DecidableEq, Repr

/-- The function `runGameIntegrated`, from taking the mutex to releasing it:
`cmd` is the command it builds and `o` what happens to it.  The flag is set
before the pipes are made and reset on each failure; the handle is assigned
between the pipes and `cmd.Start`.  The three goroutines started after a
successful spawn only log, except for the last step of the waiter, which is
`waiterDone`. -/
def runGameIntegrated (cmd : Nat) (o : SpawnOutcome) (s : Supervisor) : LaunchResult :=
  if s.isGameRunning then { err := some LaunchError.alreadyRunning, sup := s, spawned := false }
  else
    let s1 : Supervisor := { s with isGameRunning := true }
    match o with
    | SpawnOutcome.stdoutPipeFails =>
      { err := some LaunchError.stdoutPipe, sup := { s1 with isGameRunning := false },
        spawned := false }
    | SpawnOutcome.stderrPipeFails =>
      { err := some LaunchError.stderrPipe, sup := { s1 with isGameRunning := false },
        spawned := false }
    | SpawnOutcome.startFails =>
      let s2 : Supervisor := { s1 with currentGameProcess := some cmd }
      { err := some LaunchError.start, sup := { s2 with isGameRunning := false },
        spawned := false }
    | SpawnOutcome.started =>
      let s2 : Supervisor := { s1 with currentGameProcess := some cmd }
      { err := none, sup := s2, spawned := true }

/-- The deferred function of the waiter goroutine, run under the mutex once
`cmd.Wait` has returned: it clears the flag and the handle. -/
def waiterDone (_s : Supervisor) : Supervisor :=
  { isGameRunning := false, currentGameProcess := none }

/-- The function `IsGameRunning`. -/
def IsGameRunning (s : Supervisor) : Bool :=
  s.isGameRunning

/-- The signals `StopGame` sends to the process. -/
inductive Signal where
  /-- The call `Process.Signal(os.Interrupt)`. -/
  | interrupt
  /-- The call `Process.Kill`. -/
  | kill
  deriving DecidableEq, Repr

/-- The errors `StopGame` returns. -/
inductive StopError where
  /-- Error `no game process is running`. -/
  | notRunning
  /-- The error returned by `Process.Kill`. -/
  | killFailed
  deriving DecidableEq, Repr

/-- The result of one call of `StopGame`. -/
structure StopResult where
  /-- The returned error, `none` for `nil`. -/
  err : Option StopError
  /-- The guarded variables when the mutex is released. -/
  sup : Supervisor
  /-- The signals sent, in order. -/
  sent : List Signal
  deriving DecidableEq, Repr

/-- The function `StopGame`: `signalFails` says whether sending the interrupt
returns an error and `killFails` whether `Process.Kill` does. -/
def StopGame (signalFails killFails : Bool) (s : Supervisor) : StopResult :=
  if !s.isGameRunning || s.currentGameProcess.isNone then
    { err := some StopError.notRunning, sup := s, sent := [] }
  else if signalFails then
    { err := if killFails then some StopError.killFailed else none, sup := s,
      sent := [Signal.interrupt, Signal.kill] }
  else { err := none, sup := s, sent := [Signal.interrupt] }

/-- The supervisor together with the children that were spawned and whose
waiter has not yet run its deferred function. -/
structure Sys where
  /-- The guarded variables. -/
  sup : Supervisor
  /-- The spawned children not yet cleared by their waiter. -/
  live : List Nat
  deriving DecidableEq, Repr

/-- The steps of the supervisor.  Each one runs under `gameMutex`, so they
interleave as wholes: a call of `runGameIntegrated`, the deferred function of
the waiter of a live child, and a call of `StopGame`. -/
inductive Step : Sys → Sys → Prop where
  /-- A call of `runGameIntegrated`. -/
  | start (σ : Sys) (cmd : Nat) (o : SpawnOutcome) :
    Step σ
      { sup := (runGameIntegrated cmd o σ.sup).sup,
        live := if (runGameIntegrated cmd o σ.sup).spawned then cmd :: σ.live else σ.live }
  /-- The waiter of a live child clears the state. -/
  | waiter (σ : Sys) (cmd : Nat) (h : cmd ∈ σ.live) :
    Step σ { sup := waiterDone σ.sup, live := σ.live.erase cmd }
  /-- A call of `StopGame`. -/
  | stop (σ : Sys) (signalFails killFails : Bool) :
    Step σ { sup := (StopGame signalFails killFails σ.sup).sup, live := σ.live }

/-- The states the supervisor reaches from the start of the program. -/
inductive Reachable : Sys → Prop where
  /-- At the start the flag is false, the handle `nil`, and there is no child. -/
  | init : Reachable { sup := { isGameRunning := false, currentGameProcess := none }, live := [] }
  /-- One more step. -/
  | step (σ τ : Sys) (h : Reachable σ) (hs : Step σ τ) : Reachable τ

/-! ## The launch button of `pkg/launcher/launcher.go` -/

/-- What `LaunchGame` reads. -/
structure LaunchState where
  /-- The variable `paths.CrossoverPath`. -/
  crossoverPath : List Char
  /-- The variable `paths.TurtlewowPath`. -/
  turtlewowPath : List Char
  /-- The variable `paths.PatchesAppliedTurtleWoW`. -/
  patchesAppliedTurtleWoW : Bool
  /-- The variable `paths.PatchesAppliedCrossOver`. -/
  patchesAppliedCrossOver : Bool
  /-- The variable `isGameRunning`. -/
  isGameRunning : Bool
  /-- The variable `EnableVanillaTweaks`. -/
  enableVanillaTweaks : Bool
  /-- The answer of `CheckForWoWTweakedExecutable`. -/
  tweakedExecutable : Bool

/-- How a call of `LaunchGame` ends. -/
inductive LaunchOutcome where
  /-- The error dialog `CrossOver path not set`. -/
  | crossoverPathNotSet
  /-- The error dialog `game path not set`. -/
  | gamePathNotSet
  /-- The confirmation dialog is shown and the function returns. -/
  | confirmShown
  /-- The information dialog `Game Already Running`. -/
  | alreadyRunning
  /-- The dialog of `HandleVanillaTweaksRequest` is shown and the function returns. -/
  | vanillaTweaksRequest
  /-- The call of `continueLaunch`, with the tweaked executable or `WoW.exe`. -/
  | continueLaunch (tweaked : Bool)
  deriving DecidableEq, Repr

/-- The function `LaunchGame`.  The call `dialog.ShowConfirm` of the toolkit
shows the dialog and returns at once; its callback, which would store the
user's `answer` in the local variable `confirmed`, runs only when the user
answers, so the test that follows reads the value the variable was declared
with. -/
def LaunchGame (answer : Bool) (s : LaunchState) : LaunchOutcome :=
  if s.crossoverPath = [] then LaunchOutcome.crossoverPathNotSet
  else if s.turtlewowPath = [] then LaunchOutcome.gamePathNotSet
  else
    let confirmed := false
    let callback : Bool → Bool := fun c => c
    let _later := callback answer
    if (!s.patchesAppliedTurtleWoW || !s.patchesAppliedCrossOver) && !confirmed then
      LaunchOutcome.confirmShown
    else if s.isGameRunning then LaunchOutcome.alreadyRunning
    else if s.enableVanillaTweaks then
      if !s.tweakedExecutable then LaunchOutcome.vanillaTweaksRequest
      else LaunchOutcome.continueLaunch true
    else LaunchOutcome.continueLaunch false

/-! ## Go `strings` -/

/-- The function `strings.Contains`: whether `substr` occurs in `s`. -/
def stringsContains : List Char → List Char → Bool
  | [], substr => substr.isEmpty
  | c :: s, substr => substr.isPrefixOf (c :: s) || stringsContains s substr

/-- The call `strings.HasSuffix(s, "\n")`. -/
def hasNewlineSuffix (s : List Char) : Bool :=
  s.getLast? == some '\n'

/-- The call `strings.Split(s, "\n")`: the pieces between the line feeds,
one more than there are line feeds. -/
def stringsSplit : List Char → List (List Char)
  | [] => [[]]
  | c :: s =>
    if c = '\n' then [] :: stringsSplit s
    else
      match stringsSplit s with
      | [] => [[c]]
      | l :: ls => (c :: l) :: ls

/-- The call `strings.Join(lines, "\n")`. -/
def stringsJoin : List (List Char) → List Char
  | [] => []
  | [l] => l
  | l :: l2 :: ls => l ++ '\n' :: stringsJoin (l2 :: ls)

/-- The function `unicode.IsSpace`: the characters with Unicode's White Space
property, as listed in the table `unicode.White_Space` of Go. -/
def unicodeIsSpace (c : Char) : Bool :=
  let n := c.toNat
  (9 ≤ n && n ≤ 13) || n == 32 || n == 133 || n == 160 || n == 5760
    || (8192 ≤ n && n ≤ 8202) || n == 8232 || n == 8233 || n == 8239 || n == 8287
    || n == 12288

/-- The function `strings.TrimSpace`: the text without its leading and
trailing white space. -/
def stringsTrimSpace (s : List Char) : List Char :=
  ((s.dropWhile unicodeIsSpace).reverse.dropWhile unicodeIsSpace).reverse

/-! ## The game folder, CrossOver and the preferences -/

/-- The entry `winerosetta.dll` of `dlls.txt`. -/
def winerosettaEntry : List Char := "winerosetta.dll".toList

/-- The entry `libSiliconPatch.dll` of `dlls.txt`. -/
def libSiliconPatchEntry : List Char := "libSiliconPatch.dll".toList

/-- The preferences `PatchTurtleWoW` and `UnpatchTurtleWoW` read. -/
structure Prefs where
  /-- The field `UserDisabledLibSiliconPatch`. -/
  userDisabledLibSiliconPatch : Bool
  /-- The field `UserDisabledShadowLOD`. -/
  userDisabledShadowLOD : Bool
  /-- The field `EnableLibSiliconPatch`. -/
  enableLibSiliconPatch : Bool
  /-- The field `SetShadowLOD0`. -/
  setShadowLOD0 : Bool
  deriving DecidableEq, Repr

/-- The dialogs shown to the user. -/
inductive Dialog where
  /-- The call `dialog.ShowError`. -/
  | error
  /-- The call `dialog.ShowInformation` with the title `Success`. -/
  | success
  deriving DecidableEq, Repr

/-- The errors the two functions on `dlls.txt` return. -/
inductive DllsError where
  /-- Error `TurtleWoW path not set`. -/
  | pathNotSet
  /-- Error `failed to read dlls.txt`. -/
  | readFailed
  /-- Error `failed to update dlls.txt`. -/
  | writeFailed
  deriving DecidableEq, Repr

/-- The world of `patching.go`: the world of the settings functions, and with
it the CrossOver root, the two patch flags, the manifest `dlls.txt`, the
binary files, the directory `rosettax87`, the stored preferences, the bundled
resources, the outcome of each call on a file other than `Config.wtf`, the
dialogs shown and the number of calls of `updateAllStatuses`.  The world
describes one game folder: the paths are only tested for being empty.  A
failing call changes nothing on disk, except that a failing `io.Copy` leaves
the file that `os.Create` made or emptied.  File modes are not part of the
world. -/
structure World extends ConfigFs where
  /-- The variable `paths.CrossoverPath`. -/
  crossoverPath : List Char
  /-- The variable `paths.PatchesAppliedTurtleWoW`. -/
  patchesAppliedTurtleWoW : Bool
  /-- The variable `paths.PatchesAppliedCrossOver`. -/
  patchesAppliedCrossOver : Bool
  /-- The content of `dlls.txt`, `none` when the file does not exist. -/
  dlls : Option (List Char)
  /-- The bytes of each binary file, `none` when the file does not exist. -/
  bin : Path → Option (List Nat)
  /-- Whether the directory `rosettax87` exists. -/
  rosettaDir : Bool
  /-- Whether the directory `rosettax87` holds files other than the two bundled ones. -/
  rosettaStale : Bool
  /-- The stored preferences. -/
  prefs : Prefs
  /-- The bytes of the bundled resource for each destination, `none` when
  `fyne.LoadResourceFromPath` returns an error. -/
  resource : Path → Option (List Nat)
  /-- Whether the call returns an error. -/
  fails : FileOp → Bool
  /-- The dialogs shown so far, oldest first. -/
  dialogs : List Dialog
  /-- The number of calls of `updateAllStatuses` so far. -/
  statusUpdates : Nat

/-- The world after one more call that touches the file system. -/
def World.log (w : World) (op : FileOp) : World :=
  { w with ops := w.ops ++ [op] }

/-- The world with the binary file `p` set to `c`. -/
def World.setBin (w : World) (p : Path) (c : Option (List Nat)) : World :=
  { w with bin := fun q => if q = p then c else w.bin q }

/-- Modelled from the spec: the helper `utils.PathExists` on a binary file,
which says whether the file exists. -/
def binExists (w : World) (p : Path) : Bool :=
  (w.bin p).isSome

/-- Modelled from the spec: the helper `utils.CompareFileWithBundledResource`,
which says whether the file has the byte length of the bundled resource. -/
def CompareFileWithBundledResource (w : World) (p : Path) : Bool :=
  match w.bin p, w.resource p with
  | some f, some r => f.length == r.length
  | _, _ => false

/-- Modelled from the spec: the helper `utils.LoadPrefs`, which returns the
stored preferences. -/
def LoadPrefs (w : World) : Prefs :=
  w.prefs

/-- Modelled from the spec: the helper `utils.SavePrefs`, which stores the
preferences. -/
def SavePrefs (w : World) (p : Prefs) : World :=
  { w with prefs := p }

/-! ## The manifest `dlls.txt` -/

/-- The text with a line feed added when it is not empty and does not end in
one, and then the entry and a line feed. -/
def appendEntry (content entry : List Char) : List Char :=
  (if content.length > 0 && !hasNewlineSuffix content then content ++ ['\n'] else content)
    ++ entry ++ ['\n']

/-- The function `enableLibSiliconPatchInDlls`: the returned error (`none` for
`nil`) and the world after the call. -/
def enableLibSiliconPatchInDlls (w : World) : Option DllsError × World :=
  if w.turtlewowPath = [] then (some DllsError.pathNotSet, w)
  else
    let w0 := w.log (FileOp.stat Path.dllsTxt)
    let read : Option DllsError × World × List Char :=
      match w0.dlls with
      | none => (none, w0, [])
      | some content =>
        let w1 := w0.log (FileOp.readFile Path.dllsTxt)
        if w1.fails (FileOp.readFile Path.dllsTxt) then (some DllsError.readFailed, w1, [])
        else (none, w1, content)
    match read with
    | (some e, w1, _) => (some e, w1)
    | (none, w1, currentContent) =>
      if stringsContains currentContent libSiliconPatchEntry then (none, w1)
      else
        let currentContent := appendEntry currentContent libSiliconPatchEntry
        let w2 := w1.log (FileOp.writeFile Path.dllsTxt)
        if w2.fails (FileOp.writeFile Path.dllsTxt) then (some DllsError.writeFailed, w2)
        else (none, { w2 with dlls := some currentContent })

/-- The lines of the text, split at line feeds, without those whose trimmed
text is one of the entries, joined with line feeds. -/
def removeEntries (entries : List (List Char)) (content : List Char) : List Char :=
  stringsJoin ((stringsSplit content).filter (fun line => !entries.contains (stringsTrimSpace line)))

/-- The function `disableLibSiliconPatchInDlls`: the returned error (`none`
for `nil`) and the world after the call. -/
def disableLibSiliconPatchInDlls (w : World) : Option DllsError × World :=
  if w.turtlewowPath = [] then (some DllsError.pathNotSet, w)
  else
    let w0 := w.log (FileOp.stat Path.dllsTxt)
    match w0.dlls with
    | none => (none, w0)
    | some content =>
      let w1 := w0.log (FileOp.readFile Path.dllsTxt)
      if w1.fails (FileOp.readFile Path.dllsTxt) then (some DllsError.readFailed, w1)
      else
        let updatedContent := removeEntries [libSiliconPatchEntry] content
        let w2 := w1.log (FileOp.writeFile Path.dllsTxt)
        if w2.fails (FileOp.writeFile Path.dllsTxt) then (some DllsError.writeFailed, w2)
        else (none, { w2 with dlls := some updatedContent })

/-! ## The patch orchestrator: `PatchTurtleWoW` -/

/-- The world after `dialog.ShowError`. -/
def World.showError (w : World) : World :=
  { w with dialogs := w.dialogs ++ [Dialog.error] }

/-- The end of `PatchTurtleWoW` after a step that aborts it: the error dialog,
the flag `PatchesAppliedTurtleWoW` set to false, `updateAllStatuses`. -/
def abortPatch (w : World) : World :=
  { w.showError with patchesAppliedTurtleWoW := false, statusUpdates := w.statusUpdates + 1 }

/-- The first loop of `PatchTurtleWoW`, over the map `filesToCopy` in the
order `range` yields its entries: whether a step failed, and the world
then.  A destination that exists with the byte length of its resource is
skipped; otherwise the resource is loaded, the file created and the bytes
copied. -/
def copyBundled : List Path → World → Bool × World
  | [], w => (false, w)
  | p :: ps, w =>
    let w0 := w.log (FileOp.stat p)
    if binExists w0 p && CompareFileWithBundledResource w0 p then copyBundled ps w0
    else
      let w1 := w0.log (FileOp.stat p)
      match w1.resource p with
      | none => (true, w1)
      | some content =>
        let w2 := w1.log (FileOp.create p)
        if w2.fails (FileOp.create p) then (true, w2)
        else
          let w3 := (w2.setBin p (some [])).log (FileOp.copy p)
          if w3.fails (FileOp.copy p) then (true, w3)
          else copyBundled ps (w3.setBin p (some content))

/-- The step of `PatchTurtleWoW` between the loops: `os.RemoveAll` on the
directory `rosettax87`, whose error is only logged, and `os.MkdirAll`, whose
error aborts. -/
def prepareRosettaDir (w : World) : Bool × World :=
  let w0 := w.log (FileOp.removeAll Path.rosettaDir)
  let w1 :=
    if w0.fails (FileOp.removeAll Path.rosettaDir) then w0
    else
      { (w0.setBin Path.rosettax87 none).setBin Path.libRuntimeRosettax87 none with
        rosettaDir := false, rosettaStale := false }
  let w2 := w1.log (FileOp.mkdirAll Path.rosettaDir)
  if w2.fails (FileOp.mkdirAll Path.rosettaDir) then (true, w2)
  else (false, { w2 with rosettaDir := true })

/-- The second loop of `PatchTurtleWoW`, over the map `rosettaFilesToCopy` in
the order `range` yields its entries: every file is created and copied, and
`rosettax87` is made executable. -/
def copyRosetta : List Path → World → Bool × World
  | [], w => (false, w)
  | p :: ps, w =>
    match w.resource p with
    | none => (true, w)
    | some content =>
      let w1 := w.log (FileOp.create p)
      if w1.fails (FileOp.create p) then (true, w1)
      else
        let w2 := (w1.setBin p (some [])).log (FileOp.copy p)
        if w2.fails (FileOp.copy p) then (true, w2)
        else
          let w3 := w2.setBin p (some content)
          if p = Path.rosettax87 then
            let w4 := w3.log (FileOp.chmod p)
            if w4.fails (FileOp.chmod p) then (true, w4) else copyRosetta ps w4
          else copyRosetta ps w3

/-- The text the step of `PatchTurtleWoW` on `dlls.txt` writes: the content
read, a line feed when it is not empty and does not end in one, and then each
of the two entries that is needed and does not occur, followed by a line
feed, in what was put together so far. -/
def addMissingEntries (needsWinerosettaUpdate needsLibSiliconPatchUpdate
    shouldEnableLibSiliconPatch : Bool) (currentContent : List Char) : List Char :=
  let updatedContent := currentContent
  let updatedContent :=
    if updatedContent.length > 0 && !hasNewlineSuffix updatedContent then
      updatedContent ++ ['\n']
    else updatedContent
  let updatedContent :=
    if needsWinerosettaUpdate
        && !stringsContains updatedContent (winerosettaEntry ++ ['\n']) then
      updatedContent ++ winerosettaEntry ++ ['\n']
    else updatedContent
  let updatedContent :=
    if needsLibSiliconPatchUpdate && shouldEnableLibSiliconPatch
        && !stringsContains updatedContent (libSiliconPatchEntry ++ ['\n']) then
      updatedContent ++ libSiliconPatchEntry ++ ['\n']
    else updatedContent
  updatedContent

/-- The step of `PatchTurtleWoW` on `dlls.txt`: a first read decides which
entries are missing; when one is, the file is read again, the missing entries
are appended and the file is written.  A failure of the second read or of the
write shows the error dialog and nothing more. -/
def patchDllsTxt (shouldEnableLibSiliconPatch : Bool) (w : World) : World :=
  let w0 := w.log (FileOp.readFile Path.dllsTxt)
  let fileContent : Option (List Char) :=
    match w0.dlls with
    | some content => if w0.fails (FileOp.readFile Path.dllsTxt) then none else some content
    | none => none
  let needsWinerosettaUpdate :=
    match fileContent with
    | some content => !stringsContains content winerosettaEntry
    | none => true
  let needsLibSiliconPatchUpdate :=
    match fileContent with
    | some content => !stringsContains content libSiliconPatchEntry
    | none => true
  let needsLibSiliconPatchUpdate :=
    if !shouldEnableLibSiliconPatch then false else needsLibSiliconPatchUpdate
  if needsWinerosettaUpdate || needsLibSiliconPatchUpdate then
    let w1 := w0.log (FileOp.stat Path.dllsTxt)
    let read : World × List Char :=
      match w1.dlls with
      | none => (w1, [])
      | some content =>
        let w2 := w1.log (FileOp.readFile Path.dllsTxt)
        if w2.fails (FileOp.readFile Path.dllsTxt) then (w2.showError, []) else (w2, content)
    let currentContent := read.2
    let updatedContent :=
      addMissingEntries needsWinerosettaUpdate needsLibSiliconPatchUpdate
        shouldEnableLibSiliconPatch currentContent
    let w3 := read.1.log (FileOp.writeFile Path.dllsTxt)
    if w3.fails (FileOp.writeFile Path.dllsTxt) then w3.showError
    else { w3 with dlls := some updatedContent }
  else w0

/-- The world after a settings function ran on its part of the world; the
error it returns is only logged by the callers here. -/
def World.withConfig (w : World) (r : Option ConfigError × ConfigFs) : World :=
  { w with toConfigFs := r.2 }

/-- The preferences `PatchTurtleWoW` saves: each of the two features is
switched on unless the user has disabled it. -/
def patchPrefs (prefs : Prefs) : Prefs :=
  let prefs :=
    if prefs.userDisabledLibSiliconPatch then prefs
    else { prefs with enableLibSiliconPatch := true }
  let prefs :=
    if prefs.userDisabledShadowLOD then prefs else { prefs with setShadowLOD0 := true }
  prefs

/-- The rest of `PatchTurtleWoW` once the files are in place: the
preferences, `dlls.txt`, `Config.wtf`, the dialog `Success` and
`updateAllStatuses`.  No step here aborts. -/
def finishPatch (uni : Char → Bool) (w : World) : World :=
  let prefs := LoadPrefs w
  let shouldEnableLibSiliconPatch := !prefs.userDisabledLibSiliconPatch
  let shouldEnableShadowLOD := !prefs.userDisabledShadowLOD
  let w1 := SavePrefs w (patchPrefs prefs)
  let w2 := patchDllsTxt shouldEnableLibSiliconPatch w1
  let w3 := if !shouldEnableLibSiliconPatch then (disableLibSiliconPatchInDlls w2).2 else w2
  let w4 := w3.withConfig (applyVertexAnimShadersSetting uni w3.toConfigFs)
  let w5 :=
    if shouldEnableShadowLOD then w4.withConfig (applyShadowLODSetting uni w4.toConfigFs)
    else w4.withConfig (removeShadowLODSetting uni w4.toConfigFs)
  { w5 with dialogs := w5.dialogs ++ [Dialog.success], statusUpdates := w5.statusUpdates + 1 }

/-- The function `PatchTurtleWoW`.  The lists `order` and `rorder` are the
orders in which `range` yields the entries of the two maps, which Go leaves
open: the three files `winerosetta.dll`, `d3d9.dll`, `libSiliconPatch.dll`
and the two files of `rosettax87`. -/
def PatchTurtleWoW (uni : Char → Bool) (order rorder : List Path) (w : World) : World :=
  if w.turtlewowPath = [] then w.showError
  else
    match copyBundled order w with
    | (true, w1) => abortPatch w1
    | (false, w1) =>
      match prepareRosettaDir w1 with
      | (true, w2) => abortPatch w2
      | (false, w2) =>
        match copyRosetta rorder w2 with
        | (true, w3) => abortPatch w3
        | (false, w3) => finishPatch uni w3

/-! ## The patch orchestrator: the other three buttons -/

/-- One round of the loop of `UnpatchTurtleWoW` over `filesToRemove`: the
file is removed when it exists; a failure shows the error dialog. -/
def removeIfExists (w : World) (p : Path) : World :=
  let w0 := w.log (FileOp.stat p)
  if binExists w0 p then
    let w1 := w0.log (FileOp.remove p)
    if w1.fails (FileOp.remove p) then w1.showError else w1.setBin p none
  else w0

/-- The step of `UnpatchTurtleWoW` on `dlls.txt`: when the file exists and
can be read, its lines other than the two entries are written back. -/
def unpatchDllsTxt (w : World) : World :=
  let w0 := w.log (FileOp.stat Path.dllsTxt)
  match w0.dlls with
  | none => w0
  | some content =>
    let w1 := w0.log (FileOp.readFile Path.dllsTxt)
    if w1.fails (FileOp.readFile Path.dllsTxt) then w1.showError
    else
      let updatedContent := removeEntries [winerosettaEntry, libSiliconPatchEntry] content
      let w2 := w1.log (FileOp.writeFile Path.dllsTxt)
      if w2.fails (FileOp.writeFile Path.dllsTxt) then w2.showError
      else { w2 with dlls := some updatedContent }

/-- The function `UnpatchTurtleWoW`. -/
def UnpatchTurtleWoW (uni : Char → Bool) (w : World) : World :=
  if w.turtlewowPath = [] then w.showError
  else
    let w0 := w.log (FileOp.stat Path.rosettaDir)
    let w1 :=
      if w0.rosettaDir then
        let w01 := w0.log (FileOp.removeAll Path.rosettaDir)
        if w01.fails (FileOp.removeAll Path.rosettaDir) then w01.showError
        else
          { (w01.setBin Path.rosettax87 none).setBin Path.libRuntimeRosettax87 none with
            rosettaDir := false, rosettaStale := false }
      else w0
    let w2 :=
      [Path.winerosettaDll, Path.d3d9Dll, Path.libSiliconPatchDll].foldl removeIfExists w1
    let w3 := unpatchDllsTxt w2
    let prefs := LoadPrefs w3
    let w4 :=
      if prefs.setShadowLOD0 then w3.withConfig (removeShadowLODSetting uni w3.toConfigFs)
      else w3
    { w4 with
      patchesAppliedTurtleWoW := false, dialogs := w4.dialogs ++ [Dialog.success],
      statusUpdates := w4.statusUpdates + 1 }

/-- The end of `PatchCrossOver` after a step that aborts it. -/
def abortPatchCrossOver (w : World) : World :=
  { w.showError with patchesAppliedCrossOver := false, statusUpdates := w.statusUpdates + 1 }

/-- The function `PatchCrossOver`: `wineloader` is copied to `wineloader2`,
the signature of the copy is removed and the copy is made executable.  The
helper `utils.CopyFile` is taken to copy the bytes; the bytes `codesign`
changes are not part of the world. -/
def PatchCrossOver (w : World) : World :=
  if w.crossoverPath = [] then w.showError
  else
    let w0 := w.log (FileOp.stat Path.wineloader)
    if !binExists w0 Path.wineloader then abortPatchCrossOver w0
    else
      let w1 := w0.log (FileOp.copy Path.wineloader2)
      if w1.fails (FileOp.copy Path.wineloader2) then abortPatchCrossOver w1
      else
        let w2 := (w1.setBin Path.wineloader2 (w1.bin Path.wineloader)).log
          (FileOp.codesign Path.wineloader2)
        if w2.fails (FileOp.codesign Path.wineloader2) then
          let w3 := { w2.showError with patchesAppliedCrossOver := false }
          let w4 := w3.log (FileOp.remove Path.wineloader2)
          let w5 :=
            if w4.fails (FileOp.remove Path.wineloader2) then w4
            else w4.setBin Path.wineloader2 none
          { w5 with statusUpdates := w5.statusUpdates + 1 }
        else
          let w3 := w2.log (FileOp.chmod Path.wineloader2)
          if w3.fails (FileOp.chmod Path.wineloader2) then abortPatchCrossOver w3
          else
            { w3 with
              patchesAppliedCrossOver := true, dialogs := w3.dialogs ++ [Dialog.success],
              statusUpdates := w3.statusUpdates + 1 }

/-- The function `UnpatchCrossOver`. -/
def UnpatchCrossOver (w : World) : World :=
  if w.crossoverPath = [] then w.showError
  else
    let w0 := w.log (FileOp.stat Path.wineloader2)
    let removed : Bool × World :=
      if binExists w0 Path.wineloader2 then
        let w1 := w0.log (FileOp.remove Path.wineloader2)
        if w1.fails (FileOp.remove Path.wineloader2) then
          (true, { w1.showError with statusUpdates := w1.statusUpdates + 1 })
        else (false, w1.setBin Path.wineloader2 none)
      else (false, w0)
    match removed with
    | (true, w2) => w2
    | (false, w2) =>
      { w2 with
        patchesAppliedCrossOver := false, dialogs := w2.dialogs ++ [Dialog.success],
        statusUpdates := w2.statusUpdates + 1 }

/-! ## The graphics settings -/

/-- The key `farclip`. -/
def farclip : List Char := "farclip".toList

/-- The key `gxMultisample`. -/
def gxMultisample : List Char := "gxMultisample".toList

/-- The text the three toggles of `ApplyGraphicsSettingsForVersion` make of
the settings text: for each of `farclip`, `gxMultisample` and `shadowLOD`, in
this order, `updateOrAddConfigSetting` with the value `177`, `2`, `0` when the
toggle is on and `removeConfigSetting` when it is off. -/
def applyToggles (uni : Char → Bool)
    (reduceTerrainDistance setMultisampleTo2x setShadowLOD0 : Bool) (configText : List Char) :
    List Char :=
  let configText :=
    if reduceTerrainDistance then updateOrAddConfigSetting uni configText farclip "177".toList
    else removeConfigSetting uni configText farclip
  let configText :=
    if setMultisampleTo2x then updateOrAddConfigSetting uni configText gxMultisample "2".toList
    else removeConfigSetting uni configText gxMultisample
  let configText :=
    if setShadowLOD0 then updateOrAddConfigSetting uni configText shadowLOD "0".toList
    else removeConfigSetting uni configText shadowLOD
  configText

/-- The function `ApplyGraphicsSettingsForVersion`: the returned error (`none`
for `nil`) and the world after the call.  The settings text is read, changed
by the three toggles and written back; in between, when `libSiliconPatch.dll`
exists, `dlls.txt` is changed with `paths.TurtlewowPath` set to the game path
for the time of the call. -/
def ApplyGraphicsSettingsForVersion (uni : Char → Bool) (gamePath : List Char)
    (reduceTerrainDistance setMultisampleTo2x setShadowLOD0 enableLibSiliconPatch : Bool)
    (w : World) : Option ConfigError × World :=
  if gamePath = [] then (some ConfigError.pathNotSet, w)
  else
    let w0 := w.log (FileOp.mkdirAll Path.wtfDir)
    if w0.mkdirFails then (some ConfigError.mkdirFailed, w0)
    else
      let w1 := { w0 with wtfDir := true }.log (FileOp.readFile Path.configWtf)
      let configText :=
        match w1.config with
        | some content => if w1.readFails then [] else content
        | none => []
      let configText :=
        applyToggles uni reduceTerrainDistance setMultisampleTo2x setShadowLOD0 configText
      let w2 := w1.log (FileOp.stat Path.libSiliconPatchDll)
      let w3 :=
        if binExists w2 Path.libSiliconPatchDll then
          let originalPath := w2.turtlewowPath
          let w20 := { w2 with turtlewowPath := gamePath }
          let w21 :=
            if enableLibSiliconPatch then (enableLibSiliconPatchInDlls w20).2
            else (disableLibSiliconPatchInDlls w20).2
          { w21 with turtlewowPath := originalPath }
        else w2
      let w4 := w3.log (FileOp.writeFile Path.configWtf)
      if w4.writeFails then (some ConfigError.writeFailed, w4)
      else (none, { w4 with config := some configText })

/-- The settings of the current version that the check functions read and
change. -/
structure VersionSettings where
  /-- The field `ReduceTerrainDistance`. -/
  reduceTerrainDistance : Bool
  /-- The field `SetMultisampleTo2x`. -/
  setMultisampleTo2x : Bool
  /-- The field `SetShadowLOD0`. -/
  setShadowLOD0 : Bool
  /-- The field `EnableLibSiliconPatch`. -/
  enableLibSiliconPatch : Bool
  /-- The field `UserDisabledShadowLOD`. -/
  userDisabledShadowLOD : Bool
  /-- The field `UserDisabledLibSiliconPatch`. -/
  userDisabledLibSiliconPatch : Bool
  deriving DecidableEq, Repr

/-- The current version as the version manager returns it. -/
structure GameVersion where
  /-- The field `GamePath`. -/
  gamePath : List Char
  /-- The field `Settings`. -/
  settings : VersionSettings
  deriving DecidableEq, Repr

/-- The function `CheckGraphicsSettings`: `cur` is the current version, `none`
when the version manager cannot be loaded or has no current version; `config`
is the content of `WTF/Config.wtf` under its game path, `none` when the file
does not exist; `readFails` says whether `os.ReadFile` returns an error. -/
def CheckGraphicsSettings (cur : Option GameVersion) (config : Option (List Char))
    (readFails : Bool) : Bool × Bool × Bool :=
  match cur with
  | none => (false, false, false)
  | some currentVer =>
    if currentVer.gamePath = [] then (false, false, false)
    else
      match config with
      | none => (false, false, false)
      | some content =>
        if readFails then (false, false, false)
        else
          let configText := content
          let terrainCorrect :=
            !currentVer.settings.reduceTerrainDistance
              || isConfigSettingCorrect configText farclip "177".toList
          let multisampleCorrect :=
            !currentVer.settings.setMultisampleTo2x
              || isConfigSettingCorrect configText gxMultisample "2".toList
          let shadowCorrect :=
            !currentVer.settings.setShadowLOD0
              || isConfigSettingCorrect configText shadowLOD "0".toList
          (terrainCorrect, multisampleCorrect, shadowCorrect)

/-- The function `CheckShadowLODSetting`. -/
def CheckShadowLODSetting (fs : ConfigFs) : Bool :=
  if fs.turtlewowPath = [] then false
  else
    match fs.config with
    | none => false
    | some content =>
      if fs.readFails then false
      else isConfigSettingCorrect content shadowLOD "0".toList

/-- The function `CheckGraphicsSettingsPresence`: the settings of the
current version after the call, `none` when there is no current version.
Here `cur` is the current version, `none` when the version manager cannot be
loaded or has no current version;
`libSiliconPatchExists` says whether `libSiliconPatch.dll` exists under its
game path; `dlls` is the content of `dlls.txt` there, `none` when the file
does not exist or cannot be read; `fs` is the world `CheckShadowLODSetting`
reads. -/
def CheckGraphicsSettingsPresence (cur : Option GameVersion) (libSiliconPatchExists : Bool)
    (dlls : Option (List Char)) (fs : ConfigFs) : Option VersionSettings :=
  match cur with
  | none => none
  | some currentVer =>
    if currentVer.gamePath = [] then some currentVer.settings
    else
      let libSiliconPatchEnabled :=
        match dlls with
        | some fileContent => stringsContains fileContent libSiliconPatchEntry
        | none => false
      let shadowLODApplied := CheckShadowLODSetting fs
      let settings := currentVer.settings
      let settings :=
        if libSiliconPatchExists && (libSiliconPatchEnabled && !settings.enableLibSiliconPatch) then
          { settings with enableLibSiliconPatch := true, userDisabledLibSiliconPatch := false }
        else settings
      let settings :=
        if shadowLODApplied && !settings.setShadowLOD0 then
          { settings with setShadowLOD0 := true, userDisabledShadowLOD := false }
        else settings
      some settings

/-! ## The status panel of `pkg/ui/status.go` -/

/-- What `updateCrossoverStatus` shows. -/
structure CrossoverStatus where
  /-- Whether the path label shows the path and not `Not set`. -/
  pathShown : Bool
  /-- Whether the status label reads `Patched` and not `Not patched`. -/
  patched : Bool
  /-- Whether the patch button is enabled. -/
  patchButtonEnabled : Bool
  /-- Whether the unpatch button is enabled. -/
  unpatchButtonEnabled : Bool
  deriving DecidableEq, Repr

/-- The function `updateCrossoverStatus`: the flag
`paths.PatchesAppliedCrossOver` after the call and what the panel shows.
Here `crossoverPath` is `paths.CrossoverPath`, `flag` the flag before the
call and `wineloader2Exists` the answer of `utils.PathExists` for
`wineloader2`. -/
def updateCrossoverStatus (crossoverPath : List Char) (flag wineloader2Exists : Bool) :
    Bool × CrossoverStatus :=
  let flag1 :=
    if crossoverPath = [] then false
    else if wineloader2Exists then true
    else flag
  if flag1 then
    (flag1, { pathShown := !crossoverPath.isEmpty, patched := true,
              patchButtonEnabled := false, unpatchButtonEnabled := true })
  else
    (flag1, { pathShown := !crossoverPath.isEmpty, patched := false,
              patchButtonEnabled := !crossoverPath.isEmpty, unpatchButtonEnabled := false })

/-! ## Sample worlds -/

/-- A game folder under `root` and a CrossOver bundle under `crossover` in
which nothing is installed yet: no manifest, no settings file, none of the
patch files; every bundled resource is there and no call fails. -/
def freshWorld (root crossover : List Char) : World :=
  { turtlewowPath := root, wtfDir := false, config := none,
    mkdirFails := false, readFails := false, writeFails := false, ops := [],
    crossoverPath := crossover, patchesAppliedTurtleWoW := false,
    patchesAppliedCrossOver := false, dlls := none,
    bin := fun p => if p = Path.wineloader then some [1, 2, 3] else none,
    rosettaDir := false, rosettaStale := false,
    prefs := { userDisabledLibSiliconPatch := false, userDisabledShadowLOD := false,
               enableLibSiliconPatch := false, setShadowLOD0 := false },
    resource := fun _ => some [7, 7, 7, 7], fails := fun _ => false,
    dialogs := [], statusUpdates := 0 }

/-! ## Vocabulary of the statements: lines of the manifest -/

/-- Whether some line of the text, trimmed, equals the entry: the test the
removal functions apply to each line. -/
def hasLine (entry content : List Char) : Bool :=
  (stringsSplit content).any (fun line => stringsTrimSpace line == entry)

/-- The text with a line feed added when it is not empty and does not end in
one. -/
def withNewline (content : List Char) : List Char :=
  if content.length > 0 && !hasNewlineSuffix content then content ++ ['\n'] else content

/-! ## Vocabulary of the statements: what a step leaves alone -/

/-- The second world differs from the first at most in the binary files, in
the directory `rosettax87` and in the calls made so far. -/
def OnlyBinaries (w w2 : World) : Prop :=
  w2.turtlewowPath = w.turtlewowPath ∧ w2.wtfDir = w.wtfDir ∧ w2.config = w.config
  ∧ w2.mkdirFails = w.mkdirFails ∧ w2.readFails = w.readFails ∧ w2.writeFails = w.writeFails
  ∧ w2.crossoverPath = w.crossoverPath
  ∧ w2.patchesAppliedTurtleWoW = w.patchesAppliedTurtleWoW
  ∧ w2.patchesAppliedCrossOver = w.patchesAppliedCrossOver
  ∧ w2.dlls = w.dlls ∧ w2.prefs = w.prefs ∧ w2.resource = w.resource ∧ w2.fails = w.fails
  ∧ w2.dialogs = w.dialogs ∧ w2.statusUpdates = w.statusUpdates

/-- The text is empty or ends in a line feed. -/
def EndsLine (t : List Char) : Prop :=
  t = [] ∨ ∃ t0, t = t0 ++ ['\n']

/-! ## Vocabulary of the statements: the manifest after the patch -/

/-- The manifest the step of `PatchTurtleWoW` on `dlls.txt` leaves when no
call fails, from the manifest before it (`none` when the file is missing) and
from whether the library is wanted. -/
def patchedManifest (should : Bool) : Option (List Char) → List Char
  | none => addMissingEntries true should should []
  | some content =>
    if !stringsContains content winerosettaEntry
        || (should && !stringsContains content libSiliconPatchEntry) then
      addMissingEntries (!stringsContains content winerosettaEntry)
        (should && !stringsContains content libSiliconPatchEntry) should content
    else content

/-! ## Vocabulary of the statements: directives in a text -/

/-- The keyword `SET` of a directive. -/
def kw : List Char := ['S', 'E', 'T']

/-- The text `s` starts with a directive for the key `k` with value `v` and is
followed by `r`: `SET`, white space, the key, white space, and the value
between double quotes.  This is the language of `SET\s+K\s+"([^"]*)"` written
as a decomposition of the text. -/
def SettingAt (k v r s : List Char) : Prop :=
  ∃ w1 w2 : List Char,
    w1 ≠ [] ∧ (∀ c ∈ w1, isSpace c = true) ∧
    w2 ≠ [] ∧ (∀ c ∈ w2, isSpace c = true) ∧
    dq ∉ v ∧ s = kw ++ w1 ++ k ++ w2 ++ [dq] ++ v ++ [dq] ++ r

/-- The text `b` starts with `SET`, white space, the key, white space and an
opening double quote. -/
def OpensAt (k b : List Char) : Prop :=
  ∃ w1 w2 b2 : List Char,
    w1 ≠ [] ∧ (∀ c ∈ w1, isSpace c = true) ∧
    w2 ≠ [] ∧ (∀ c ∈ w2, isSpace c = true) ∧
    b = kw ++ w1 ++ k ++ w2 ++ [dq] ++ b2

/-- The text `doc` contains a directive for the key `k` with value `x`. -/
def HasSetting (k x doc : List Char) : Prop :=
  ∃ pre r s, doc = pre ++ s ∧ SettingAt k x r s

/-- The text `b` is an unterminated directive for the key `k`: `SET`, white
space, the key, white space, an opening double quote and text without double
quote up to the end. -/
def OpenSettingAt (k b : List Char) : Prop :=
  ∃ w1 w2 x : List Char,
    w1 ≠ [] ∧ (∀ c ∈ w1, isSpace c = true) ∧
    w2 ≠ [] ∧ (∀ c ∈ w2, isSpace c = true) ∧
    dq ∉ x ∧ b = kw ++ w1 ++ k ++ w2 ++ [dq] ++ x

/-- The text `configText` holds no directive for `setting` but ends inside one
that is left open: `SET`, the key and an opening double quote with no double
quote after it, so that closing the quote at the very end of the text would
make a directive. -/
def endsInOpenSetting (setting configText : List Char) : Bool :=
  !matchString (matchSettingAt setting) configText &&
    matchString (matchSettingAt setting) (configText ++ [dq])

/-- The line feed `updateOrAddConfigSetting` puts before an appended directive:
one when the text is not empty and does not end with a line feed. -/
def lineSep (configText : List Char) : List Char :=
  if configText ≠ [] ∧ configText.getLast? ≠ some '\n' then ['\n'] else []

/-! ## Vocabulary of the statements: the search and the replacement loop -/

/-- A one-position matcher that always consumes input. -/
def Shrinks (m : List Char → Option (List Char × List Char)) : Prop :=
  ∀ s v r, m s = some (v, r) → r.length < s.length

/-- No match of `m` starts inside `p` when `p` is followed by `t`. -/
def NoMatchIn (m : List Char → Option (List Char × List Char)) (p t : List Char) : Prop :=
  ∀ a b, p = a ++ b → b ≠ [] → m (b ++ t) = none

/-- The replacement loop with the fuel `ReplaceAllString` gives it. -/
def replaceAll (m : List Char → Option (List Char × List Char))
    (repl : List Char → List Char) (s : List Char) : List Char :=
  replaceAllLoop m repl (s.length + 1) s

/-- No match of `m` starts inside `p` when `p` is followed by `t`
(the computable form of `NoMatchIn`). -/
def noMatchStartsIn (m : List Char → Option (List Char × List Char)) :
    List Char → List Char → Bool
  | [], _ => true
  | c :: p, t => (m (c :: (p ++ t))).isNone && noMatchStartsIn m p t

/-! ## Vocabulary of the statements: documents as lists of lines -/

/-- The text of a list of lines, each followed by a line feed. -/
def unlines : List (List Char) → List Char
  | [] => []
  | l :: ls => l ++ '\n' :: unlines ls

/-- The line is exactly one directive for the key: the pattern matches it from
its first to its last character. -/
def isSettingLine (k l : List Char) : Bool :=
  match matchSettingAt k l with
  | some (_, []) => true
  | _ => false

/-- Every line is free of line feeds, and is either exactly one directive for
the key or a line inside which no directive for the key starts. -/
def wholeLineSettings (k : List Char) : List (List Char) → Bool
  | [] => true
  | l :: ls =>
    !l.contains '\n' &&
      (isSettingLine k l || noMatchStartsIn (matchSettingAt k) l ('\n' :: unlines ls)) &&
      wholeLineSettings k ls

/-- No directive line for the key is directly followed by an empty line or by a
line that begins with a carriage return. -/
def noBreakAfterSetting (k : List Char) : List (List Char) → Bool
  | [] => true
  | l :: ls =>
    (!isSettingLine k l ||
      match ls with
      | [] => true
      | [] :: _ => false
      | (c :: _) :: _ => !isLineBreak c) &&
    noBreakAfterSetting k ls

/-! ## Vocabulary of the statements: settings files as the game writes them -/

/-- The key a line that begins with `SET` names: what follows `SET` and the
white space after it, up to the next white space. -/
def lineKey (l : List Char) : List Char :=
  ((l.drop 3).dropWhile isSpace).takeWhile (fun c => !isSpace c)

/-- A line of a tidy settings file: it is not empty, does not begin with a
carriage return and holds no line feed; the text `SET` occurs in it at most
at its start; and when it begins with `SET` it is exactly one directive, for
a key that is not empty and holds no double quote. -/
def tidyLine (l : List Char) : Bool :=
  (match l with
    | [] => false
    | c :: _ => !isLineBreak c)
  && !l.contains '\n'
  && !stringsContains (l.drop 1) kw
  && (!kw.isPrefixOf l
      || (isSettingLine (lineKey l) l && !(lineKey l).isEmpty && !(lineKey l).contains dq))

/-- A tidy settings file, as a list of lines: every line is tidy. -/
def tidyDoc (ls : List (List Char)) : Bool :=
  ls.all tidyLine

/-! ## Vocabulary of the statements: the settings engine on lists of lines -/

/-- The lines after `updateOrAddConfigSetting`, for a tidy settings file:
every directive line for the key becomes the new directive, and when there is
none the new directive is added as the last line. -/
def upsertLines (k v : List Char) (ls : List (List Char)) : List (List Char) :=
  if ls.any (fun l => isSettingLine k l) then
    ls.map (fun l => if isSettingLine k l then newSetting k v else l)
  else ls ++ [newSetting k v]

/-- The lines after `removeConfigSetting`, for a tidy settings file: the
lines that are not a directive for the key. -/
def removeLines (k : List Char) (ls : List (List Char)) : List (List Char) :=
  ls.filter (fun l => !isSettingLine k l)

/-- The lines after one toggle of `ApplyGraphicsSettingsForVersion`. -/
def toggleLines (enabled : Bool) (k v : List Char) (ls : List (List Char)) :
    List (List Char) :=
  if enabled then upsertLines k v ls else removeLines k ls

/-- The directive lines for the key, in their order. -/
def settingLines (k : List Char) (ls : List (List Char)) : List (List Char) :=
  ls.filter (fun l => isSettingLine k l)

/-! ## Vocabulary of the statements: the calls a step makes -/

/-- The second world has made the calls of the first and then only calls
that satisfy `P`. -/
def OpsExtend (P : FileOp → Prop) (w w2 : World) : Prop :=
  ∃ extra, w2.ops = w.ops ++ extra ∧ ∀ op ∈ extra, P op

/-- The calls of the last part of `PatchTurtleWoW`: those on `dlls.txt`, on
the directory `WTF` and on `Config.wtf`. -/
def finishOps : List FileOp :=
  [FileOp.readFile Path.dllsTxt, FileOp.stat Path.dllsTxt, FileOp.writeFile Path.dllsTxt,
   FileOp.mkdirAll Path.wtfDir, FileOp.readFile Path.configWtf,
   FileOp.writeFile Path.configWtf, FileOp.stat Path.configWtf]

/-- A step of the last part of `PatchTurtleWoW` from the first world to the
second: the binary files, the resources, the failing calls and the root are
the same, and the calls made are among `finishOps`. -/
def FinishStep (w w2 : World) : Prop :=
  w2.bin = w.bin ∧ w2.resource = w.resource ∧ w2.fails = w.fails
  ∧ w2.turtlewowPath = w.turtlewowPath ∧ OpsExtend (fun op => op ∈ finishOps) w w2

/-- Whether the call writes one of the three bundled libraries. -/
def payloadWrite : FileOp → Bool
  | FileOp.create p => p == Path.winerosettaDll || p == Path.d3d9Dll
      || p == Path.libSiliconPatchDll
  | FileOp.copy p => p == Path.winerosettaDll || p == Path.d3d9Dll
      || p == Path.libSiliconPatchDll
  | _ => false

/-- Whether a failure of the call aborts `PatchTurtleWoW`: the calls that
create or fill a file, that create the directory `rosettax87`, and that set a
file mode. -/
def placingOp : FileOp → Bool
  | FileOp.create _ => true
  | FileOp.copy _ => true
  | FileOp.chmod _ => true
  | FileOp.mkdirAll p => p == Path.rosettaDir
  | _ => false

/-- The file exists with the byte length of its bundled resource. -/
def inPlace (w : World) (p : Path) : Bool :=
  binExists w p && CompareFileWithBundledResource w p

/-! ## Vocabulary of the statements: where the placing of files stops -/

/-- Whether the call is `os.ReadFile` or `os.WriteFile`: the calls of the
steps of `PatchTurtleWoW` on `dlls.txt` and `Config.wtf`, which no step
before them makes. -/
def textFileOp : FileOp → Bool
  | FileOp.readFile _ => true
  | FileOp.writeFile _ => true
  | _ => false

/-- The calls `extra` end at a failure: the last of them is a placing call
that failed and every placing call before it succeeded, or the resource of
one of the files is not bundled and every placing call succeeded. -/
def StoppedAt (fails : FileOp → Bool) (resource : Path → Option (List Nat))
    (files : List Path) (extra : List FileOp) : Prop :=
  (∃ pre op, extra = pre ++ [op] ∧ placingOp op = true ∧ fails op = true
      ∧ ∀ o ∈ pre, placingOp o = true → fails o = false)
  ∨ ((∃ p ∈ files, resource p = none) ∧ ∀ o ∈ extra, placingOp o = true → fails o = false)

/-- What a step that places the files `files` does from the world `w`, `r`
being whether it failed and the world it left: the calls it made are not on
text files; when it failed they end at the failure; when it succeeded every
placing call succeeded and every resource is bundled. -/
def StageSpec (w : World) (files : List Path) (r : Bool × World) : Prop :=
  ∃ extra, r.2.ops = w.ops ++ extra
    ∧ (∀ op ∈ extra, textFileOp op = false)
    ∧ (r.1 = true → StoppedAt w.fails w.resource files extra)
    ∧ (r.1 = false →
        (∀ o ∈ extra, placingOp o = true → w.fails o = false)
        ∧ ∀ p ∈ files, w.resource p ≠ none)

/-- How a call of `PatchTurtleWoW` that put the files `files` in place ended,
`w` being the world before it and `v` the world after it.  When the resource
of one of the files is not bundled or a placing call the call made failed,
the call aborted: it showed the error dialog, set `PatchesAppliedTurtleWoW`
to false, called `updateAllStatuses`, left the preferences, `dlls.txt` and
`Config.wtf` as they were, made no call on a text file, and its calls end at
the failure.  Otherwise the last dialog it showed is `Success`. -/
def PatchOutcome (w : World) (files : List Path) (v : World) : Prop :=
  ∃ extra, v.ops = w.ops ++ extra
    ∧ (((∃ p ∈ files, w.resource p = none)
          ∨ ∃ op ∈ extra, placingOp op = true ∧ w.fails op = true) →
        v.dialogs = w.dialogs ++ [Dialog.error]
        ∧ v.patchesAppliedTurtleWoW = false
        ∧ v.statusUpdates = w.statusUpdates + 1
        ∧ v.prefs = w.prefs ∧ v.dlls = w.dlls ∧ v.config = w.config
        ∧ (∀ op ∈ extra, textFileOp op = false)
        ∧ StoppedAt w.fails w.resource files extra)
    ∧ (¬ ((∃ p ∈ files, w.resource p = none)
          ∨ ∃ op ∈ extra, placingOp op = true ∧ w.fails op = true) →
        v.dialogs.getLast? = some Dialog.success)

/-! ## Lemmas: what the pattern accepts -/

theorem isSpace_dq : isSpace dq = false := by decide

theorem matchLiteral_eq_some {lit s r : List Char} :
    matchLiteral lit s = some r ↔ s = lit ++ r := by
  induction lit generalizing s with
  | nil => simp [matchLiteral]
  | cons a lit ih =>
    cases s with
    | nil => simp [matchLiteral]
    | cons c s =>
      simp only [matchLiteral]
      by_cases h : a = c
      · subst h
        simp [ih]
      · simp only [if_neg h, List.cons_append, List.cons.injEq]
        constructor
        · intro h1
          cases h1
        · rintro ⟨h1, -⟩
          exact absurd h1.symm h

theorem matchLiteral_append (lit r : List Char) : matchLiteral lit (lit ++ r) = some r :=
  matchLiteral_eq_some.2 rfl

theorem matchValue_eq_some {s v r : List Char} :
    matchValue s = some (v, r) ↔ s = v ++ dq :: r ∧ dq ∉ v := by
  induction s generalizing v r with
  | nil => simp [matchValue]
  | cons c s ih =>
    simp only [matchValue]
    by_cases h : c = dq
    · subst h
      simp only [if_pos rfl, Option.some.injEq, Prod.mk.injEq]
      constructor
      · rintro ⟨rfl, rfl⟩
        simp
      · rintro ⟨h1, h2⟩
        cases v with
        | nil => simpa using h1
        | cons d v =>
          simp only [List.cons_append, List.cons.injEq] at h1
          exact absurd (h1.1 ▸ List.mem_cons_self _ _) h2
    · simp only [if_neg h]
      cases hm : matchValue s with
      | none =>
        simp only [reduceCtorEq, false_iff]
        rintro ⟨h1, h2⟩
        cases v with
        | nil =>
          simp only [List.nil_append, List.cons.injEq] at h1
          exact h h1.1
        | cons d v =>
          simp only [List.cons_append, List.cons.injEq] at h1
          have : matchValue s = some (v, r) :=
            ih.2 ⟨h1.2, fun hd => h2 (List.mem_cons_of_mem _ hd)⟩
          rw [hm] at this
          cases this
      | some p =>
        obtain ⟨v1, r1⟩ := p
        have h3 := ih.1 hm
        simp only [Option.some.injEq, Prod.mk.injEq]
        constructor
        · rintro ⟨rfl, rfl⟩
          refine ⟨by simp [h3.1], ?_⟩
          intro hd
          rcases List.mem_cons.1 hd with hd | hd
          · exact h hd.symm
          · exact h3.2 hd
        · rintro ⟨h1, h2⟩
          cases v with
          | nil =>
            simp only [List.nil_append, List.cons.injEq] at h1
            exact absurd h1.1 h
          | cons d v =>
            simp only [List.cons_append, List.cons.injEq] at h1
            have : matchValue s = some (v, r) :=
              ih.2 ⟨h1.2, fun hd => h2 (List.mem_cons_of_mem _ hd)⟩
            rw [hm] at this
            simp only [Option.some.injEq, Prod.mk.injEq] at this
            exact ⟨by rw [h1.1, this.1], this.2⟩

theorem matchQuoted_eq_some {s v r : List Char} :
    matchQuoted s = some (v, r) ↔ s = dq :: (v ++ dq :: r) ∧ dq ∉ v := by
  cases s with
  | nil => simp [matchQuoted]
  | cons c s =>
    simp only [matchQuoted]
    by_cases h : c = dq
    · subst h
      simp [matchValue_eq_some]
    · simp only [if_neg h, List.cons.injEq, reduceCtorEq, false_iff]
      rintro ⟨⟨h1, -⟩, -⟩
      exact h h1

theorem matchSpaces_sound {α : Type} {k : List Char → Option α} {s : List Char} {a : α}
    (h : matchSpaces k s = some a) :
    ∃ w t, s = w ++ t ∧ w ≠ [] ∧ (∀ c ∈ w, isSpace c = true) ∧ k t = some a := by
  induction s with
  | nil => simp [matchSpaces] at h
  | cons c s ih =>
    simp only [matchSpaces] at h
    by_cases hc : isSpace c = true
    · simp only [if_pos hc] at h
      cases hm : matchSpaces k s with
      | none =>
        rw [hm] at h
        exact ⟨[c], s, rfl, by simp, by simpa using hc, h⟩
      | some b =>
        rw [hm] at h
        simp only [Option.some.injEq] at h
        subst h
        obtain ⟨w, t, h1, -, h3, h4⟩ := ih hm
        refine ⟨c :: w, t, by simp [h1], by simp, ?_, h4⟩
        intro x hx
        rcases List.mem_cons.1 hx with hx | hx
        · exact hx ▸ hc
        · exact h3 x hx
    · simp [if_neg hc] at h

theorem matchSpaces_cons_isSome {α : Type} {k : List Char → Option α} (c : Char)
    (w t : List Char) (hc : isSpace c = true) (hws : ∀ x ∈ w, isSpace x = true)
    (hk : (k t).isSome = true) : (matchSpaces k (c :: (w ++ t))).isSome = true := by
  induction w generalizing c with
  | nil =>
    simp only [List.nil_append, matchSpaces, if_pos hc]
    cases hm : matchSpaces k t with
    | none => simpa using hk
    | some b => simp
  | cons d w ih =>
    have h1 := ih d (hws d (List.mem_cons_self _ _))
      (fun x hx => hws x (List.mem_cons_of_mem _ hx))
    simp only [List.cons_append, matchSpaces, if_pos hc]
    simp only [List.cons_append, matchSpaces] at h1
    cases hm : (if isSpace d = true then
        match matchSpaces k (w ++ t) with
        | some r => some r
        | none => k (w ++ t)
      else none) with
    | none => rw [hm] at h1; simp at h1
    | some b => simp

theorem matchSpaces_complete {α : Type} {k : List Char → Option α} {w t : List Char}
    (hw : w ≠ []) (hws : ∀ c ∈ w, isSpace c = true) (hk : (k t).isSome = true) :
    (matchSpaces k (w ++ t)).isSome = true := by
  cases w with
  | nil => exact absurd rfl hw
  | cons c w =>
    exact matchSpaces_cons_isSome c w t (hws c (List.mem_cons_self _ _))
      (fun x hx => hws x (List.mem_cons_of_mem _ hx)) hk

theorem span_unique {p : Char → Bool} {a a1 b b1 : List Char} {c c1 : Char}
    (ha : ∀ x ∈ a, p x = true) (ha1 : ∀ x ∈ a1, p x = true)
    (hc : p c = false) (hc1 : p c1 = false) (h : a ++ c :: b = a1 ++ c1 :: b1) :
    a = a1 ∧ c :: b = c1 :: b1 := by
  induction a generalizing a1 with
  | nil =>
    cases a1 with
    | nil => exact ⟨rfl, by simpa using h⟩
    | cons d a1 =>
      simp only [List.nil_append, List.cons_append, List.cons.injEq] at h
      have := ha1 d (List.mem_cons_self _ _)
      rw [← h.1, hc] at this
      cases this
  | cons d a ih =>
    cases a1 with
    | nil =>
      simp only [List.nil_append, List.cons_append, List.cons.injEq] at h
      have := ha d (List.mem_cons_self _ _)
      rw [h.1, hc1] at this
      cases this
    | cons d1 a1 =>
      simp only [List.cons_append, List.cons.injEq] at h
      obtain ⟨h1, h2⟩ := ih (fun x hx => ha x (List.mem_cons_of_mem _ hx))
        (fun x hx => ha1 x (List.mem_cons_of_mem _ hx)) h.2
      exact ⟨by rw [h.1, h1], h2⟩

theorem value_unique {v v1 r r1 : List Char} (hv : dq ∉ v) (hv1 : dq ∉ v1)
    (h : v ++ dq :: r = v1 ++ dq :: r1) : v = v1 ∧ r = r1 := by
  have h1 := span_unique (p := fun c => c != dq)
    (fun x hx => by
      have : x ≠ dq := fun e => hv (e ▸ hx)
      simpa using this)
    (fun x hx => by
      have : x ≠ dq := fun e => hv1 (e ▸ hx)
      simpa using this)
    (by simp) (by simp) h
  exact ⟨h1.1, by simpa using h1.2⟩

theorem spaces_unique {w w1 r r1 : List Char} (hw : ∀ c ∈ w, isSpace c = true)
    (hw1 : ∀ c ∈ w1, isSpace c = true) (h : w ++ dq :: r = w1 ++ dq :: r1) :
    w = w1 ∧ r = r1 := by
  have h1 := span_unique (p := isSpace) hw hw1 isSpace_dq isSpace_dq h
  exact ⟨h1.1, by simpa using h1.2⟩

theorem matchSettingAt_sound {k s v r : List Char} (h : matchSettingAt k s = some (v, r)) :
    SettingAt k v r s := by
  unfold matchSettingAt at h
  cases h1 : matchLiteral ['S', 'E', 'T'] s with
  | none => rw [h1] at h; cases h
  | some s1 =>
    rw [h1] at h
    simp only at h
    obtain ⟨w1, t, e1, hw1, hs1, h2⟩ := matchSpaces_sound h
    cases h3 : matchLiteral k t with
    | none => rw [h3] at h2; cases h2
    | some s3 =>
      rw [h3] at h2
      simp only at h2
      obtain ⟨w2, t2, e2, hw2, hs2, h4⟩ := matchSpaces_sound h2
      obtain ⟨e3, hv⟩ := matchQuoted_eq_some.1 h4
      refine ⟨w1, w2, hw1, hs1, hw2, hs2, hv, ?_⟩
      rw [matchLiteral_eq_some.1 h1, e1, matchLiteral_eq_some.1 h3, e2, e3]
      simp [kw]

theorem matchSettingAt_complete {k s v r : List Char} (h : SettingAt k v r s) :
    (matchSettingAt k s).isSome = true := by
  obtain ⟨w1, w2, hw1, hs1, hw2, hs2, hv, e⟩ := h
  have e1 : s = ['S', 'E', 'T'] ++ (w1 ++ (k ++ (w2 ++ dq :: (v ++ dq :: r)))) := by
    rw [e]; simp [kw]
  unfold matchSettingAt
  rw [e1, matchLiteral_append]
  simp only
  apply matchSpaces_complete hw1 hs1
  rw [matchLiteral_append]
  simp only
  apply matchSpaces_complete hw2 hs2
  rw [matchQuoted_eq_some.2 ⟨rfl, hv⟩]
  rfl

theorem SettingAt.unique {k s v r v1 r1 : List Char} (h : SettingAt k v r s)
    (h1 : SettingAt k v1 r1 s) : v = v1 ∧ r = r1 := by
  obtain ⟨w1, w2, -, hs1, -, hs2, hv, e⟩ := h
  obtain ⟨u1, u2, -, ht1, -, ht2, hv1, e1⟩ := h1
  rw [e] at e1
  simp only [List.append_assoc, List.append_cancel_left_eq] at e1
  -- the tails after the opening quote agree
  have key : v ++ dq :: r = v1 ++ dq :: r1 := by
    have hk : k = k.takeWhile isSpace ++ k.dropWhile isSpace :=
      (List.takeWhile_append_dropWhile isSpace k).symm
    have hka : ∀ c ∈ k.takeWhile isSpace, isSpace c = true := fun c hc =>
      List.mem_takeWhile_imp hc
    cases hd : k.dropWhile isSpace with
    | nil =>
      rw [hd, List.append_nil] at hk
      have hkk : ∀ c ∈ k, isSpace c = true := fun c hc => hka c (hk ▸ hc)
      have e2 : (w1 ++ k ++ w2) ++ dq :: (v ++ dq :: r)
          = (u1 ++ k ++ u2) ++ dq :: (v1 ++ dq :: r1) := by
        simpa using e1
      refine (spaces_unique ?_ ?_ e2).2
      · intro c hc
        simp only [List.mem_append] at hc
        rcases hc with (hc | hc) | hc
        · exact hs1 c hc
        · exact hkk c hc
        · exact hs2 c hc
      · intro c hc
        simp only [List.mem_append] at hc
        rcases hc with (hc | hc) | hc
        · exact ht1 c hc
        · exact hkk c hc
        · exact ht2 c hc
    | cons d kb =>
      rw [hd] at hk
      have hdn : isSpace d = false := by
        have := List.head_dropWhile_not isSpace k (by simp [hd])
        simpa [hd] using this
      have e2 : (w1 ++ k.takeWhile isSpace) ++ d :: (kb ++ (w2 ++ dq :: (v ++ dq :: r)))
          = (u1 ++ k.takeWhile isSpace) ++ d :: (kb ++ (u2 ++ dq :: (v1 ++ dq :: r1))) := by
        have := e1
        rw [hk] at this
        simpa using this
      have h3 := span_unique (p := isSpace) ?_ ?_ hdn hdn e2
      · have h4 := h3.2
        simp only [List.cons.injEq, true_and, List.append_cancel_left_eq] at h4
        exact (spaces_unique hs2 ht2 h4).2
      · intro c hc
        rcases List.mem_append.1 hc with hc | hc
        · exact hs1 c hc
        · exact hka c hc
      · intro c hc
        rcases List.mem_append.1 hc with hc | hc
        · exact ht1 c hc
        · exact hka c hc
  exact value_unique hv hv1 key

theorem matchSettingAt_iff {k s v r : List Char} :
    matchSettingAt k s = some (v, r) ↔ SettingAt k v r s := by
  constructor
  · exact matchSettingAt_sound
  · intro h
    have h1 := matchSettingAt_complete h
    cases hm : matchSettingAt k s with
    | none => rw [hm] at h1; cases h1
    | some p =>
      obtain ⟨v1, r1⟩ := p
      obtain ⟨e1, e2⟩ := (matchSettingAt_sound hm).unique h
      rw [e1, e2]

theorem SettingAt.length_lt {k s v r : List Char} (h : SettingAt k v r s) :
    r.length < s.length := by
  obtain ⟨w1, w2, -, -, -, -, -, e⟩ := h
  rw [e]
  simp [kw]
  omega

/-! ## Lemmas: the search and the replacement loop -/

theorem replaceAllString_eq (uni : Char → Bool) (m : List Char → Option (List Char × List Char))
    (src repl : List Char) :
    replaceAllString uni m src repl = replaceAll m (expand uni repl) src := rfl

theorem shrinks_matchSettingAt (k : List Char) : Shrinks (matchSettingAt k) :=
  fun _ _ _ h => (matchSettingAt_sound h).length_lt

theorem matchSettingLineAt_eq_some {k s v r : List Char} :
    matchSettingLineAt k s = some (v, r) ↔
      ∃ r1, matchSettingAt k s = some (v, r1) ∧ r = r1.dropWhile isLineBreak := by
  unfold matchSettingLineAt
  cases h : matchSettingAt k s with
  | none => simp
  | some p =>
    obtain ⟨v1, r1⟩ := p
    simp only [Option.some.injEq, Prod.mk.injEq]
    constructor
    · rintro ⟨rfl, rfl⟩
      exact ⟨r1, ⟨rfl, rfl⟩, rfl⟩
    · rintro ⟨r2, ⟨rfl, rfl⟩, rfl⟩
      exact ⟨rfl, rfl⟩

theorem matchSettingLineAt_eq_none {k s : List Char} :
    matchSettingLineAt k s = none ↔ matchSettingAt k s = none := by
  unfold matchSettingLineAt
  cases h : matchSettingAt k s with
  | none => simp
  | some p => simp

theorem length_dropWhile_le (p : Char → Bool) (l : List Char) :
    (l.dropWhile p).length ≤ l.length := by
  induction l with
  | nil => simp
  | cons c l ih =>
    simp only [List.dropWhile_cons]
    split
    · exact Nat.le_succ_of_le ih
    · exact Nat.le_refl _

theorem shrinks_matchSettingLineAt (k : List Char) : Shrinks (matchSettingLineAt k) := by
  intro s v r h
  obtain ⟨r1, h1, rfl⟩ := matchSettingLineAt_eq_some.1 h
  exact Nat.lt_of_le_of_lt (length_dropWhile_le _ _) (shrinks_matchSettingAt k s v r1 h1)

theorem replaceAllLoop_fuel {m : List Char → Option (List Char × List Char)}
    {repl : List Char → List Char} (hm : Shrinks m) :
    ∀ (n : Nat) (s : List Char) (f1 f2 : Nat), s.length ≤ n → s.length < f1 → s.length < f2 →
      replaceAllLoop m repl f1 s = replaceAllLoop m repl f2 s := by
  intro n
  induction n with
  | zero =>
    intro s f1 f2 hn h1 h2
    have hs : s = [] := List.length_eq_zero.1 (Nat.le_zero.1 hn)
    subst hs
    cases f1 with
    | zero => simp at h1
    | succ f1 =>
      cases f2 with
      | zero => simp at h2
      | succ f2 => simp [replaceAllLoop]
  | succ n ih =>
    intro s f1 f2 hn h1 h2
    cases f1 with
    | zero => simp at h1
    | succ f1 =>
      cases f2 with
      | zero => simp at h2
      | succ f2 =>
        cases s with
        | nil => simp [replaceAllLoop]
        | cons c t =>
          simp only [replaceAllLoop]
          simp only [List.length_cons] at hn h1 h2
          cases hc : m (c :: t) with
          | none =>
            simp only
            rw [ih t f1 f2 (by omega) (by omega) (by omega)]
          | some p =>
            obtain ⟨v, r⟩ := p
            have hr := hm _ _ _ hc
            simp only [List.length_cons] at hr
            simp only
            rw [ih r f1 f2 (by omega) (by omega) (by omega)]

theorem replaceAllLoop_succ_cons (m : List Char → Option (List Char × List Char))
    (repl : List Char → List Char) (fuel : Nat) (c : Char) (t : List Char) :
    replaceAllLoop m repl (fuel + 1) (c :: t) =
      match m (c :: t) with
      | some (_, r) =>
        repl ((c :: t).take ((c :: t).length - r.length)) ++ replaceAllLoop m repl fuel r
      | none => c :: replaceAllLoop m repl fuel t := rfl

theorem findFirst_cons (m : List Char → Option (List Char × List Char)) (c : Char)
    (s : List Char) :
    findFirst m (c :: s) =
      match m (c :: s) with
      | some (v, r) => some ([], v, r)
      | none =>
        match findFirst m s with
        | some (b, v, r) => some (c :: b, v, r)
        | none => none := rfl

theorem replaceAll_nil (m : List Char → Option (List Char × List Char))
    (repl : List Char → List Char) : replaceAll m repl [] = [] := by
  simp [replaceAll, replaceAllLoop]

theorem replaceAll_cons_none {m : List Char → Option (List Char × List Char)}
    {repl : List Char → List Char} {c : Char} {t : List Char}
    (h : m (c :: t) = none) : replaceAll m repl (c :: t) = c :: replaceAll m repl t := by
  unfold replaceAll
  rw [replaceAllLoop_succ_cons, h]
  rfl

theorem replaceAll_of_match {m : List Char → Option (List Char × List Char)}
    {repl : List Char → List Char} (hm : Shrinks m) {s v r : List Char}
    (h : m s = some (v, r)) :
    replaceAll m repl s = repl (s.take (s.length - r.length)) ++ replaceAll m repl r := by
  have hr := hm _ _ _ h
  cases s with
  | nil => simp at hr
  | cons c t =>
    unfold replaceAll
    rw [replaceAllLoop_succ_cons, h]
    simp only [List.length_cons] at hr ⊢
    rw [replaceAllLoop_fuel hm r.length r (t.length + 1) (r.length + 1) (Nat.le_refl _)
      (by omega) (by omega)]

theorem NoMatchIn.nil (m : List Char → Option (List Char × List Char)) (t : List Char) :
    NoMatchIn m [] t := by
  intro a b h hb
  have : b = [] := (List.append_eq_nil.1 h.symm).2
  exact absurd this hb

theorem noMatchIn_cons {m : List Char → Option (List Char × List Char)} {c : Char}
    {p t : List Char} :
    NoMatchIn m (c :: p) t ↔ m (c :: (p ++ t)) = none ∧ NoMatchIn m p t := by
  constructor
  · intro h
    refine ⟨h [] (c :: p) rfl (by simp), ?_⟩
    intro a b e hb
    exact h (c :: a) b (by simp [e]) hb
  · rintro ⟨h1, h2⟩ a b e hb
    cases a with
    | nil =>
      simp only [List.nil_append] at e
      subst e
      exact h1
    | cons d a =>
      simp only [List.cons_append, List.cons.injEq] at e
      exact h2 a b e.2 hb

theorem replaceAll_skip {m : List Char → Option (List Char × List Char)}
    {repl : List Char → List Char} {p t : List Char}
    (h : NoMatchIn m p t) : replaceAll m repl (p ++ t) = p ++ replaceAll m repl t := by
  induction p with
  | nil => rfl
  | cons c p ih =>
    obtain ⟨h1, h2⟩ := noMatchIn_cons.1 h
    rw [List.cons_append, replaceAll_cons_none h1, ih h2]
    rfl

theorem replaceAll_no_match {m : List Char → Option (List Char × List Char)}
    {repl : List Char → List Char} {s : List Char}
    (h : NoMatchIn m s []) : replaceAll m repl s = s := by
  have h1 : replaceAll m repl (s ++ []) = s ++ replaceAll m repl [] := replaceAll_skip h
  have := h1
  simpa [replaceAll_nil] using this

theorem findFirst_eq_some {m : List Char → Option (List Char × List Char)}
    {s b v r : List Char} (h : findFirst m s = some (b, v, r)) :
    ∃ t, s = b ++ t ∧ m t = some (v, r) ∧ NoMatchIn m b t := by
  induction s generalizing b with
  | nil =>
    simp only [findFirst] at h
    cases hm : m [] with
    | none => rw [hm] at h; cases h
    | some p =>
      rw [hm] at h
      simp only [Option.some.injEq, Prod.mk.injEq] at h
      obtain ⟨rfl, rfl, rfl⟩ := h
      exact ⟨[], rfl, hm, NoMatchIn.nil _ _⟩
  | cons c s ih =>
    simp only [findFirst] at h
    cases hm : m (c :: s) with
    | some p =>
      rw [hm] at h
      simp only [Option.some.injEq, Prod.mk.injEq] at h
      obtain ⟨rfl, rfl, rfl⟩ := h
      exact ⟨c :: s, rfl, hm, NoMatchIn.nil _ _⟩
    | none =>
      rw [hm] at h
      simp only at h
      cases hf : findFirst m s with
      | none => rw [hf] at h; cases h
      | some q =>
        obtain ⟨b1, v1, r1⟩ := q
        rw [hf] at h
        simp only [Option.some.injEq, Prod.mk.injEq] at h
        obtain ⟨rfl, rfl, rfl⟩ := h
        obtain ⟨t, e, h1, h2⟩ := ih hf
        refine ⟨t, by simp [e], h1, noMatchIn_cons.2 ⟨?_, h2⟩⟩
        rw [← e]
        exact hm

theorem findFirst_of_match {m : List Char → Option (List Char × List Char)}
    {b t v r : List Char} (hb : NoMatchIn m b t) (h : m t = some (v, r)) :
    findFirst m (b ++ t) = some (b, v, r) := by
  induction b with
  | nil =>
    cases t with
    | nil => simp [findFirst, h]
    | cons c t => simp [findFirst, h]
  | cons c b ih =>
    obtain ⟨h1, h2⟩ := noMatchIn_cons.1 hb
    rw [List.cons_append, findFirst_cons, h1]
    simp only
    rw [ih h2]

theorem findFirst_eq_none {m : List Char → Option (List Char × List Char)} {s : List Char} :
    findFirst m s = none ↔ NoMatchIn m s [] ∧ m [] = none := by
  induction s with
  | nil =>
    simp only [findFirst]
    cases hm : m [] with
    | none => simp [NoMatchIn.nil]
    | some p => simp
  | cons c s ih =>
    simp only [findFirst]
    cases hm : m (c :: s) with
    | some p =>
      simp only [reduceCtorEq, false_iff]
      rintro ⟨h1, -⟩
      have := (noMatchIn_cons.1 h1).1
      rw [List.append_nil, hm] at this
      cases this
    | none =>
      simp only
      cases hf : findFirst m s with
      | none =>
        simp only [true_iff]
        obtain ⟨h1, h2⟩ := ih.1 hf
        exact ⟨noMatchIn_cons.2 ⟨by simpa using hm, h1⟩, h2⟩
      | some q =>
        simp only [reduceCtorEq, false_iff]
        rintro ⟨h1, h2⟩
        have := ih.2 ⟨(noMatchIn_cons.1 h1).2, h2⟩
        rw [hf] at this
        cases this

theorem matchString_of_suffix {m : List Char → Option (List Char × List Char)}
    {a b : List Char} (h : (m b).isSome = true) : matchString m (a ++ b) = true := by
  unfold matchString
  cases hf : findFirst m (a ++ b) with
  | some p => rfl
  | none =>
    obtain ⟨h1, h2⟩ := findFirst_eq_none.1 hf
    cases b with
    | nil => rw [h2] at h; cases h
    | cons c b =>
      have := h1 a (c :: b) rfl (by simp)
      rw [List.append_nil] at this
      rw [this] at h
      cases h

theorem take_length_sub (d r : List Char) :
    (d ++ r).take ((d ++ r).length - r.length) = d := by
  simp

/-! ## Lemmas: the replacement template -/

theorem expandLoop_of_no_dollar (uni : Char → Bool) (matched : List Char) :
    ∀ (fuel : Nat) (t : List Char), dollar ∉ t → expandLoop uni matched fuel t = t := by
  intro fuel
  induction fuel with
  | zero => intro t _; simp [expandLoop]
  | succ fuel ih =>
    intro t ht
    cases t with
    | nil => simp [expandLoop]
    | cons c t =>
      have hc : c ≠ dollar := fun e => ht (e ▸ List.mem_cons_self _ _)
      simp only [expandLoop, if_neg hc]
      rw [ih t (fun h => ht (List.mem_cons_of_mem _ h))]

theorem expand_of_no_dollar (uni : Char → Bool) {t : List Char} (matched : List Char)
    (h : dollar ∉ t) : expand uni t matched = t :=
  expandLoop_of_no_dollar uni matched _ t h

theorem expand_nil (uni : Char → Bool) (matched : List Char) : expand uni [] matched = [] :=
  expand_of_no_dollar uni matched (by simp)

/-! ## Lemmas: directives written by the engine, and text that opens a directive -/

theorem dq_not_mem_of_spaces {w : List Char} (h : ∀ c ∈ w, isSpace c = true) : dq ∉ w :=
  fun hd => by
    have := h dq hd
    rw [isSpace_dq] at this
    cases this

theorem dq_not_mem_kw : dq ∉ kw := by decide

theorem exists_first_dq {l : List Char} (h : dq ∈ l) :
    ∃ a b, l = a ++ dq :: b ∧ dq ∉ a := by
  induction l with
  | nil => cases h
  | cons c l ih =>
    by_cases hc : c = dq
    · exact ⟨[], l, by simp [hc], by simp⟩
    · rcases List.mem_cons.1 h with h1 | h1
      · exact absurd h1.symm hc
      · obtain ⟨a, b, e, ha⟩ := ih h1
        refine ⟨c :: a, b, by simp [e], ?_⟩
        intro hd
        rcases List.mem_cons.1 hd with h2 | h2
        · exact hc h2.symm
        · exact ha h2

theorem settingAt_newSetting (k : List Char) {v : List Char} (r : List Char) (hv : dq ∉ v) :
    SettingAt k v r (newSetting k v ++ r) := by
  refine ⟨[' '], [' '], by simp, by decide, by simp, by decide, hv, ?_⟩
  simp [newSetting, kw]

theorem matchSettingAt_newSetting (k : List Char) {v : List Char} (r : List Char)
    (hv : dq ∉ v) : matchSettingAt k (newSetting k v ++ r) = some (v, r) :=
  matchSettingAt_iff.2 (settingAt_newSetting k r hv)

theorem OpensAt.settingAt {k b t : List Char} (h : OpensAt k b) (ht : dq ∈ t) :
    ∃ v r, SettingAt k v r (b ++ t) := by
  obtain ⟨w1, w2, b2, hw1, hs1, hw2, hs2, e⟩ := h
  obtain ⟨v, r, e1, hv⟩ := exists_first_dq (l := b2 ++ t) (List.mem_append_right _ ht)
  refine ⟨v, r, w1, w2, hw1, hs1, hw2, hs2, hv, ?_⟩
  rw [e]
  simp only [List.append_assoc, List.cons_append, List.nil_append]
  rw [e1]

theorem SettingAt.opensAt {k v r s : List Char} (h : SettingAt k v r s) : OpensAt k s := by
  obtain ⟨w1, w2, hw1, hs1, hw2, hs2, -, e⟩ := h
  exact ⟨w1, w2, v ++ dq :: r, hw1, hs1, hw2, hs2, by rw [e]; simp⟩

theorem OpensAt.dq_mem {k b : List Char} (h : OpensAt k b) : dq ∈ b := by
  obtain ⟨w1, w2, b2, -, -, -, -, e⟩ := h
  rw [e]
  simp

/-- Counting the characters that are not white space: a directive head cannot
start strictly before another one and end with it. -/
theorem head_not_shifted {k w1 w2 u1 u2 b : List Char}
    (hs1 : ∀ c ∈ w1, isSpace c = true) (hs2 : ∀ c ∈ w2, isSpace c = true)
    (ht1 : ∀ c ∈ u1, isSpace c = true) (ht2 : ∀ c ∈ u2, isSpace c = true)
    (h : kw ++ w1 ++ k ++ w2 = b ++ (kw ++ u1 ++ k ++ u2)) : b = [] := by
  have z : ∀ w : List Char, (∀ c ∈ w, isSpace c = true) →
      List.countP (fun c => !isSpace c) w = 0 := by
    intro w hw
    rw [List.countP_eq_zero]
    intro c hc
    simp [hw c hc]
  have h1 := congrArg (List.countP (fun c => !isSpace c)) h
  simp only [List.countP_append, z w1 hs1, z w2 hs2, z u1 ht1, z u2 ht2] at h1
  have h2 : List.countP (fun c => !isSpace c) b = 0 := by omega
  rw [List.countP_eq_zero] at h2
  cases b with
  | nil => rfl
  | cons c b =>
    have h3 := h2 c (List.mem_cons_self _ _)
    have h4 : c = 'S' := by
      have := congrArg List.head? h
      simpa [kw] using this.symm
    subst h4
    exact absurd (by decide) h3

/-- A match that starts in `b ++ g`, before a directive written by the engine,
has its opening quote inside `b`. -/
theorem opensAt_of_settingAt_before {k v v1 r1 b g t : List Char} (hk : dq ∉ k)
    (hg : ∀ c ∈ g, isSpace c = true) (hne : b ++ g ≠ [])
    (h : SettingAt k v1 r1 (b ++ (g ++ (newSetting k v ++ t)))) : OpensAt k b := by
  obtain ⟨w1, w2, hw1, hs1, hw2, hs2, hv1, e⟩ := h
  have hhead : dq ∉ kw ++ w1 ++ k ++ w2 := by
    simp only [List.mem_append, not_or]
    exact ⟨⟨⟨dq_not_mem_kw, dq_not_mem_of_spaces hs1⟩, hk⟩, dq_not_mem_of_spaces hs2⟩
  have hp : ∀ l : List Char, dq ∉ l → ∀ x ∈ l, (fun c => c != dq) x = true := by
    intro l hl x hx
    have : x ≠ dq := fun e => hl (e ▸ hx)
    simpa using this
  by_cases hb : dq ∈ b
  · obtain ⟨b1, b2, e1, hb1⟩ := exists_first_dq hb
    have e2 : b1 ++ dq :: (b2 ++ (g ++ (newSetting k v ++ t)))
        = (kw ++ w1 ++ k ++ w2) ++ dq :: (v1 ++ dq :: r1) := by
      have e3 := e
      rw [e1] at e3
      simpa using e3
    have h3 := span_unique (p := fun c => c != dq) (hp _ hb1) (hp _ hhead) (by simp) (by simp) e2
    exact ⟨w1, w2, b2, hw1, hs1, hw2, hs2, by rw [e1, h3.1]; simp⟩
  · exfalso
    have hpre : dq ∉ b ++ g ++ (kw ++ [' '] ++ k ++ [' ']) := by
      simp only [List.mem_append, not_or]
      refine ⟨⟨hb, dq_not_mem_of_spaces hg⟩, ⟨⟨dq_not_mem_kw, by decide⟩, hk⟩, by decide⟩
    have e2 : (b ++ g ++ (kw ++ [' '] ++ k ++ [' '])) ++ dq :: (v ++ dq :: t)
        = (kw ++ w1 ++ k ++ w2) ++ dq :: (v1 ++ dq :: r1) := by
      simpa [newSetting, kw] using e
    have h3 := span_unique (p := fun c => c != dq) (hp _ hpre) (hp _ hhead) (by simp) (by simp)
      e2
    have h4 : kw ++ w1 ++ k ++ w2 = (b ++ g) ++ (kw ++ [' '] ++ k ++ [' ']) := h3.1.symm
    exact hne (head_not_shifted hs1 hs2 (by decide) (by decide) h4)

theorem noMatchIn_append {m : List Char → Option (List Char × List Char)} {p q t : List Char}
    (h1 : NoMatchIn m p (q ++ t)) (h2 : NoMatchIn m q t) : NoMatchIn m (p ++ q) t := by
  induction p with
  | nil => exact h2
  | cons c p ih =>
    obtain ⟨h3, h4⟩ := noMatchIn_cons.1 h1
    refine noMatchIn_cons.2 ⟨?_, ih h4⟩
    simpa using h3

/-- Replacing the first directive by the one the engine writes creates no
match before it. -/
theorem noMatchIn_newSetting {k v pre s t : List Char} (hk : dq ∉ k) (hs : dq ∈ s)
    (h : NoMatchIn (matchSettingAt k) pre s) :
    NoMatchIn (matchSettingAt k) pre (newSetting k v ++ t) := by
  intro a b e hb
  cases hm : matchSettingAt k (b ++ (newSetting k v ++ t)) with
  | none => rfl
  | some p =>
    exfalso
    obtain ⟨v1, r1⟩ := p
    have h1 : SettingAt k v1 r1 (b ++ ([] ++ (newSetting k v ++ t))) :=
      matchSettingAt_sound hm
    have h2 := opensAt_of_settingAt_before hk (by simp) (by simpa using hb) h1
    obtain ⟨v2, r2, h3⟩ := h2.settingAt hs
    have h4 := h a b e hb
    rw [matchSettingAt_iff.2 h3] at h4
    cases h4

/-! ## Lemmas: the two branches of `updateOrAddConfigSetting` -/

theorem lineSep_spaces (doc : List Char) : ∀ c ∈ lineSep doc, isSpace c = true := by
  unfold lineSep
  split
  · intro c hc
    rw [List.mem_singleton.1 hc]
    decide
  · intro c hc
    cases hc

theorem updateOrAdd_of_no_match (uni : Char → Bool) {doc k : List Char} (v : List Char)
    (h : matchString (matchSettingAt k) doc = false) :
    updateOrAddConfigSetting uni doc k v = doc ++ lineSep doc ++ (newSetting k v ++ ['\n']) := by
  unfold updateOrAddConfigSetting lineSep
  rw [h]
  simp only [Bool.false_eq_true, if_false]
  split <;> simp

theorem updateOrAdd_of_match (uni : Char → Bool) {doc k : List Char} (v : List Char)
    (h : matchString (matchSettingAt k) doc = true) :
    updateOrAddConfigSetting uni doc k v
      = replaceAll (matchSettingAt k) (expand uni (newSetting k v)) doc := by
  unfold updateOrAddConfigSetting
  rw [h]
  simp only [if_true]
  rfl

theorem dollar_not_mem_newSetting {k v : List Char} (hk : dollar ∉ k) (hv : dollar ∉ v) :
    dollar ∉ newSetting k v := by
  unfold newSetting
  simp only [List.mem_append, not_or]
  exact ⟨⟨⟨⟨by decide, hk⟩, by decide⟩, hv⟩, by decide⟩

/-- In the append branch nothing matches before the appended directive, unless
the text ends inside an open directive. -/
theorem noMatchIn_before_appended {k v doc g t : List Char} (hk : dq ∉ k)
    (hg : ∀ c ∈ g, isSpace c = true)
    (hopen : matchString (matchSettingAt k) (doc ++ [dq]) = false) :
    NoMatchIn (matchSettingAt k) (doc ++ g) (newSetting k v ++ t) := by
  apply noMatchIn_append
  · intro a b e hb
    cases hm : matchSettingAt k (b ++ (g ++ (newSetting k v ++ t))) with
    | none => rfl
    | some p =>
      exfalso
      obtain ⟨v1, r1⟩ := p
      have h2 := opensAt_of_settingAt_before hk hg (by simp [hb]) (matchSettingAt_sound hm)
      obtain ⟨v2, r2, h3⟩ := h2.settingAt (List.mem_singleton_self dq)
      have h4 : matchString (matchSettingAt k) (a ++ (b ++ [dq])) = true :=
        matchString_of_suffix (by rw [matchSettingAt_iff.2 h3]; rfl)
      rw [← List.append_assoc, ← e, hopen] at h4
      cases h4
  · intro a b e hb
    cases hm : matchSettingAt k (b ++ (newSetting k v ++ t)) with
    | none => rfl
    | some p =>
      exfalso
      obtain ⟨v1, r1⟩ := p
      have hb1 : ∀ c ∈ b, isSpace c = true := fun c hc =>
        hg c (e ▸ List.mem_append_right _ hc)
      have h1 : SettingAt k v1 r1 ([] ++ (b ++ (newSetting k v ++ t))) :=
        matchSettingAt_sound hm
      have h2 := opensAt_of_settingAt_before hk hb1 (by simpa using hb) h1
      have := h2.dq_mem
      cases this

/-- The shape of the replace branch: the text before the first directive is
copied, the directive is replaced, and the loop goes on after it. -/
theorem replaceAll_first {k pre old r doc : List Char} (repl : List Char → List Char)
    (h : findFirst (matchSettingAt k) doc = some (pre, old, r)) :
    ∃ d, doc = pre ++ (d ++ r) ∧ SettingAt k old r (d ++ r) ∧
      NoMatchIn (matchSettingAt k) pre (d ++ r) ∧
      replaceAll (matchSettingAt k) repl doc
        = pre ++ (repl d ++ replaceAll (matchSettingAt k) repl r) := by
  obtain ⟨t, e, hm, hno⟩ := findFirst_eq_some h
  have hs := matchSettingAt_sound hm
  have hlen := hs.length_lt
  have et : t = t.take (t.length - r.length) ++ r := by
    obtain ⟨w1, w2, -, -, -, -, -, e1⟩ := hs
    have e2 : t = (kw ++ w1 ++ k ++ w2 ++ [dq] ++ old ++ [dq]) ++ r := by rw [e1]
    rw [e2, take_length_sub]
  refine ⟨t.take (t.length - r.length), ?_, ?_, ?_, ?_⟩
  · rw [← et, e]
  · rw [← et]; exact hs
  · rw [← et]; exact hno
  · rw [e, replaceAll_skip hno, replaceAll_of_match (shrinks_matchSettingAt k) hm]

theorem replaceAll_idem {k v : List Char} {repl : List Char → List Char} (hk : dq ∉ k)
    (hv : dq ∉ v) (hrepl : ∀ x, repl x = newSetting k v) :
    ∀ (n : Nat) (s : List Char), s.length ≤ n →
      replaceAll (matchSettingAt k) repl (replaceAll (matchSettingAt k) repl s)
        = replaceAll (matchSettingAt k) repl s := by
  intro n
  induction n with
  | zero =>
    intro s hs
    have : s = [] := List.length_eq_zero.1 (Nat.le_zero.1 hs)
    subst this
    simp [replaceAll_nil]
  | succ n ih =>
    intro s hs
    cases hf : findFirst (matchSettingAt k) s with
    | none =>
      have h1 := (findFirst_eq_none.1 hf).1
      rw [replaceAll_no_match h1, replaceAll_no_match h1]
    | some p =>
      obtain ⟨pre, old, r⟩ := p
      obtain ⟨d, e, hs1, hno, hr⟩ := replaceAll_first repl hf
      have hlen := hs1.length_lt
      have hrn : r.length ≤ n := by
        have := congrArg List.length e
        simp only [List.length_append] at this hlen
        omega
      rw [hr, hrepl]
      have hno1 : NoMatchIn (matchSettingAt k) pre
          (newSetting k v ++ replaceAll (matchSettingAt k) repl r) :=
        noMatchIn_newSetting hk hs1.opensAt.dq_mem hno
      rw [replaceAll_skip hno1, replaceAll_of_match (shrinks_matchSettingAt k)
        (matchSettingAt_newSetting k _ hv), hrepl, ih r hrn]

theorem matchString_eq_false {m : List Char → Option (List Char × List Char)} {s : List Char} :
    matchString m s = false ↔ findFirst m s = none := by
  unfold matchString
  cases findFirst m s <;> simp

theorem matchString_eq_true {m : List Char → Option (List Char × List Char)} {s : List Char} :
    matchString m s = true ↔ ∃ b v r, findFirst m s = some (b, v, r) := by
  unfold matchString
  cases h : findFirst m s with
  | none => simp
  | some p =>
    obtain ⟨b, v, r⟩ := p
    simp

/-- In both branches the result of `updateOrAddConfigSetting` is some text, the
directive `SET k "v"`, and some text, with no match before the directive; and a
second run of the replacement loop leaves the text after the directive as it
is. -/
theorem updateOrAdd_shape (uni : Char → Bool) {doc k v : List Char} (hk : dq ∉ k)
    (hkd : dollar ∉ k) (hv : dq ∉ v) (hvd : dollar ∉ v)
    (hdoc : endsInOpenSetting k doc = false) :
    ∃ pre post, updateOrAddConfigSetting uni doc k v = pre ++ (newSetting k v ++ post) ∧
      NoMatchIn (matchSettingAt k) pre (newSetting k v ++ post) ∧
      replaceAll (matchSettingAt k) (expand uni (newSetting k v)) post = post := by
  have hE := dollar_not_mem_newSetting hkd hvd
  cases hm : matchString (matchSettingAt k) doc with
  | true =>
    obtain ⟨pre, old, r, hf⟩ := matchString_eq_true.1 hm
    obtain ⟨d, e, hs1, hno, hr⟩ :=
      replaceAll_first (expand uni (newSetting k v)) hf
    refine ⟨pre, replaceAll (matchSettingAt k) (expand uni (newSetting k v)) r, ?_, ?_, ?_⟩
    · rw [updateOrAdd_of_match uni v hm, hr, expand_of_no_dollar uni d hE]
    · exact noMatchIn_newSetting hk hs1.opensAt.dq_mem hno
    · exact replaceAll_idem hk hv (fun x => expand_of_no_dollar uni x hE) r.length r
        (Nat.le_refl _)
  | false =>
    have hopen : matchString (matchSettingAt k) (doc ++ [dq]) = false := by
      unfold endsInOpenSetting at hdoc
      rw [hm] at hdoc
      simpa using hdoc
    refine ⟨doc ++ lineSep doc, ['\n'], updateOrAdd_of_no_match uni v hm, ?_, ?_⟩
    · exact noMatchIn_before_appended hk (lineSep_spaces doc) hopen
    · apply replaceAll_no_match
      apply noMatchIn_cons.2
      exact ⟨rfl, NoMatchIn.nil _ _⟩

/-! ## Lemmas: removal -/

theorem matchString_iff_hasSetting {k doc : List Char} :
    matchString (matchSettingAt k) doc = true ↔ ∃ x, HasSetting k x doc := by
  constructor
  · intro h
    obtain ⟨b, v, r, hf⟩ := matchString_eq_true.1 h
    obtain ⟨t, e, hm, -⟩ := findFirst_eq_some hf
    exact ⟨v, b, r, t, e, matchSettingAt_sound hm⟩
  · rintro ⟨x, pre, r, s, e, hs⟩
    rw [e]
    exact matchString_of_suffix (by rw [matchSettingAt_iff.2 hs]; rfl)

/-- What `endsInOpenSetting` computes: the document holds no directive for the
key and one of its tails is an unterminated directive for the key. -/
theorem endsInOpenSetting_iff {k doc : List Char} :
    endsInOpenSetting k doc = true ↔
      (¬ ∃ x, HasSetting k x doc) ∧ ∃ pre b, doc = pre ++ b ∧ OpenSettingAt k b := by
  unfold endsInOpenSetting
  rw [Bool.and_eq_true, Bool.not_eq_true', ← matchString_iff_hasSetting,
    Bool.not_eq_true]
  constructor
  · rintro ⟨h1, h2⟩
    refine ⟨h1, ?_⟩
    obtain ⟨b, v, r, hf⟩ := matchString_eq_true.1 h2
    obtain ⟨t, e, hm, -⟩ := findFirst_eq_some hf
    obtain ⟨w1, w2, hw1, hs1, hw2, hs2, hv, et⟩ := matchSettingAt_sound hm
    rcases List.eq_nil_or_concat r with hr | ⟨r1, c, hr⟩
    · subst hr
      have e1 : doc ++ [dq] = (b ++ (kw ++ w1 ++ k ++ w2 ++ [dq] ++ v)) ++ [dq] := by
        rw [e, et]
        simp
      have e2 := (List.append_inj' e1 rfl).1
      exact ⟨b, _, e2, w1, w2, v, hw1, hs1, hw2, hs2, hv, rfl⟩
    · exfalso
      subst hr
      have e1 : doc ++ [dq]
          = (b ++ (kw ++ w1 ++ k ++ w2 ++ [dq] ++ v ++ [dq] ++ r1)) ++ [c] := by
        rw [e, et]
        simp
      have e2 := (List.append_inj' e1 rfl).1
      have h3 : matchString (matchSettingAt k) doc = true := by
        rw [e2]
        apply matchString_of_suffix
        rw [matchSettingAt_iff.2 ⟨w1, w2, hw1, hs1, hw2, hs2, hv, rfl⟩]
        rfl
      rw [h1] at h3
      cases h3
  · rintro ⟨h1, pre, b, e, w1, w2, x, hw1, hs1, hw2, hs2, hx, eb⟩
    refine ⟨h1, ?_⟩
    have e1 : doc ++ [dq] = pre ++ (b ++ [dq]) := by rw [e]; simp
    rw [e1]
    apply matchString_of_suffix
    have hs : SettingAt k x [] (b ++ [dq]) :=
      ⟨w1, w2, hw1, hs1, hw2, hs2, hx, by rw [eb]; simp⟩
    rw [matchSettingAt_iff.2 hs]
    rfl

theorem noMatchIn_line {k p t : List Char} :
    NoMatchIn (matchSettingLineAt k) p t ↔ NoMatchIn (matchSettingAt k) p t := by
  constructor
  · intro h a b e hb
    exact matchSettingLineAt_eq_none.1 (h a b e hb)
  · intro h a b e hb
    exact matchSettingLineAt_eq_none.2 (h a b e hb)

theorem matchString_line (k doc : List Char) :
    matchString (matchSettingLineAt k) doc = matchString (matchSettingAt k) doc := by
  have h1 : matchSettingLineAt k [] = none := rfl
  have h2 : matchSettingAt k [] = none := rfl
  cases h : matchString (matchSettingAt k) doc with
  | false =>
    rw [matchString_eq_false, findFirst_eq_none] at h ⊢
    exact ⟨noMatchIn_line.2 h.1, h1⟩
  | true =>
    obtain ⟨b, v, r, hf⟩ := matchString_eq_true.1 h
    obtain ⟨t, e, hm, -⟩ := findFirst_eq_some hf
    rw [e]
    apply matchString_of_suffix
    rw [matchSettingLineAt_eq_some.2 ⟨r, hm, rfl⟩]
    rfl

theorem remove_of_no_match (uni : Char → Bool) {doc k : List Char}
    (h : matchString (matchSettingAt k) doc = false) : removeConfigSetting uni doc k = doc := by
  unfold removeConfigSetting
  rw [matchString_line, h]
  simp

theorem remove_of_match (uni : Char → Bool) {doc k : List Char}
    (h : matchString (matchSettingAt k) doc = true) :
    removeConfigSetting uni doc k = replaceAll (matchSettingLineAt k) (fun _ => []) doc := by
  unfold removeConfigSetting
  rw [matchString_line, h]
  simp only [if_true]
  have : expand uni [] = fun _ => [] := funext (fun x => expand_nil uni x)
  rw [replaceAllString_eq, this]

theorem hasSetting_of_isConfigSettingCorrect {doc k e : List Char}
    (h : isConfigSettingCorrect doc k e = true) : HasSetting k e doc := by
  unfold isConfigSettingCorrect at h
  cases hf : findFirst (matchSettingAt k) doc with
  | none => rw [hf] at h; cases h
  | some p =>
    obtain ⟨b, v, r⟩ := p
    rw [hf] at h
    have hv : v = e := by simpa using h
    obtain ⟨t, e1, hm, -⟩ := findFirst_eq_some hf
    exact ⟨b, r, t, e1, hv ▸ matchSettingAt_sound hm⟩

theorem NoMatchIn.suffix {m : List Char → Option (List Char × List Char)} {a b t : List Char}
    (h : NoMatchIn m (a ++ b) t) : NoMatchIn m b t := by
  intro a1 b1 e hb
  exact h (a ++ a1) b1 (by rw [e, List.append_assoc]) hb

theorem SettingAt.cancel {k x r d : List Char} (h : SettingAt k x r (d ++ r)) :
    SettingAt k x [] d := by
  obtain ⟨w1, w2, hw1, hs1, hw2, hs2, hx, e⟩ := h
  refine ⟨w1, w2, hw1, hs1, hw2, hs2, hx, ?_⟩
  rw [List.append_nil]
  exact List.append_cancel_right e

theorem SettingAt.extend {k x d : List Char} (h : SettingAt k x [] d) (t : List Char) :
    SettingAt k x t (d ++ t) := by
  obtain ⟨w1, w2, hw1, hs1, hw2, hs2, hx, e⟩ := h
  refine ⟨w1, w2, hw1, hs1, hw2, hs2, hx, ?_⟩
  rw [e]
  simp

theorem remove_eq_replaceAll (uni : Char → Bool) (doc k : List Char) :
    removeConfigSetting uni doc k = replaceAll (matchSettingLineAt k) (fun _ => []) doc := by
  cases h : matchString (matchSettingAt k) doc with
  | true => exact remove_of_match uni h
  | false =>
    rw [remove_of_no_match uni h]
    have h1 := (findFirst_eq_none.1 (matchString_eq_false.1 h)).1
    rw [replaceAll_no_match (noMatchIn_line.2 h1)]

/-- The in-place replacement of the only directive for the key, with the
replacement template expanded as `ReplaceAllString` does. -/
theorem updateOrAdd_in_place (uni : Char → Bool) {doc k pre old post : List Char}
    (v : List Char) (hfirst : findFirst (matchSettingAt k) doc = some (pre, old, post))
    (hrest : matchString (matchSettingAt k) post = false) :
    ∃ d, doc = pre ++ d ++ post ∧ SettingAt k old [] d ∧
      updateOrAddConfigSetting uni doc k v
        = pre ++ expand uni (newSetting k v) d ++ post := by
  obtain ⟨d, e, hs, -, hr⟩ := replaceAll_first (expand uni (newSetting k v)) hfirst
  have hm : matchString (matchSettingAt k) doc = true :=
    matchString_eq_true.2 ⟨pre, old, post, hfirst⟩
  have hpost := (findFirst_eq_none.1 (matchString_eq_false.1 hrest)).1
  refine ⟨d, by rw [e]; simp, hs.cancel, ?_⟩
  rw [updateOrAdd_of_match uni v hm, hr, replaceAll_no_match hpost]
  simp

theorem countP_space_of_spaces {w : List Char} (h : ∀ c ∈ w, isSpace c = true) :
    List.countP isSpace w = w.length :=
  List.countP_eq_length.2 h

theorem countP_space_of_none {w : List Char} (h : ∀ c ∈ w, isSpace c = false) :
    List.countP isSpace w = 0 := by
  rw [List.countP_eq_zero]
  intro c hc
  simp [h c hc]

/-! ## Lemmas: documents as lists of lines -/

theorem noMatchIn_of_noMatchStartsIn {m : List Char → Option (List Char × List Char)}
    {p t : List Char} (h : noMatchStartsIn m p t = true) : NoMatchIn m p t := by
  induction p with
  | nil => exact NoMatchIn.nil _ _
  | cons c p ih =>
    simp only [noMatchStartsIn, Bool.and_eq_true, Option.isNone_iff_eq_none] at h
    exact noMatchIn_cons.2 ⟨h.1, ih h.2⟩

theorem isSettingLine_iff {k l : List Char} :
    isSettingLine k l = true ↔ ∃ x, matchSettingAt k l = some (x, []) := by
  unfold isSettingLine
  cases h : matchSettingAt k l with
  | none => simp
  | some p =>
    obtain ⟨x, r⟩ := p
    cases r with
    | nil => simp
    | cons c r => simp

theorem matchSettingAt_line_feed (k t : List Char) : matchSettingAt k ('\n' :: t) = none := rfl

theorem matchSettingAt_of_settingLine {k l : List Char} (h : isSettingLine k l = true)
    (t : List Char) : ∃ x, matchSettingAt k (l ++ t) = some (x, t) := by
  obtain ⟨x, hx⟩ := isSettingLine_iff.1 h
  exact ⟨x, matchSettingAt_iff.2 ((matchSettingAt_sound hx).extend t)⟩

theorem unlines_append (ls : List (List Char)) (l : List Char) :
    unlines (ls ++ [l]) = unlines ls ++ (l ++ ['\n']) := by
  induction ls with
  | nil => simp [unlines]
  | cons a ls ih => simp [unlines, ih]

theorem lineSep_unlines (ls : List (List Char)) : lineSep (unlines ls) = [] := by
  unfold lineSep
  have h : unlines ls = [] ∨ (unlines ls).getLast? = some '\n' := by
    induction ls with
    | nil => exact Or.inl rfl
    | cons a ls ih =>
      right
      rcases ih with h | h
      · simp [unlines, h]
      · simp only [unlines]
        cases ht : unlines ls with
        | nil => simp
        | cons c t =>
          rw [ht] at h
          rw [show a ++ '\n' :: c :: t = (a ++ ['\n']) ++ (c :: t) by simp,
            List.getLast?_append, h]
          rfl
  rcases h with h | h
  · simp [h]
  · simp [h]

theorem replaceAll_unlines {k : List Char} (repl : List Char → List Char)
    {ls : List (List Char)} (h : wholeLineSettings k ls = true) :
    replaceAll (matchSettingAt k) repl (unlines ls)
      = unlines (ls.map (fun l => if isSettingLine k l = true then repl l else l)) := by
  induction ls with
  | nil => simp [unlines, replaceAll_nil]
  | cons l ls ih =>
    simp only [wholeLineSettings, Bool.and_eq_true, Bool.or_eq_true] at h
    obtain ⟨⟨-, h1⟩, h2⟩ := h
    have hnl : replaceAll (matchSettingAt k) repl ('\n' :: unlines ls)
        = '\n' :: replaceAll (matchSettingAt k) repl (unlines ls) :=
      replaceAll_cons_none (matchSettingAt_line_feed k _)
    by_cases hl : isSettingLine k l = true
    · obtain ⟨x, hx⟩ := matchSettingAt_of_settingLine hl ('\n' :: unlines ls)
      simp only [unlines, List.map_cons, if_pos hl]
      rw [replaceAll_of_match (shrinks_matchSettingAt k) hx, take_length_sub, hnl, ih h2]
    · have h3 : noMatchStartsIn (matchSettingAt k) l ('\n' :: unlines ls) = true := by
        rcases h1 with h1 | h1
        · exact absurd h1 hl
        · exact h1
      simp only [unlines, List.map_cons, if_neg hl]
      rw [replaceAll_skip (noMatchIn_of_noMatchStartsIn h3), hnl, ih h2]

theorem removeAll_unlines {k : List Char} {ls : List (List Char)}
    (h : wholeLineSettings k ls = true) (hb : noBreakAfterSetting k ls = true) :
    replaceAll (matchSettingLineAt k) (fun _ => []) (unlines ls)
      = unlines (ls.filter (fun l => !isSettingLine k l)) := by
  induction ls with
  | nil => simp [unlines, replaceAll_nil]
  | cons l ls ih =>
    simp only [wholeLineSettings, Bool.and_eq_true, Bool.or_eq_true] at h
    obtain ⟨⟨-, h1⟩, h2⟩ := h
    simp only [noBreakAfterSetting, Bool.and_eq_true, Bool.or_eq_true] at hb
    obtain ⟨hb1, hb2⟩ := hb
    by_cases hl : isSettingLine k l = true
    · obtain ⟨x, hx⟩ := matchSettingAt_of_settingLine hl ('\n' :: unlines ls)
      have hdrop : ('\n' :: unlines ls).dropWhile isLineBreak = unlines ls := by
        have e0 : ('\n' :: unlines ls).dropWhile isLineBreak
            = (unlines ls).dropWhile isLineBreak := by
          simp [isLineBreak]
        rw [e0]
        rcases hb1 with hb1 | hb1
        · simp [hl] at hb1
        · cases ls with
          | nil => simp [unlines]
          | cons l1 ls1 =>
            cases l1 with
            | nil => simp at hb1
            | cons c l1 =>
              simp only [Bool.not_eq_true'] at hb1
              simp [unlines, hb1]
      have hml : matchSettingLineAt k (l ++ '\n' :: unlines ls) = some (x, unlines ls) :=
        matchSettingLineAt_eq_some.2 ⟨_, hx, hdrop.symm⟩
      simp only [unlines, List.filter_cons, hl, Bool.not_true, Bool.false_eq_true, if_false]
      rw [replaceAll_of_match (shrinks_matchSettingLineAt k) hml, ih h2 hb2]
      simp
    · have h3 : noMatchStartsIn (matchSettingAt k) l ('\n' :: unlines ls) = true := by
        rcases h1 with h1 | h1
        · exact absurd h1 hl
        · exact h1
      have hl1 : isSettingLine k l = false := by simpa using hl
      have hnl : replaceAll (matchSettingLineAt k) (fun _ => []) ('\n' :: unlines ls)
          = '\n' :: replaceAll (matchSettingLineAt k) (fun _ => []) (unlines ls) :=
        replaceAll_cons_none (matchSettingLineAt_eq_none.2 (matchSettingAt_line_feed k _))
      simp only [unlines, List.filter_cons, hl1, Bool.not_false, if_true]
      rw [replaceAll_skip (noMatchIn_line.2 (noMatchIn_of_noMatchStartsIn h3)), hnl, ih h2 hb2]

/-! ## Lemmas: the process supervisor -/

/-- The invariant of the supervisor: at most one live child, and the flag is
true exactly when there is one. -/
theorem reachable_invariant (σ : Sys) (h : Reachable σ) :
    σ.live.length ≤ 1 ∧ (σ.sup.isGameRunning = true ↔ σ.live ≠ []) := by
  induction h with
  | init => simp
  | step σ τ _ hs ih =>
    obtain ⟨hlen, hrun⟩ := ih
    cases hs with
    | start cmd o =>
      by_cases hr : σ.sup.isGameRunning = true
      · simp [runGameIntegrated, hr, hlen, hrun.mp hr]
      · have hnil : σ.live = [] := by
          by_contra hne
          exact hr (hrun.mpr hne)
        cases o <;> simp [runGameIntegrated, hr, hnil]
    | waiter cmd hmem =>
      have hl : σ.live = [cmd] := by
        match hσ : σ.live, hmem, hlen with
        | [a], hm, _ =>
          rw [hσ] at hmem
          simp at hmem
          simp [hmem]
        | [], hm, _ => simp [hσ] at hmem
        | _ :: _ :: _, _, hl => simp [hσ] at hlen
      simp [waiterDone, hl]
    | stop sf kf =>
      have hsup : (StopGame sf kf σ.sup).sup = σ.sup := by
        unfold StopGame
        split
        · rfl
        · split <;> rfl
      simp [hsup, hlen, hrun]

/-! ## Lemmas: Go `strings` -/

theorem stringsSplit_ne_nil (s : List Char) : stringsSplit s ≠ [] := by
  cases s with
  | nil => simp [stringsSplit]
  | cons c s =>
    unfold stringsSplit
    split
    · simp
    · split <;> simp

theorem stringsSplit_cons_nl (s : List Char) :
    stringsSplit ('\n' :: s) = [] :: stringsSplit s := by
  simp [stringsSplit]

theorem stringsSplit_cons_other (c : Char) (s l : List Char) (ls : List (List Char))
    (hc : c ≠ '\n') (hs : stringsSplit s = l :: ls) :
    stringsSplit (c :: s) = (c :: l) :: ls := by
  rw [stringsSplit, if_neg hc, hs]

theorem stringsSplit_append_nl (a b : List Char) :
    stringsSplit (a ++ '\n' :: b) = stringsSplit a ++ stringsSplit b := by
  induction a with
  | nil => simp [stringsSplit]
  | cons c a ih =>
    by_cases hc : c = '\n'
    · subst hc
      rw [List.cons_append, stringsSplit_cons_nl, stringsSplit_cons_nl, ih, List.cons_append]
    · obtain ⟨l, ls, hl⟩ := List.exists_cons_of_ne_nil (stringsSplit_ne_nil a)
      rw [List.cons_append, stringsSplit_cons_other c _ l (ls ++ stringsSplit b) hc
        (by rw [ih, hl, List.cons_append]), stringsSplit_cons_other c a l ls hc hl,
        List.cons_append]

theorem stringsSplit_of_no_nl (l : List Char) (h : '\n' ∉ l) : stringsSplit l = [l] := by
  induction l with
  | nil => rfl
  | cons c l ih =>
    have hc : c ≠ '\n' := fun e => h (by simp [e])
    have hl : '\n' ∉ l := fun e => h (by simp [e])
    exact stringsSplit_cons_other c l l [] hc (ih hl)

theorem nl_not_mem_of_mem_stringsSplit (s l : List Char) (h : l ∈ stringsSplit s) :
    '\n' ∉ l := by
  induction s generalizing l with
  | nil =>
    simp [stringsSplit] at h
    simp [h]
  | cons c s ih =>
    by_cases hc : c = '\n'
    · subst hc
      rw [stringsSplit_cons_nl] at h
      rcases List.mem_cons.mp h with h | h
      · simp [h]
      · exact ih l h
    · obtain ⟨l0, ls, hl⟩ := List.exists_cons_of_ne_nil (stringsSplit_ne_nil s)
      rw [stringsSplit_cons_other c s l0 ls hc hl] at h
      rcases List.mem_cons.mp h with h | h
      · subst h
        have h0 : '\n' ∉ l0 := ih l0 (by simp [hl])
        intro hm
        rcases List.mem_cons.mp hm with e | e
        · exact hc e.symm
        · exact h0 e
      · exact ih l (by simp [hl, h])

theorem stringsJoin_cons_cons (l l2 : List Char) (ls : List (List Char)) :
    stringsJoin (l :: l2 :: ls) = l ++ '\n' :: stringsJoin (l2 :: ls) := rfl

theorem stringsJoin_cons_char (c : Char) (l : List Char) (ls : List (List Char)) :
    stringsJoin ((c :: l) :: ls) = c :: stringsJoin (l :: ls) := by
  cases ls with
  | nil => rfl
  | cons l2 ls => simp [stringsJoin_cons_cons]

theorem stringsJoin_stringsSplit (s : List Char) : stringsJoin (stringsSplit s) = s := by
  induction s with
  | nil => rfl
  | cons c s ih =>
    obtain ⟨l, ls, hl⟩ := List.exists_cons_of_ne_nil (stringsSplit_ne_nil s)
    by_cases hc : c = '\n'
    · subst hc
      rw [stringsSplit_cons_nl, hl, stringsJoin_cons_cons, ← hl, ih]
      rfl
    · rw [stringsSplit_cons_other c s l ls hc hl, stringsJoin_cons_char, ← hl, ih]

theorem stringsSplit_stringsJoin (ls : List (List Char)) (hne : ls ≠ [])
    (h : ∀ l ∈ ls, '\n' ∉ l) : stringsSplit (stringsJoin ls) = ls := by
  induction ls with
  | nil => exact absurd rfl hne
  | cons l ls ih =>
    cases ls with
    | nil => exact stringsSplit_of_no_nl l (h l (by simp))
    | cons l2 ls =>
      rw [stringsJoin_cons_cons, stringsSplit_append_nl,
        stringsSplit_of_no_nl l (h l (by simp)),
        ih (by simp) (fun x hx => h x (List.mem_cons_of_mem _ hx))]
      rfl

theorem stringsContains_iff (s sub : List Char) :
    stringsContains s sub = true ↔ sub <:+: s := by
  induction s with
  | nil =>
    simp [stringsContains, List.isEmpty_iff]
  | cons c s ih =>
    rw [stringsContains, Bool.or_eq_true, ih, List.isPrefixOf_iff_prefix, List.infix_cons_iff]

theorem stringsTrimSpace_within (l : List Char) : stringsTrimSpace l <:+: l := by
  unfold stringsTrimSpace
  have h1 : (l.dropWhile unicodeIsSpace) <:+ l := List.dropWhile_suffix _
  have h2 : ((l.dropWhile unicodeIsSpace).reverse.dropWhile unicodeIsSpace)
      <:+ (l.dropWhile unicodeIsSpace).reverse := List.dropWhile_suffix _
  have h3 : ((l.dropWhile unicodeIsSpace).reverse.dropWhile unicodeIsSpace).reverse
      <+: (l.dropWhile unicodeIsSpace) := by
    have := List.reverse_prefix.mpr h2
    simpa using this
  exact h3.isInfix.trans h1.isInfix

theorem mem_stringsSplit_within (s l : List Char) (h : l ∈ stringsSplit s) : l <:+: s := by
  induction s generalizing l with
  | nil =>
    simp [stringsSplit] at h
    simp [h]
  | cons c s ih =>
    obtain ⟨l0, ls, hl⟩ := List.exists_cons_of_ne_nil (stringsSplit_ne_nil s)
    by_cases hc : c = '\n'
    · subst hc
      rw [stringsSplit_cons_nl] at h
      rcases List.mem_cons.mp h with h | h
      · subst h
        exact List.nil_infix
      · exact (ih l h).trans (List.suffix_cons _ _).isInfix
    · have hpre : l0 <+: s := by
        have hj := stringsJoin_stringsSplit s
        rw [hl] at hj
        cases ls with
        | nil =>
          simp [stringsJoin] at hj
          rw [hj]
        | cons l2 ls =>
          rw [stringsJoin_cons_cons] at hj
          exact ⟨_, hj⟩
      rw [stringsSplit_cons_other c s l0 ls hc hl] at h
      rcases List.mem_cons.mp h with h | h
      · subst h
        exact ((List.prefix_cons_inj c).mpr hpre).isInfix
      · exact (ih l (by simp [hl, h])).trans (List.suffix_cons _ _).isInfix

/-- A line that, trimmed, equals the entry makes the entry occur in the text. -/
theorem stringsContains_of_hasLine (entry content : List Char)
    (h : hasLine entry content = true) : stringsContains content entry = true := by
  rw [stringsContains_iff]
  simp only [hasLine, List.any_eq_true, beq_iff_eq] at h
  obtain ⟨l, hl, he⟩ := h
  rw [← he]
  exact (stringsTrimSpace_within l).trans (mem_stringsSplit_within content l hl)

/-! ## Lemmas: the manifest -/

theorem appendEntry_eq (content entry : List Char) :
    appendEntry content entry = withNewline content ++ entry ++ ['\n'] := rfl

theorem withNewline_cases (content : List Char) :
    withNewline content = [] ∨ ∃ t, withNewline content = t ++ ['\n'] ∧ (t = content ∨ t ++ ['\n'] = content) := by
  unfold withNewline
  by_cases h0 : content = []
  · left
    simp [h0]
  · right
    by_cases hs : hasNewlineSuffix content = true
    · obtain ⟨t, ht⟩ : ∃ t, content = t ++ ['\n'] := by
        unfold hasNewlineSuffix at hs
        have hl : content.getLast? = some '\n' := by simpa using hs
        obtain ⟨t, a, rfl⟩ := (List.eq_nil_or_concat content).resolve_left h0
        simp at hl
        exact ⟨t, by rw [hl, List.concat_eq_append]⟩
      refine ⟨t, ?_, Or.inr ht.symm⟩
      rw [hs, ht]
      simp
    · refine ⟨content, ?_, Or.inl rfl⟩
      have : content.length > 0 := List.length_pos.mpr h0
      simp [hs, this]

theorem filter_keep_lines (entries : List (List Char)) (t : List Char)
    (h : ∀ e ∈ entries, stringsContains t e = false) :
    (stringsSplit t).filter (fun line => !entries.contains (stringsTrimSpace line))
      = stringsSplit t := by
  rw [List.filter_eq_self]
  intro l hl
  simp only [Bool.not_eq_true', List.contains_eq_any_beq, List.any_eq_false, beq_iff_eq]
  intro e he heq
  have hc := h e he
  have : stringsContains t e = true := by
    rw [stringsContains_iff, ← heq]
    exact (stringsTrimSpace_within l).trans (mem_stringsSplit_within t l hl)
  rw [hc] at this
  exact Bool.false_ne_true this

theorem stringsContains_append_nl (t e : List Char) (h : stringsContains (t ++ ['\n']) e = true)
    (he : '\n' ∉ e) : stringsContains t e = true := by
  rw [stringsContains_iff] at h ⊢
  obtain ⟨p, q, hpq⟩ := h
  rcases List.eq_nil_or_concat q with hq | ⟨q0, a, hq⟩
  · subst hq
    rcases List.eq_nil_or_concat e with he0 | ⟨e0, b, he0⟩
    · subst he0
      exact List.nil_infix
    · subst he0
      rw [List.concat_eq_append] at hpq he ⊢
      have : p ++ (e0 ++ [b]) ++ [] = (p ++ e0) ++ [b] := by simp
      rw [this] at hpq
      have hb := List.append_inj_right' hpq rfl
      simp at hb
      subst hb
      exact absurd (by simp) he
  · subst hq
    rw [List.concat_eq_append] at hpq
    have : p ++ e ++ (q0 ++ [a]) = (p ++ e ++ q0) ++ [a] := by simp
    rw [this] at hpq
    have ht := List.append_inj_left' hpq rfl
    exact ⟨p, q0, ht⟩

/-- The text `removeEntries` makes after an entry was appended to a text in
which it did not occur: the text before the entry. -/
theorem removeEntries_appendEntry (content entry : List Char)
    (habs : stringsContains content entry = false) (hnl : '\n' ∉ entry)
    (htrim : stringsTrimSpace entry = entry) (hne : entry ≠ []) :
    removeEntries [entry] (appendEntry content entry) = withNewline content := by
  rw [appendEntry_eq]
  unfold removeEntries
  have hlast : (!([entry].contains (stringsTrimSpace []))) = true := by
    have : stringsTrimSpace [] = [] := rfl
    simp [this, Ne.symm hne]
  have hent : (!([entry].contains (stringsTrimSpace entry))) = false := by
    simp [htrim]
  rcases withNewline_cases content with h0 | ⟨t, ht, hc⟩
  · rw [h0, List.nil_append, show entry ++ ['\n'] = entry ++ '\n' :: [] from rfl,
      stringsSplit_append_nl, stringsSplit_of_no_nl entry hnl]
    rw [show stringsSplit [] = [[]] from rfl, List.singleton_append, List.filter_cons,
      List.filter_cons]
    simp only [hent, hlast, Bool.false_eq_true, if_false, if_true, List.filter_nil]
    rfl
  · have habs2 : stringsContains t entry = false := by
      rcases hc with hc | hc
      · rw [hc]
        exact habs
      · by_contra hcon
        have h1 : stringsContains t entry = true := by simpa using hcon
        rw [stringsContains_iff] at h1
        have h2 : stringsContains content entry = true := by
          rw [stringsContains_iff, ← hc]
          exact h1.trans (List.prefix_append _ _).isInfix
        rw [habs] at h2
        exact Bool.false_ne_true h2
    have hkeep := filter_keep_lines [entry] t (by simpa using habs2)
    rw [ht, show t ++ ['\n'] ++ entry ++ ['\n'] = t ++ '\n' :: (entry ++ '\n' :: []) by simp,
      stringsSplit_append_nl, stringsSplit_append_nl, stringsSplit_of_no_nl entry hnl,
      List.filter_append, hkeep]
    rw [show stringsSplit [] = [[]] from rfl, List.singleton_append, List.filter_cons,
      List.filter_cons]
    simp only [hent, hlast, Bool.false_eq_true, if_false, if_true, List.filter_nil]
    have : stringsSplit t ++ [[]] = stringsSplit (t ++ '\n' :: []) := by
      rw [stringsSplit_append_nl]
      rfl
    rw [this, stringsJoin_stringsSplit]

/-- After `removeEntries` no line, trimmed, equals one of the entries. -/
theorem hasLine_removeEntries (entries : List (List Char)) (entry content : List Char)
    (hmem : entry ∈ entries) (hne : entry ≠ []) :
    hasLine entry (removeEntries entries content) = false := by
  unfold removeEntries hasLine
  by_cases hnil : (stringsSplit content).filter
      (fun line => !entries.contains (stringsTrimSpace line)) = []
  · rw [hnil]
    have : stringsTrimSpace [] = [] := rfl
    simp [stringsJoin, stringsSplit, this, hne, Ne.symm hne]
  · rw [stringsSplit_stringsJoin _ hnil]
    · rw [List.any_eq_false]
      intro l hl
      rw [List.mem_filter] at hl
      obtain ⟨_, hl2⟩ := hl
      simp only [Bool.not_eq_true', List.contains_eq_any_beq, List.any_eq_false,
        beq_iff_eq] at hl2
      intro hb
      have hb2 : stringsTrimSpace l = entry := by simpa using hb
      exact hl2 entry hmem hb2
    · intro l hl
      exact nl_not_mem_of_mem_stringsSplit content l (List.mem_of_mem_filter hl)

/-! ## Lemmas: what the steps of the orchestrator leave alone -/

theorem removeIfExists_frame (w : World) (p : Path) :
    (removeIfExists w p).dlls = w.dlls ∧ (removeIfExists w p).fails = w.fails
    ∧ (removeIfExists w p).toConfigFs.turtlewowPath = w.turtlewowPath
    ∧ (removeIfExists w p).config = w.config ∧ (removeIfExists w p).prefs = w.prefs
    ∧ (removeIfExists w p).readFails = w.readFails
    ∧ (removeIfExists w p).writeFails = w.writeFails := by
  unfold removeIfExists
  simp only [World.log, World.showError, World.setBin]
  split_ifs <;> simp

theorem unpatchDllsTxt_dlls (w : World) :
    (unpatchDllsTxt w).dlls
      = match w.dlls with
        | none => none
        | some content =>
          if w.fails (FileOp.readFile Path.dllsTxt) then some content
          else if w.fails (FileOp.writeFile Path.dllsTxt) then some content
          else some (removeEntries [winerosettaEntry, libSiliconPatchEntry] content) := by
  unfold unpatchDllsTxt
  cases h : w.dlls with
  | none => simp [World.log, h]
  | some content =>
    simp only [World.log, World.showError, h]
    split_ifs <;> simp [h]

theorem removeShadowLODSetting_frame (uni : Char → Bool) (fs : ConfigFs) :
    (removeShadowLODSetting uni fs).2.turtlewowPath = fs.turtlewowPath := by
  unfold removeShadowLODSetting
  by_cases hroot : fs.turtlewowPath = []
  · simp [hroot]
  · simp only [if_neg hroot, ConfigFs.log]
    cases fs.config with
    | none => rfl
    | some content =>
      simp only []
      split_ifs <;> rfl

/-- The manifest after `UnpatchTurtleWoW`: the lines other than the two
entries, when the file exists and can be read and written. -/
theorem UnpatchTurtleWoW_dlls (uni : Char → Bool) (w : World) (hroot : w.turtlewowPath ≠ []) :
    (UnpatchTurtleWoW uni w).dlls
      = match w.dlls with
        | none => none
        | some content =>
          if w.fails (FileOp.readFile Path.dllsTxt) then some content
          else if w.fails (FileOp.writeFile Path.dllsTxt) then some content
          else some (removeEntries [winerosettaEntry, libSiliconPatchEntry] content) := by
  have key : ∀ w1 : World, w1.dlls = w.dlls → w1.fails = w.fails →
      (unpatchDllsTxt (removeIfExists (removeIfExists (removeIfExists w1 Path.winerosettaDll)
        Path.d3d9Dll) Path.libSiliconPatchDll)).dlls
      = match w.dlls with
        | none => none
        | some content =>
          if w.fails (FileOp.readFile Path.dllsTxt) then some content
          else if w.fails (FileOp.writeFile Path.dllsTxt) then some content
          else some (removeEntries [winerosettaEntry, libSiliconPatchEntry] content) := by
    intro w1 h1 h2
    rw [unpatchDllsTxt_dlls]
    have ha := removeIfExists_frame w1 Path.winerosettaDll
    have hb := removeIfExists_frame (removeIfExists w1 Path.winerosettaDll) Path.d3d9Dll
    have hc := removeIfExists_frame
      (removeIfExists (removeIfExists w1 Path.winerosettaDll) Path.d3d9Dll)
      Path.libSiliconPatchDll
    rw [hc.1, hb.1, ha.1, hc.2.1, hb.2.1, ha.2.1, h1, h2]
  unfold UnpatchTurtleWoW
  simp only [if_neg hroot, List.foldl_cons, List.foldl_nil, LoadPrefs]
  generalize hw1 : (if (w.log (FileOp.stat Path.rosettaDir)).rosettaDir = true then
      if ((w.log (FileOp.stat Path.rosettaDir)).log (FileOp.removeAll Path.rosettaDir)).fails
          (FileOp.removeAll Path.rosettaDir) = true then
        ((w.log (FileOp.stat Path.rosettaDir)).log (FileOp.removeAll Path.rosettaDir)).showError
      else
        { (((w.log (FileOp.stat Path.rosettaDir)).log (FileOp.removeAll Path.rosettaDir)).setBin
            Path.rosettax87 none).setBin Path.libRuntimeRosettax87 none with
          rosettaDir := false, rosettaStale := false }
    else w.log (FileOp.stat Path.rosettaDir)) = w1
  have h1 : w1.dlls = w.dlls ∧ w1.fails = w.fails := by
    subst hw1
    simp only [World.log, World.showError, World.setBin]
    split_ifs <;> simp
  rw [← key w1 h1.1 h1.2]
  simp only [World.withConfig]
  split_ifs <;> rfl

/-! ## Lemmas: the first steps of `PatchTurtleWoW` -/

theorem OnlyBinaries.obRefl (w : World) : OnlyBinaries w w := by
  simp [OnlyBinaries]

theorem OnlyBinaries.obTrans {w w2 w3 : World} (h1 : OnlyBinaries w w2) (h2 : OnlyBinaries w2 w3) :
    OnlyBinaries w w3 := by
  unfold OnlyBinaries at *
  obtain ⟨a1, a2, a3, a4, a5, a6, a7, a8, a9, a10, a11, a12, a13, a14, a15⟩ := h1
  obtain ⟨b1, b2, b3, b4, b5, b6, b7, b8, b9, b10, b11, b12, b13, b14, b15⟩ := h2
  exact ⟨b1.trans a1, b2.trans a2, b3.trans a3, b4.trans a4, b5.trans a5, b6.trans a6,
    b7.trans a7, b8.trans a8, b9.trans a9, b10.trans a10, b11.trans a11, b12.trans a12,
    b13.trans a13, b14.trans a14, b15.trans a15⟩

theorem OnlyBinaries.obLog (w : World) (op : FileOp) : OnlyBinaries w (w.log op) := by
  simp [OnlyBinaries, World.log]

theorem OnlyBinaries.setBin (w : World) (p : Path) (c : Option (List Nat)) :
    OnlyBinaries w (w.setBin p c) := by
  simp [OnlyBinaries, World.setBin]

theorem copyBundled_frame (order : List Path) (w : World) :
    OnlyBinaries w (copyBundled order w).2 := by
  induction order generalizing w with
  | nil => exact OnlyBinaries.obRefl w
  | cons p ps ih =>
    unfold copyBundled
    simp only []
    by_cases h1 : (binExists (w.log (FileOp.stat p)) p
        && CompareFileWithBundledResource (w.log (FileOp.stat p)) p) = true
    · rw [if_pos h1]
      exact (OnlyBinaries.obLog w _).obTrans (ih _)
    · rw [if_neg h1]
      cases hres : ((w.log (FileOp.stat p)).log (FileOp.stat p)).resource p with
      | none => exact (OnlyBinaries.obLog w _).obTrans (OnlyBinaries.obLog _ _)
      | some content =>
        simp only []
        split_ifs with h2 h3
        · exact ((OnlyBinaries.obLog w _).obTrans (OnlyBinaries.obLog _ _)).obTrans (OnlyBinaries.obLog _ _)
        · exact ((((OnlyBinaries.obLog w _).obTrans (OnlyBinaries.obLog _ _)).obTrans
            (OnlyBinaries.obLog _ _)).obTrans (OnlyBinaries.setBin _ _ _)).obTrans (OnlyBinaries.obLog _ _)
        · exact ((((((OnlyBinaries.obLog w _).obTrans (OnlyBinaries.obLog _ _)).obTrans
            (OnlyBinaries.obLog _ _)).obTrans (OnlyBinaries.setBin _ _ _)).obTrans
            (OnlyBinaries.obLog _ _)).obTrans (OnlyBinaries.setBin _ _ _)).obTrans (ih _)

theorem copyBundled_ok (order : List Path) (w : World) (hfails : ∀ op, w.fails op = false)
    (hres : ∀ p, w.resource p ≠ none) : (copyBundled order w).1 = false := by
  induction order generalizing w with
  | nil => rfl
  | cons p ps ih =>
    unfold copyBundled
    simp only []
    by_cases h1 : (binExists (w.log (FileOp.stat p)) p
        && CompareFileWithBundledResource (w.log (FileOp.stat p)) p) = true
    · rw [if_pos h1]
      exact ih _ hfails hres
    · rw [if_neg h1]
      cases hr : ((w.log (FileOp.stat p)).log (FileOp.stat p)).resource p with
      | none => exact absurd hr (hres p)
      | some content =>
        simp only []
        have hf1 : (((w.log (FileOp.stat p)).log (FileOp.stat p)).log (FileOp.create p)).fails
            (FileOp.create p) = false := hfails _
        have hf2 : (((((w.log (FileOp.stat p)).log (FileOp.stat p)).log
            (FileOp.create p)).setBin p (some [])).log (FileOp.copy p)).fails
            (FileOp.copy p) = false := hfails _
        rw [hf1, hf2]
        exact ih _ hfails hres

theorem prepareRosettaDir_frame (w : World) : OnlyBinaries w (prepareRosettaDir w).2 := by
  unfold prepareRosettaDir
  simp only [World.log, World.setBin]
  split_ifs <;> simp [OnlyBinaries]

theorem prepareRosettaDir_ok (w : World) (hfails : ∀ op, w.fails op = false) :
    (prepareRosettaDir w).1 = false := by
  unfold prepareRosettaDir
  simp [World.log, World.setBin, hfails]

theorem copyRosetta_frame (rorder : List Path) (w : World) :
    OnlyBinaries w (copyRosetta rorder w).2 := by
  induction rorder generalizing w with
  | nil => exact OnlyBinaries.obRefl w
  | cons p ps ih =>
    unfold copyRosetta
    cases hres : w.resource p with
    | none => exact OnlyBinaries.obRefl w
    | some content =>
      simp only []
      split_ifs with h1 h2 h3 h4
      · exact OnlyBinaries.obLog w _
      · exact ((OnlyBinaries.obLog w _).obTrans (OnlyBinaries.setBin _ _ _)).obTrans
          (OnlyBinaries.obLog _ _)
      · exact ((((OnlyBinaries.obLog w _).obTrans (OnlyBinaries.setBin _ _ _)).obTrans
          (OnlyBinaries.obLog _ _)).obTrans (OnlyBinaries.setBin _ _ _)).obTrans (OnlyBinaries.obLog _ _)
      · exact (((((OnlyBinaries.obLog w _).obTrans (OnlyBinaries.setBin _ _ _)).obTrans
          (OnlyBinaries.obLog _ _)).obTrans (OnlyBinaries.setBin _ _ _)).obTrans
          (OnlyBinaries.obLog _ _)).obTrans (ih _)
      · exact ((((OnlyBinaries.obLog w _).obTrans (OnlyBinaries.setBin _ _ _)).obTrans
          (OnlyBinaries.obLog _ _)).obTrans (OnlyBinaries.setBin _ _ _)).obTrans (ih _)

theorem copyRosetta_ok (rorder : List Path) (w : World) (hfails : ∀ op, w.fails op = false)
    (hres : ∀ p, w.resource p ≠ none) : (copyRosetta rorder w).1 = false := by
  induction rorder generalizing w with
  | nil => rfl
  | cons p ps ih =>
    unfold copyRosetta
    cases hr : w.resource p with
    | none => exact absurd hr (hres p)
    | some content =>
      simp only []
      have hf1 : (w.log (FileOp.create p)).fails (FileOp.create p) = false := hfails _
      have hf2 : (((w.log (FileOp.create p)).setBin p (some [])).log (FileOp.copy p)).fails
          (FileOp.copy p) = false := hfails _
      have hf3 : (((((w.log (FileOp.create p)).setBin p (some [])).log (FileOp.copy p)).setBin p
          (some content)).log (FileOp.chmod p)).fails (FileOp.chmod p) = false := hfails _
      rw [hf1, hf2, hf3]
      simp only [Bool.false_eq_true, if_false]
      split_ifs
      · exact ih _ hfails hres
      · exact ih _ hfails hres

/-- With no failing call and every resource bundled, `PatchTurtleWoW` runs
its last part on a world that differs from the first at most in the binary
files, the directory `rosettax87` and the calls made. -/
theorem PatchTurtleWoW_eq_finishPatch (uni : Char → Bool) (order rorder : List Path)
    (w : World) (hroot : w.turtlewowPath ≠ []) (hfails : ∀ op, w.fails op = false)
    (hres : ∀ p, w.resource p ≠ none) :
    ∃ w3, OnlyBinaries w w3 ∧ PatchTurtleWoW uni order rorder w = finishPatch uni w3 := by
  have f1 := copyBundled_frame order w
  have k1 := copyBundled_ok order w hfails hres
  have hf1 : ∀ op, (copyBundled order w).2.fails op = false := by
    intro op
    rw [f1.2.2.2.2.2.2.2.2.2.2.2.2.1]
    exact hfails op
  have hr1 : ∀ p, (copyBundled order w).2.resource p ≠ none := by
    intro p
    rw [f1.2.2.2.2.2.2.2.2.2.2.2.1]
    exact hres p
  have f2 := prepareRosettaDir_frame (copyBundled order w).2
  have k2 := prepareRosettaDir_ok (copyBundled order w).2 hf1
  have hf2 : ∀ op, (prepareRosettaDir (copyBundled order w).2).2.fails op = false := by
    intro op
    rw [f2.2.2.2.2.2.2.2.2.2.2.2.2.1]
    exact hf1 op
  have hr2 : ∀ p, (prepareRosettaDir (copyBundled order w).2).2.resource p ≠ none := by
    intro p
    rw [f2.2.2.2.2.2.2.2.2.2.2.2.1]
    exact hr1 p
  have f3 := copyRosetta_frame rorder (prepareRosettaDir (copyBundled order w).2).2
  have k3 := copyRosetta_ok rorder (prepareRosettaDir (copyBundled order w).2).2 hf2 hr2
  refine ⟨(copyRosetta rorder (prepareRosettaDir (copyBundled order w).2).2).2,
    (f1.obTrans f2).obTrans f3, ?_⟩
  unfold PatchTurtleWoW
  rw [if_neg hroot]
  rcases h1 : copyBundled order w with ⟨b1, w1⟩
  rw [h1] at k1 k2 k3
  simp only at k1
  subst k1
  simp only []
  rcases h2 : prepareRosettaDir w1 with ⟨b2, w2⟩
  rw [h2] at k2 k3
  simp only at k2
  subst k2
  simp only []
  rcases h3 : copyRosetta rorder w2 with ⟨b3, w3⟩
  rw [h3] at k3
  simp only at k3
  subst k3
  rfl

/-! ## Lemmas: the manifest after `PatchTurtleWoW` -/

theorem withNewline_endsLine (c : List Char) : EndsLine (withNewline c) := by
  rcases withNewline_cases c with h | ⟨t, ht, _⟩
  · exact Or.inl h
  · exact Or.inr ⟨t, ht⟩

theorem EndsLine.append_line (t x : List Char) : EndsLine (t ++ x ++ ['\n']) :=
  Or.inr ⟨t ++ x, rfl⟩

theorem hasLine_nil (e : List Char) (he : e ≠ []) : hasLine e [] = false := by
  have : stringsTrimSpace [] = [] := rfl
  simp [hasLine, stringsSplit, this, he, Ne.symm he]

theorem hasLine_append_line (e t x : List Char) (he : e ≠ []) (ht : EndsLine t)
    (hx : '\n' ∉ x) :
    hasLine e (t ++ x ++ ['\n']) = (hasLine e t || stringsTrimSpace x == e) := by
  have h0 : (stringsTrimSpace [] == e) = false := by
    have : stringsTrimSpace [] = [] := rfl
    simp [this, he, Ne.symm he]
  rcases ht with ht | ⟨t0, ht⟩
  · subst ht
    rw [hasLine_nil e he, List.nil_append]
    unfold hasLine
    rw [show x ++ ['\n'] = x ++ '\n' :: [] from rfl, stringsSplit_append_nl,
      stringsSplit_of_no_nl x hx]
    simp [stringsSplit, h0]
  · subst ht
    unfold hasLine
    rw [show t0 ++ ['\n'] ++ x ++ ['\n'] = t0 ++ '\n' :: (x ++ '\n' :: []) by simp,
      stringsSplit_append_nl, stringsSplit_append_nl, stringsSplit_of_no_nl x hx,
      show t0 ++ ['\n'] = t0 ++ '\n' :: [] from rfl, stringsSplit_append_nl]
    simp [stringsSplit, h0]

theorem hasLine_withNewline (e c : List Char) (he : e ≠ []) :
    hasLine e (withNewline c) = hasLine e c := by
  have h0 : (stringsTrimSpace [] == e) = false := by
    have : stringsTrimSpace [] = [] := rfl
    simp [this, he, Ne.symm he]
  unfold withNewline
  split_ifs
  · unfold hasLine
    rw [show c ++ ['\n'] = c ++ '\n' :: [] from rfl, stringsSplit_append_nl]
    simp [stringsSplit, h0]
  · rfl

theorem hasLine_removeEntries_other (e r c : List Char) (he : e ≠ []) (hne : e ≠ r) :
    hasLine e (removeEntries [r] c) = hasLine e c := by
  unfold removeEntries
  by_cases hnil : (stringsSplit c).filter
      (fun line => !([r].contains (stringsTrimSpace line))) = []
  · rw [hnil]
    rw [show stringsJoin [] = [] from rfl, hasLine_nil e he]
    symm
    unfold hasLine
    rw [List.any_eq_false]
    intro l hl hb
    have hb2 : stringsTrimSpace l = e := by simpa using hb
    have hl2 : l ∉ (stringsSplit c).filter
        (fun line => !([r].contains (stringsTrimSpace line))) := by
      rw [hnil]
      simp
    apply hl2
    rw [List.mem_filter]
    refine ⟨hl, ?_⟩
    simp [hb2, hne]
  · unfold hasLine
    rw [stringsSplit_stringsJoin _ hnil
      (fun l hl => nl_not_mem_of_mem_stringsSplit c l (List.mem_of_mem_filter hl))]
    rw [Bool.eq_iff_iff, List.any_eq_true, List.any_eq_true]
    constructor
    · rintro ⟨l, hl, hb⟩
      exact ⟨l, List.mem_of_mem_filter hl, hb⟩
    · rintro ⟨l, hl, hb⟩
      refine ⟨l, ?_, hb⟩
      rw [List.mem_filter]
      refine ⟨hl, ?_⟩
      have hb2 : stringsTrimSpace l = e := by simpa using hb
      simp [hb2, hne]

theorem addMissingEntries_eq (nW nL sh : Bool) (c : List Char) :
    addMissingEntries nW nL sh c
      = (withNewline c
          ++ (if nW && !stringsContains (withNewline c) (winerosettaEntry ++ ['\n'])
              then winerosettaEntry ++ ['\n'] else []))
        ++ (if nL && sh
              && !stringsContains (withNewline c
                ++ (if nW && !stringsContains (withNewline c) (winerosettaEntry ++ ['\n'])
                    then winerosettaEntry ++ ['\n'] else [])) (libSiliconPatchEntry ++ ['\n'])
            then libSiliconPatchEntry ++ ['\n'] else []) := by
  unfold addMissingEntries
  simp only [show ∀ u : List Char,
    (if u.length > 0 && !hasNewlineSuffix u then u ++ ['\n'] else u) = withNewline u
    from fun u => rfl, List.append_assoc]
  by_cases h1 : (nW && !stringsContains (withNewline c) (winerosettaEntry ++ ['\n'])) = true
  · simp only [h1, if_true]
    split_ifs <;> simp
  · rw [if_neg h1, if_neg h1]
    simp only [List.append_nil]
    split_ifs <;> simp

/-- Whether a line of the text after `addMissingEntries` is `winerosetta.dll`
does not depend on whether the library is added. -/
theorem hasLine_winerosetta_addMissingEntries (nW nL sh : Bool) (c : List Char) :
    hasLine winerosettaEntry (addMissingEntries nW nL sh c)
      = (hasLine winerosettaEntry c
          || (nW && !stringsContains (withNewline c) (winerosettaEntry ++ ['\n']))) := by
  have hw : winerosettaEntry ≠ [] := by decide
  have hnlw : '\n' ∉ winerosettaEntry := by decide
  have hnll : '\n' ∉ libSiliconPatchEntry := by decide
  have htw : (stringsTrimSpace winerosettaEntry == winerosettaEntry) = true := by decide
  have htl : (stringsTrimSpace libSiliconPatchEntry == winerosettaEntry) = false := by decide
  rw [addMissingEntries_eq]
  have step1 : hasLine winerosettaEntry (withNewline c
      ++ (if nW && !stringsContains (withNewline c) (winerosettaEntry ++ ['\n'])
          then winerosettaEntry ++ ['\n'] else []))
      = (hasLine winerosettaEntry c
          || (nW && !stringsContains (withNewline c) (winerosettaEntry ++ ['\n']))) := by
    split_ifs with h
    · rw [← List.append_assoc, hasLine_append_line _ _ _ hw (withNewline_endsLine c) hnlw,
        hasLine_withNewline _ _ hw, htw, h]
    · have h2 : (nW && !stringsContains (withNewline c) (winerosettaEntry ++ ['\n'])) = false := by
        simpa using h
      rw [List.append_nil, hasLine_withNewline _ _ hw, h2, Bool.or_false]
  have hend : EndsLine (withNewline c
      ++ (if nW && !stringsContains (withNewline c) (winerosettaEntry ++ ['\n'])
          then winerosettaEntry ++ ['\n'] else [])) := by
    split_ifs
    · rw [← List.append_assoc]
      exact EndsLine.append_line _ _
    · rw [List.append_nil]
      exact withNewline_endsLine c
  generalize hU : (withNewline c
      ++ (if nW && !stringsContains (withNewline c) (winerosettaEntry ++ ['\n'])
          then winerosettaEntry ++ ['\n'] else [])) = U at step1 hend ⊢
  split_ifs with h
  · rw [← List.append_assoc, hasLine_append_line _ _ _ hw hend hnll, htl, Bool.or_false, step1]
  · rw [List.append_nil, step1]

/-! ## Lemmas: the last part of `PatchTurtleWoW` -/

theorem patchDllsTxt_dlls (should : Bool) (w : World)
    (hrd : w.fails (FileOp.readFile Path.dllsTxt) = false)
    (hwr : w.fails (FileOp.writeFile Path.dllsTxt) = false) :
    (patchDllsTxt should w).dlls = some (patchedManifest should w.dlls)
    ∧ (patchDllsTxt should w).fails = w.fails
    ∧ (patchDllsTxt should w).turtlewowPath = w.turtlewowPath := by
  unfold patchDllsTxt patchedManifest
  cases hd : w.dlls with
  | none =>
    cases should <;> simp [World.log, World.showError, hd, hwr]
  | some content =>
    simp only [World.log, World.showError, hd, hrd, Bool.false_eq_true, if_false]
    by_cases hw : stringsContains content winerosettaEntry = true
      <;> by_cases hl : stringsContains content libSiliconPatchEntry = true
      <;> cases should
      <;> simp [hw, hl, hwr, hd]

theorem disableLibSiliconPatchInDlls_dlls (w : World) (hroot : w.turtlewowPath ≠ [])
    (hrd : w.fails (FileOp.readFile Path.dllsTxt) = false)
    (hwr : w.fails (FileOp.writeFile Path.dllsTxt) = false) :
    (disableLibSiliconPatchInDlls w).2.dlls
      = w.dlls.map (removeEntries [libSiliconPatchEntry]) := by
  unfold disableLibSiliconPatchInDlls
  cases hd : w.dlls with
  | none => simp [if_neg hroot, World.log, hd]
  | some content => simp [if_neg hroot, World.log, hd, hrd, hwr]

theorem finishPatch_dlls (uni : Char → Bool) (w : World) :
    (finishPatch uni w).dlls
      = (if w.prefs.userDisabledLibSiliconPatch then
          (disableLibSiliconPatchInDlls
            (patchDllsTxt false (SavePrefs w (patchPrefs w.prefs)))).2.dlls
        else (patchDllsTxt true (SavePrefs w (patchPrefs w.prefs))).dlls) := by
  unfold finishPatch
  simp only [LoadPrefs, World.withConfig]
  cases h1 : w.prefs.userDisabledLibSiliconPatch <;> cases h2 : w.prefs.userDisabledShadowLOD
    <;> simp

/-- The manifest after `PatchTurtleWoW` when no call fails and every
resource is bundled. -/
theorem PatchTurtleWoW_dlls (uni : Char → Bool) (order rorder : List Path) (w : World)
    (hroot : w.turtlewowPath ≠ []) (hfails : ∀ op, w.fails op = false)
    (hres : ∀ p, w.resource p ≠ none) :
    (PatchTurtleWoW uni order rorder w).dlls
      = (if w.prefs.userDisabledLibSiliconPatch then
          some (removeEntries [libSiliconPatchEntry] (patchedManifest false w.dlls))
        else some (patchedManifest true w.dlls)) := by
  obtain ⟨w3, hf, he⟩ := PatchTurtleWoW_eq_finishPatch uni order rorder w hroot hfails hres
  obtain ⟨a1, -, -, -, -, -, -, -, -, a10, a11, -, a13, -, -⟩ := hf
  rw [he, finishPatch_dlls, a11]
  have hf3 : ∀ op, w3.fails op = false := by
    intro op
    rw [a13]
    exact hfails op
  by_cases h1 : w.prefs.userDisabledLibSiliconPatch = true
  · rw [if_pos h1, if_pos h1]
    have hp := patchDllsTxt_dlls false (SavePrefs w3 (patchPrefs w.prefs)) (hf3 _) (hf3 _)
    rw [disableLibSiliconPatchInDlls_dlls _ (by rw [hp.2.2]; exact a1 ▸ hroot)
      (by rw [hp.2.1]; exact hf3 _) (by rw [hp.2.1]; exact hf3 _), hp.1]
    simp only [SavePrefs, Option.map_some', a10]
  · rw [if_neg h1, if_neg h1]
    have hp := patchDllsTxt_dlls true (SavePrefs w3 (patchPrefs w.prefs)) (hf3 _) (hf3 _)
    rw [hp.1]
    simp only [SavePrefs, a10]

theorem hasLine_winerosetta_patchedManifest (should : Bool) (d : Option (List Char)) :
    hasLine winerosettaEntry (patchedManifest should d)
      = hasLine winerosettaEntry (patchedManifest false d) := by
  cases d with
  | none =>
    simp only [patchedManifest]
    rw [hasLine_winerosetta_addMissingEntries, hasLine_winerosetta_addMissingEntries]
  | some content =>
    simp only [patchedManifest]
    by_cases hw : stringsContains content winerosettaEntry = true
    · have e1 : ∀ nL sh, hasLine winerosettaEntry
          (addMissingEntries (!stringsContains content winerosettaEntry) nL sh content)
          = hasLine winerosettaEntry content := by
        intro nL sh
        rw [hasLine_winerosetta_addMissingEntries, hw]
        simp
      split_ifs <;> simp only [e1]
    · have hw2 : stringsContains content winerosettaEntry = false := by simpa using hw
      simp only [hw2, Bool.not_false, Bool.true_or, if_true]
      rw [hasLine_winerosetta_addMissingEntries, hasLine_winerosetta_addMissingEntries]

/-! ## Lemmas: tidy settings files -/

theorem lineKey_no_space (l : List Char) : ∀ c ∈ lineKey l, isSpace c = false := by
  intro c hc
  have := List.mem_takeWhile_imp hc
  simpa using this

/-- Two directives that begin at the same place name the same key, for keys
without white space or double quote. -/
theorem SettingAt.key_unique {k k2 v v2 r r2 s : List Char}
    (hk : ∀ c ∈ k, isSpace c = false ∧ c ≠ dq) (hk2 : ∀ c ∈ k2, isSpace c = false ∧ c ≠ dq)
    (h : SettingAt k v r s) (h2 : SettingAt k2 v2 r2 s) : k = k2 := by
  obtain ⟨w1, w2, hw1, hs1, hw2, hs2, -, e⟩ := h
  obtain ⟨u1, u2, hu1, ht1, hu2, ht2, -, e2⟩ := h2
  have hkd : dq ∉ k := fun hd => (hk dq hd).2 rfl
  have hk2d : dq ∉ k2 := fun hd => (hk2 dq hd).2 rfl
  have hp : ∀ l : List Char, dq ∉ l → ∀ x ∈ l, (fun c => c != dq) x = true := by
    intro l hl x hx
    have : x ≠ dq := fun e => hl (e ▸ hx)
    simpa using this
  have hh1 : dq ∉ kw ++ w1 ++ k ++ w2 := by
    simp only [List.mem_append, not_or]
    exact ⟨⟨⟨dq_not_mem_kw, dq_not_mem_of_spaces hs1⟩, hkd⟩, dq_not_mem_of_spaces hs2⟩
  have hh2 : dq ∉ kw ++ u1 ++ k2 ++ u2 := by
    simp only [List.mem_append, not_or]
    exact ⟨⟨⟨dq_not_mem_kw, dq_not_mem_of_spaces ht1⟩, hk2d⟩, dq_not_mem_of_spaces ht2⟩
  have e3 : (kw ++ w1 ++ k ++ w2) ++ dq :: (v ++ [dq] ++ r)
      = (kw ++ u1 ++ k2 ++ u2) ++ dq :: (v2 ++ [dq] ++ r2) := by
    have := e.symm.trans e2
    simpa using this
  have h3 := (span_unique (p := fun c => c != dq) (hp _ hh1) (hp _ hh2) (by simp) (by simp)
    e3).1
  have h4 : w1 ++ (k ++ w2) = u1 ++ (k2 ++ u2) := by
    have : kw ++ (w1 ++ (k ++ w2)) = kw ++ (u1 ++ (k2 ++ u2)) := by simpa using h3
    exact List.append_cancel_left this
  -- the keys have the same length
  have hc := congrArg (List.countP isSpace) h4
  simp only [List.countP_append, countP_space_of_spaces hs1, countP_space_of_spaces hs2,
    countP_space_of_spaces ht1, countP_space_of_spaces ht2,
    countP_space_of_none (fun c hc => (hk c hc).1),
    countP_space_of_none (fun c hc => (hk2 c hc).1)] at hc
  have hl := congrArg List.length h4
  simp only [List.length_append] at hl
  have hlen : k.length = k2.length := by omega
  have hq : ∀ l : List Char, (∀ c ∈ l, isSpace c = true) →
      ∀ x ∈ l, (fun c => isSpace c) x = true := fun l hl x hx => hl x hx
  obtain ⟨b, w2t, rfl⟩ := List.exists_cons_of_ne_nil hw2
  obtain ⟨b2, u2t, rfl⟩ := List.exists_cons_of_ne_nil hu2
  have hb : isSpace b = true := hs2 b (by simp)
  have hb2 : isSpace b2 = true := ht2 b2 (by simp)
  cases k with
  | nil =>
    cases k2 with
    | nil => rfl
    | cons c k2 => simp at hlen
  | cons a k =>
    cases k2 with
    | nil => simp at hlen
    | cons a2 k2 =>
      have ha : isSpace a = false := (hk a (by simp)).1
      have ha2 : isSpace a2 = false := (hk2 a2 (by simp)).1
      have e5 : w1 ++ a :: (k ++ b :: w2t) = u1 ++ a2 :: (k2 ++ b2 :: u2t) := by
        simpa using h4
      have h5 := (span_unique (p := fun c => isSpace c) (hq _ hs1) (hq _ ht1) ha ha2 e5).2
      have hq2 : ∀ l : List Char, (∀ c ∈ l, isSpace c = false ∧ c ≠ dq) →
          ∀ x ∈ l, (fun c => !isSpace c) x = true := by
        intro l hl x hx
        simp [(hl x hx).1]
      have e6 : (a :: k) ++ b :: w2t = (a2 :: k2) ++ b2 :: u2t := by simpa using h5
      exact (span_unique (p := fun c => !isSpace c) (hq2 _ hk) (hq2 _ hk2) (by simp [hb])
        (by simp [hb2]) e6).1

theorem prefix_of_prefix_append_cons {p b t : List Char} {c : Char} (hc : c ∉ p)
    (h : p <+: b ++ c :: t) : p <+: b := by
  induction p generalizing b with
  | nil => exact List.nil_prefix
  | cons a p ih =>
    cases b with
    | nil =>
      rw [List.nil_append, List.cons_prefix_cons] at h
      exact absurd (by simp [h.1]) hc
    | cons b0 b =>
      rw [List.cons_append, List.cons_prefix_cons] at h
      rw [List.cons_prefix_cons]
      exact ⟨h.1, ih (fun hm => hc (List.mem_cons_of_mem _ hm)) h.2⟩

theorem kw_prefix_of_settingAt {k v r s : List Char} (h : SettingAt k v r s) : kw <+: s := by
  obtain ⟨w1, w2, -, -, -, -, -, e⟩ := h
  exact ⟨w1 ++ k ++ w2 ++ [dq] ++ v ++ [dq] ++ r, by rw [e]; simp⟩

/-- Inside a tidy line that is not a directive for the key no directive for
the key starts, whatever follows the line feed that ends it. -/
theorem tidyLine_noMatchIn {k l : List Char} (t : List Char)
    (hk : ∀ c ∈ k, isSpace c = false ∧ c ≠ dq) (hl : tidyLine l = true)
    (hn : isSettingLine k l = false) : NoMatchIn (matchSettingAt k) l ('\n' :: t) := by
  simp only [tidyLine, Bool.and_eq_true, Bool.or_eq_true, Bool.not_eq_true'] at hl
  obtain ⟨⟨⟨-, -⟩, hset⟩, hdir⟩ := hl
  intro a b e hb
  by_contra hm
  obtain ⟨⟨x, r⟩, hx⟩ := Option.ne_none_iff_exists'.1 hm
  have hs := matchSettingAt_sound hx
  have hpre : kw <+: b :=
    prefix_of_prefix_append_cons (by decide) (kw_prefix_of_settingAt hs)
  cases a with
  | nil =>
    have eb : b = l := by simpa using e.symm
    subst eb
    rcases hdir with hdir | hdir
    · rw [List.isPrefixOf_iff_prefix.2 hpre] at hdir
      cases hdir
    · obtain ⟨⟨h1, h2⟩, h3⟩ := hdir
      obtain ⟨y, hy⟩ := isSettingLine_iff.1 h1
      have hs2 := (matchSettingAt_sound hy).extend ('\n' :: t)
      have hk2 : ∀ c ∈ lineKey b, isSpace c = false ∧ c ≠ dq := by
        intro c hc
        refine ⟨lineKey_no_space b c hc, ?_⟩
        intro hcd
        have : (lineKey b).contains dq = true := by
          rw [← hcd]
          simpa using hc
        rw [this] at h3
        cases h3
      have hkk := SettingAt.key_unique hk hk2 hs hs2
      rw [hkk, h1] at hn
      cases hn
  | cons a0 a =>
    have : stringsContains (l.drop 1) kw = true := by
      rw [stringsContains_iff, e]
      simp only [List.cons_append, List.drop_succ_cons, List.drop_zero]
      exact hpre.isInfix.trans (List.suffix_append _ _).isInfix
    rw [this] at hset
    cases hset

theorem noMatchStartsIn_of_noMatchIn {m : List Char → Option (List Char × List Char)}
    {p t : List Char} (h : NoMatchIn m p t) : noMatchStartsIn m p t = true := by
  induction p with
  | nil => rfl
  | cons c p ih =>
    obtain ⟨h1, h2⟩ := noMatchIn_cons.1 h
    simp only [noMatchStartsIn, Bool.and_eq_true, Option.isNone_iff_eq_none]
    exact ⟨h1, ih h2⟩

theorem tidyDoc_cons {l : List Char} {ls : List (List Char)} :
    tidyDoc (l :: ls) = true ↔ tidyLine l = true ∧ tidyDoc ls = true := by
  simp [tidyDoc]

/-- A tidy settings file is made of whole lines for every key without white
space or double quote, and no directive line in it is followed by an empty
line or one that begins with a carriage return. -/
theorem tidyDoc_wholeLineSettings {k : List Char} {ls : List (List Char)}
    (hk : ∀ c ∈ k, isSpace c = false ∧ c ≠ dq) (h : tidyDoc ls = true) :
    wholeLineSettings k ls = true ∧ noBreakAfterSetting k ls = true := by
  induction ls with
  | nil => exact ⟨rfl, rfl⟩
  | cons l ls ih =>
    obtain ⟨hl, hls⟩ := tidyDoc_cons.1 h
    obtain ⟨ih1, ih2⟩ := ih hls
    constructor
    · simp only [wholeLineSettings, Bool.and_eq_true, Bool.or_eq_true]
      refine ⟨⟨?_, ?_⟩, ih1⟩
      · simp only [tidyLine, Bool.and_eq_true] at hl
        exact hl.1.1.2
      · cases hn : isSettingLine k l with
        | true => exact Or.inl rfl
        | false =>
          exact Or.inr (noMatchStartsIn_of_noMatchIn (tidyLine_noMatchIn _ hk hl hn))
    · simp only [noBreakAfterSetting, Bool.and_eq_true, Bool.or_eq_true]
      refine ⟨?_, ih2⟩
      right
      cases ls with
      | nil => rfl
      | cons l1 ls1 =>
        have hl1 := (tidyDoc_cons.1 hls).1
        cases l1 with
        | nil => simp [tidyLine] at hl1
        | cons c l1 =>
          simp only [tidyLine, Bool.and_eq_true] at hl1
          exact hl1.1.1.1

/-! ## Lemmas: the settings engine on lists of lines -/

theorem findFirst_skip {m : List Char → Option (List Char × List Char)} {p t : List Char}
    (h : NoMatchIn m p t) :
    findFirst m (p ++ t) = (findFirst m t).map (fun x => (p ++ x.1, x.2)) := by
  induction p with
  | nil =>
    rw [List.nil_append]
    cases findFirst m t with
    | none => rfl
    | some x => simp
  | cons c p ih =>
    obtain ⟨h1, h2⟩ := noMatchIn_cons.1 h
    rw [List.cons_append, findFirst_cons, h1, ih h2]
    cases findFirst m t with
    | none => rfl
    | some x =>
      obtain ⟨b, v, r⟩ := x
      rfl

theorem isConfigSettingCorrect_skip {k p t : List Char} (e : List Char)
    (h : NoMatchIn (matchSettingAt k) p t) :
    isConfigSettingCorrect (p ++ t) k e = isConfigSettingCorrect t k e := by
  unfold isConfigSettingCorrect
  rw [findFirst_skip h]
  cases findFirst (matchSettingAt k) t with
  | none => rfl
  | some x =>
    obtain ⟨b, v, r⟩ := x
    rfl

theorem matchString_skip {k p t : List Char} (h : NoMatchIn (matchSettingAt k) p t) :
    matchString (matchSettingAt k) (p ++ t) = matchString (matchSettingAt k) t := by
  unfold matchString
  rw [findFirst_skip h]
  cases findFirst (matchSettingAt k) t <;> rfl

theorem isConfigSettingCorrect_line {k l : List Char} (e t : List Char)
    (h : isSettingLine k l = true) :
    isConfigSettingCorrect (l ++ t) k e = isConfigSettingCorrect l k e := by
  obtain ⟨x, hx⟩ := isSettingLine_iff.1 h
  have h1 : matchSettingAt k (l ++ t) = some (x, t) :=
    matchSettingAt_iff.2 ((matchSettingAt_sound hx).extend t)
  have f1 : findFirst (matchSettingAt k) ([] ++ (l ++ t)) = some ([], x, t) :=
    findFirst_of_match (NoMatchIn.nil _ _) h1
  have f2 : findFirst (matchSettingAt k) ([] ++ l) = some ([], x, []) :=
    findFirst_of_match (NoMatchIn.nil _ _) hx
  rw [List.nil_append] at f1 f2
  unfold isConfigSettingCorrect
  rw [f1, f2]

/-- In a document of whole lines, `isConfigSettingCorrect` reads the first
directive line for the key. -/
theorem isConfigSettingCorrect_unlines {k : List Char} (e : List Char) {ls : List (List Char)}
    (h : wholeLineSettings k ls = true) :
    isConfigSettingCorrect (unlines ls) k e
      = match (settingLines k ls).head? with
        | some l => isConfigSettingCorrect l k e
        | none => false := by
  induction ls with
  | nil => rfl
  | cons l ls ih =>
    simp only [wholeLineSettings, Bool.and_eq_true, Bool.or_eq_true] at h
    obtain ⟨⟨-, h1⟩, h2⟩ := h
    by_cases hl : isSettingLine k l = true
    · simp only [unlines, settingLines, List.filter_cons, hl, if_true, List.head?_cons]
      exact isConfigSettingCorrect_line e _ hl
    · have h3 : noMatchStartsIn (matchSettingAt k) l ('\n' :: unlines ls) = true := by
        rcases h1 with h1 | h1
        · exact absurd h1 hl
        · exact h1
      have h4 : NoMatchIn (matchSettingAt k) ['\n'] (unlines ls) :=
        noMatchIn_cons.2 ⟨matchSettingAt_line_feed k _, NoMatchIn.nil _ _⟩
      have e1 : settingLines k (l :: ls) = settingLines k ls := by
        simp [settingLines, List.filter_cons, hl]
      rw [e1, ← ih h2]
      simp only [unlines]
      rw [isConfigSettingCorrect_skip e (noMatchIn_of_noMatchStartsIn h3)]
      exact isConfigSettingCorrect_skip e h4

/-- In a document of whole lines, the pattern matches exactly when there is a
directive line for the key. -/
theorem matchString_unlines {k : List Char} {ls : List (List Char)}
    (h : wholeLineSettings k ls = true) :
    matchString (matchSettingAt k) (unlines ls) = ls.any (fun l => isSettingLine k l) := by
  induction ls with
  | nil => rfl
  | cons l ls ih =>
    simp only [wholeLineSettings, Bool.and_eq_true, Bool.or_eq_true] at h
    obtain ⟨⟨-, h1⟩, h2⟩ := h
    by_cases hl : isSettingLine k l = true
    · obtain ⟨x, hx⟩ := matchSettingAt_of_settingLine hl ('\n' :: unlines ls)
      simp only [unlines, List.any_cons, hl, Bool.true_or]
      have := matchString_of_suffix (m := matchSettingAt k) (a := [])
        (b := l ++ '\n' :: unlines ls) (by rw [hx]; rfl)
      simpa using this
    · have h3 : noMatchStartsIn (matchSettingAt k) l ('\n' :: unlines ls) = true := by
        rcases h1 with h1 | h1
        · exact absurd h1 hl
        · exact h1
      have h4 : NoMatchIn (matchSettingAt k) ['\n'] (unlines ls) :=
        noMatchIn_cons.2 ⟨matchSettingAt_line_feed k _, NoMatchIn.nil _ _⟩
      have hl2 : isSettingLine k l = false := by simpa using hl
      simp only [unlines, List.any_cons, hl2, Bool.false_or]
      rw [matchString_skip (noMatchIn_of_noMatchStartsIn h3), ← ih h2]
      exact matchString_skip h4

theorem isSettingLine_key_unique {k k2 l : List Char}
    (hk : ∀ c ∈ k, isSpace c = false ∧ c ≠ dq) (hk2 : ∀ c ∈ k2, isSpace c = false ∧ c ≠ dq)
    (h : isSettingLine k l = true) (h2 : isSettingLine k2 l = true) : k = k2 := by
  obtain ⟨x, hx⟩ := isSettingLine_iff.1 h
  obtain ⟨y, hy⟩ := isSettingLine_iff.1 h2
  exact SettingAt.key_unique hk hk2 (matchSettingAt_sound hx) (matchSettingAt_sound hy)

theorem isSettingLine_newSetting (k : List Char) {v : List Char} (hv : dq ∉ v) :
    isSettingLine k (newSetting k v) = true := by
  rw [isSettingLine_iff]
  have := matchSettingAt_newSetting k [] hv
  rw [List.append_nil] at this
  exact ⟨v, this⟩

theorem isSettingLine_newSetting_other {k k2 v : List Char}
    (hk : ∀ c ∈ k, isSpace c = false ∧ c ≠ dq) (hk2 : ∀ c ∈ k2, isSpace c = false ∧ c ≠ dq)
    (hv : dq ∉ v) (hne : k ≠ k2) : isSettingLine k2 (newSetting k v) = false := by
  by_contra h
  have h2 : isSettingLine k2 (newSetting k v) = true := by simpa using h
  exact hne (isSettingLine_key_unique hk hk2 (isSettingLine_newSetting k hv) h2)

/-- On a tidy settings file `updateOrAddConfigSetting` is `upsertLines`. -/
theorem updateOrAdd_tidy (uni : Char → Bool) {k v : List Char} {ls : List (List Char)}
    (hk : ∀ c ∈ k, isSpace c = false ∧ c ≠ dq) (hd : dollar ∉ newSetting k v)
    (h : tidyDoc ls = true) :
    updateOrAddConfigSetting uni (unlines ls) k v = unlines (upsertLines k v ls) := by
  obtain ⟨hw, -⟩ := tidyDoc_wholeLineSettings hk h
  unfold upsertLines
  cases hm : ls.any (fun l => isSettingLine k l) with
  | true =>
    have hm2 : matchString (matchSettingAt k) (unlines ls) = true := by
      rw [matchString_unlines hw, hm]
    rw [updateOrAdd_of_match uni v hm2, replaceAll_unlines _ hw]
    simp only [if_true]
    congr 1
    apply List.map_congr_left
    intro l _
    split_ifs
    · exact expand_of_no_dollar uni l hd
    · rfl
  | false =>
    have hm2 : matchString (matchSettingAt k) (unlines ls) = false := by
      rw [matchString_unlines hw, hm]
    rw [updateOrAdd_of_no_match uni v hm2, lineSep_unlines]
    simp only [Bool.false_eq_true, if_false]
    rw [unlines_append]
    simp

/-- On a tidy settings file `removeConfigSetting` is `removeLines`. -/
theorem remove_tidy (uni : Char → Bool) {k : List Char} {ls : List (List Char)}
    (hk : ∀ c ∈ k, isSpace c = false ∧ c ≠ dq) (h : tidyDoc ls = true) :
    removeConfigSetting uni (unlines ls) k = unlines (removeLines k ls) := by
  obtain ⟨hw, hb⟩ := tidyDoc_wholeLineSettings hk h
  rw [remove_eq_replaceAll, removeAll_unlines hw hb]
  rfl

theorem tidyDoc_removeLines (k : List Char) {ls : List (List Char)} (h : tidyDoc ls = true) :
    tidyDoc (removeLines k ls) = true := by
  unfold tidyDoc removeLines at *
  rw [List.all_eq_true] at h ⊢
  intro l hl
  exact h l (List.mem_of_mem_filter hl)

theorem tidyDoc_upsertLines {k v : List Char} {ls : List (List Char)}
    (hE : tidyLine (newSetting k v) = true) (h : tidyDoc ls = true) :
    tidyDoc (upsertLines k v ls) = true := by
  unfold tidyDoc upsertLines at *
  rw [List.all_eq_true] at h
  split_ifs
  · rw [List.all_eq_true]
    intro l hl
    rw [List.mem_map] at hl
    obtain ⟨l0, hl0, e⟩ := hl
    split_ifs at e
    · rw [← e]
      exact hE
    · rw [← e]
      exact h l0 hl0
  · rw [List.all_eq_true]
    intro l hl
    rcases List.mem_append.1 hl with hl | hl
    · exact h l hl
    · rw [List.mem_singleton.1 hl]
      exact hE

theorem tidyDoc_toggleLines {k v : List Char} {ls : List (List Char)} (b : Bool)
    (hE : tidyLine (newSetting k v) = true) (h : tidyDoc ls = true) :
    tidyDoc (toggleLines b k v ls) = true := by
  unfold toggleLines
  split_ifs
  · exact tidyDoc_upsertLines hE h
  · exact tidyDoc_removeLines k h

theorem settingLines_removeLines_self (k : List Char) (ls : List (List Char)) :
    settingLines k (removeLines k ls) = [] := by
  unfold settingLines removeLines
  rw [List.filter_filter, List.filter_eq_nil_iff]
  intro l _
  simp

theorem settingLines_removeLines_other {k k2 : List Char} (ls : List (List Char))
    (hk : ∀ c ∈ k, isSpace c = false ∧ c ≠ dq) (hk2 : ∀ c ∈ k2, isSpace c = false ∧ c ≠ dq)
    (hne : k ≠ k2) : settingLines k2 (removeLines k ls) = settingLines k2 ls := by
  unfold settingLines removeLines
  rw [List.filter_filter]
  apply List.filter_congr
  intro l _
  cases h2 : isSettingLine k2 l with
  | false => simp
  | true =>
    cases h1 : isSettingLine k l with
    | false => simp
    | true => exact absurd (isSettingLine_key_unique hk hk2 h1 h2) hne

theorem settingLines_upsertLines_other {k k2 v : List Char} (ls : List (List Char))
    (hk : ∀ c ∈ k, isSpace c = false ∧ c ≠ dq) (hk2 : ∀ c ∈ k2, isSpace c = false ∧ c ≠ dq)
    (hv : dq ∉ v) (hne : k ≠ k2) : settingLines k2 (upsertLines k v ls) = settingLines k2 ls := by
  have hE := isSettingLine_newSetting_other hk hk2 hv hne
  have hmap : ∀ ls : List (List Char),
      (ls.map (fun l => if isSettingLine k l then newSetting k v else l)).filter
        (fun l => isSettingLine k2 l) = ls.filter (fun l => isSettingLine k2 l) := by
    intro ls
    induction ls with
    | nil => rfl
    | cons l ls ih =>
      simp only [List.map_cons, List.filter_cons]
      by_cases h1 : isSettingLine k l = true
      · have h2 : isSettingLine k2 l = false := by
          by_contra h
          have h3 : isSettingLine k2 l = true := by simpa using h
          exact hne (isSettingLine_key_unique hk hk2 h1 h3)
        simp only [h1, if_true, hE, h2, Bool.false_eq_true, if_false]
        exact ih
      · simp only [h1, if_false, Bool.false_eq_true]
        rw [ih]
  unfold settingLines upsertLines
  split_ifs
  · exact hmap ls
  · rw [List.filter_append]
    simp [List.filter_cons, hE]

theorem head_settingLines_upsertLines (k : List Char) {v : List Char} (ls : List (List Char))
    (hv : dq ∉ v) : (settingLines k (upsertLines k v ls)).head? = some (newSetting k v) := by
  have hE := isSettingLine_newSetting k hv
  unfold settingLines upsertLines
  split_ifs with hany
  · induction ls with
    | nil => simp at hany
    | cons l ls ih =>
      simp only [List.map_cons, List.filter_cons]
      by_cases h1 : isSettingLine k l = true
      · simp [h1, hE]
      · have h2 : isSettingLine k l = false := by simpa using h1
        simp only [h2, Bool.false_eq_true, if_false]
        apply ih
        simpa [h2] using hany
  · have hnone : ls.filter (fun l => isSettingLine k l) = [] := by
      rw [List.filter_eq_nil_iff]
      intro l hl hc
      apply hany
      rw [List.any_eq_true]
      exact ⟨l, hl, hc⟩
    rw [List.filter_append, hnone]
    simp [List.filter_cons, hE]

/-! ## Lemmas: the settings file after the orchestrator -/

theorem removeShadowLODSetting_config (uni : Char → Bool) (fs : ConfigFs)
    (hroot : fs.turtlewowPath ≠ []) (hrd : fs.readFails = false) (hwr : fs.writeFails = false) :
    (removeShadowLODSetting uni fs).2.config
      = fs.config.map (fun c => removeConfigSetting uni c shadowLOD) := by
  unfold removeShadowLODSetting removeConfigSetting
  simp only [if_neg hroot, ConfigFs.log, hrd, hwr, Bool.false_eq_true, if_false]
  cases hc : fs.config with
  | none => simp [hc]
  | some content =>
    simp only [Option.map_some']
    split_ifs <;> simp [hc]

theorem removeShadowLODSetting_config_none (uni : Char → Bool) (fs : ConfigFs)
    (hc : fs.config = none) : (removeShadowLODSetting uni fs).2.config = none := by
  unfold removeShadowLODSetting
  simp only [ConfigFs.log, hc]
  split_ifs <;> simp [hc]

theorem unpatchDllsTxt_frame (w : World) :
    (unpatchDllsTxt w).config = w.config ∧ (unpatchDllsTxt w).prefs = w.prefs
    ∧ (unpatchDllsTxt w).toConfigFs.turtlewowPath = w.turtlewowPath
    ∧ (unpatchDllsTxt w).readFails = w.readFails
    ∧ (unpatchDllsTxt w).writeFails = w.writeFails := by
  unfold unpatchDllsTxt
  cases h : w.dlls with
  | none => simp [World.log, h]
  | some content =>
    simp only [World.log, World.showError, h]
    split_ifs <;> simp

/-- The settings file after `UnpatchTurtleWoW`: what `removeShadowLODSetting`
leaves, on a world with the same settings file, when `SetShadowLOD0` is set,
and the file as it was otherwise. -/
theorem UnpatchTurtleWoW_config (uni : Char → Bool) (w : World) (hroot : w.turtlewowPath ≠ []) :
    ∃ fs : ConfigFs, fs.config = w.config ∧ fs.turtlewowPath = w.turtlewowPath
      ∧ fs.readFails = w.readFails ∧ fs.writeFails = w.writeFails
      ∧ (UnpatchTurtleWoW uni w).config
          = (if w.prefs.setShadowLOD0 then (removeShadowLODSetting uni fs).2.config
             else w.config) := by
  unfold UnpatchTurtleWoW
  simp only [if_neg hroot, List.foldl_cons, List.foldl_nil, LoadPrefs]
  generalize hw1 : (if (w.log (FileOp.stat Path.rosettaDir)).rosettaDir = true then
      if ((w.log (FileOp.stat Path.rosettaDir)).log (FileOp.removeAll Path.rosettaDir)).fails
          (FileOp.removeAll Path.rosettaDir) = true then
        ((w.log (FileOp.stat Path.rosettaDir)).log (FileOp.removeAll Path.rosettaDir)).showError
      else
        { (((w.log (FileOp.stat Path.rosettaDir)).log (FileOp.removeAll Path.rosettaDir)).setBin
            Path.rosettax87 none).setBin Path.libRuntimeRosettax87 none with
          rosettaDir := false, rosettaStale := false }
    else w.log (FileOp.stat Path.rosettaDir)) = w1
  have h1 : w1.config = w.config ∧ w1.prefs = w.prefs ∧ w1.turtlewowPath = w.turtlewowPath
      ∧ w1.readFails = w.readFails ∧ w1.writeFails = w.writeFails := by
    subst hw1
    simp only [World.log, World.showError, World.setBin]
    split_ifs <;> simp
  have ha := removeIfExists_frame w1 Path.winerosettaDll
  have hb := removeIfExists_frame (removeIfExists w1 Path.winerosettaDll) Path.d3d9Dll
  have hc := removeIfExists_frame
    (removeIfExists (removeIfExists w1 Path.winerosettaDll) Path.d3d9Dll)
    Path.libSiliconPatchDll
  have hd := unpatchDllsTxt_frame (removeIfExists
    (removeIfExists (removeIfExists w1 Path.winerosettaDll) Path.d3d9Dll)
    Path.libSiliconPatchDll)
  generalize (unpatchDllsTxt (removeIfExists
    (removeIfExists (removeIfExists w1 Path.winerosettaDll) Path.d3d9Dll)
    Path.libSiliconPatchDll)) = w3 at hd ⊢
  have e1 : w3.config = w.config := by
    rw [hd.1, hc.2.2.2.1, hb.2.2.2.1, ha.2.2.2.1, h1.1]
  have e2 : w3.prefs = w.prefs := by
    rw [hd.2.1, hc.2.2.2.2.1, hb.2.2.2.2.1, ha.2.2.2.2.1, h1.2.1]
  have e3 : w3.toConfigFs.turtlewowPath = w.turtlewowPath := by
    rw [hd.2.2.1, hc.2.2.1, hb.2.2.1, ha.2.2.1, h1.2.2.1]
  have e4 : w3.readFails = w.readFails := by
    rw [hd.2.2.2.1, hc.2.2.2.2.2.1, hb.2.2.2.2.2.1, ha.2.2.2.2.2.1, h1.2.2.2.1]
  have e5 : w3.writeFails = w.writeFails := by
    rw [hd.2.2.2.2, hc.2.2.2.2.2.2, hb.2.2.2.2.2.2, ha.2.2.2.2.2.2, h1.2.2.2.2]
  refine ⟨w3.toConfigFs, e1, e3, e4, e5, ?_⟩
  rw [e2]
  simp only [World.withConfig]
  split_ifs
  · rfl
  · exact e1

/-! ## Lemmas: the graphics settings -/

theorem enableLibSiliconPatchInDlls_frame (w : World) :
    (enableLibSiliconPatchInDlls w).2.writeFails = w.writeFails := by
  unfold enableLibSiliconPatchInDlls
  by_cases hroot : w.turtlewowPath = []
  · simp [hroot]
  · simp only [if_neg hroot, World.log]
    cases h : w.dlls with
    | none =>
      by_cases hc : stringsContains [] libSiliconPatchEntry = true
        <;> by_cases hw : w.fails (FileOp.writeFile Path.dllsTxt) = true
        <;> simp [hc, hw]
    | some content =>
      by_cases hr : w.fails (FileOp.readFile Path.dllsTxt) = true
        <;> by_cases hc : stringsContains content libSiliconPatchEntry = true
        <;> by_cases hw : w.fails (FileOp.writeFile Path.dllsTxt) = true
        <;> simp [hr, hc, hw]

theorem disableLibSiliconPatchInDlls_frame (w : World) :
    (disableLibSiliconPatchInDlls w).2.writeFails = w.writeFails := by
  unfold disableLibSiliconPatchInDlls
  by_cases hroot : w.turtlewowPath = []
  · simp [hroot]
  · simp only [if_neg hroot, World.log]
    cases h : w.dlls with
    | none => rfl
    | some content =>
      by_cases hr : w.fails (FileOp.readFile Path.dllsTxt) = true
        <;> by_cases hw : w.fails (FileOp.writeFile Path.dllsTxt) = true
        <;> simp [hr, hw]

/-- The settings file `ApplyGraphicsSettingsForVersion` writes when the game
path is set and no call on the settings file fails. -/
theorem ApplyGraphicsSettingsForVersion_config (uni : Char → Bool) (gamePath : List Char)
    (r m s e : Bool) (w : World) (hpath : gamePath ≠ []) (hmk : w.mkdirFails = false)
    (hrd : w.readFails = false) (hwr : w.writeFails = false) :
    (ApplyGraphicsSettingsForVersion uni gamePath r m s e w).1 = none
    ∧ (ApplyGraphicsSettingsForVersion uni gamePath r m s e w).2.config
        = some (applyToggles uni r m s (w.config.getD [])) := by
  have key : ∀ (w3 : World) (T : List Char), w3.writeFails = false →
      (if (w3.log (FileOp.writeFile Path.configWtf)).writeFails = true then
          (some ConfigError.writeFailed, w3.log (FileOp.writeFile Path.configWtf))
        else
          ((none : Option ConfigError),
            ({ w3.log (FileOp.writeFile Path.configWtf) with config := some T } : World)))
        = (none, { w3.log (FileOp.writeFile Path.configWtf) with config := some T }) := by
    intro w3 T h3
    have : (w3.log (FileOp.writeFile Path.configWtf)).writeFails = false := h3
    rw [this]
    rfl
  have hmk2 : ¬ (w.log (FileOp.mkdirAll Path.wtfDir)).mkdirFails = true := by
    have : (w.log (FileOp.mkdirAll Path.wtfDir)).mkdirFails = false := hmk
    rw [this]
    exact Bool.false_ne_true
  unfold ApplyGraphicsSettingsForVersion
  rw [if_neg hpath]
  simp only []
  rw [if_neg hmk2, key]
  · refine ⟨rfl, ?_⟩
    show some (applyToggles uni r m s _) = _
    congr 1
    have hrd2 : (({ w.log (FileOp.mkdirAll Path.wtfDir) with wtfDir := true } : World).log
        (FileOp.readFile Path.configWtf)).readFails = false := hrd
    have hcfg : (({ w.log (FileOp.mkdirAll Path.wtfDir) with wtfDir := true } : World).log
        (FileOp.readFile Path.configWtf)).config = w.config := rfl
    rw [hrd2, hcfg]
    cases w.config <;> rfl
  · split_ifs
    · exact (enableLibSiliconPatchInDlls_frame _).trans hwr
    · exact (disableLibSiliconPatchInDlls_frame _).trans hwr
    · exact hwr

theorem toggle_tidy (uni : Char → Bool) (b : Bool) {k v : List Char} {ls : List (List Char)}
    (hk : ∀ c ∈ k, isSpace c = false ∧ c ≠ dq) (hd : dollar ∉ newSetting k v)
    (h : tidyDoc ls = true) :
    (if b then updateOrAddConfigSetting uni (unlines ls) k v
      else removeConfigSetting uni (unlines ls) k) = unlines (toggleLines b k v ls) := by
  unfold toggleLines
  cases b
  · simp only [Bool.false_eq_true, if_false]
    exact remove_tidy uni hk h
  · simp only [if_true]
    exact updateOrAdd_tidy uni hk hd h

theorem settingLines_toggleLines_other {k k2 v : List Char} (b : Bool) (ls : List (List Char))
    (hk : ∀ c ∈ k, isSpace c = false ∧ c ≠ dq) (hk2 : ∀ c ∈ k2, isSpace c = false ∧ c ≠ dq)
    (hv : dq ∉ v) (hne : k ≠ k2) : settingLines k2 (toggleLines b k v ls) = settingLines k2 ls := by
  unfold toggleLines
  split_ifs
  · exact settingLines_upsertLines_other ls hk hk2 hv hne
  · exact settingLines_removeLines_other ls hk hk2 hne

theorem head_settingLines_toggleLines (k : List Char) {v : List Char} (b : Bool)
    (ls : List (List Char)) (hv : dq ∉ v) :
    (settingLines k (toggleLines b k v ls)).head?
      = (if b then some (newSetting k v) else none) := by
  unfold toggleLines
  cases b
  · simp only [Bool.false_eq_true, if_false]
    rw [settingLines_removeLines_self]
    rfl
  · simp only [if_true]
    exact head_settingLines_upsertLines k ls hv

theorem matchString_of_head_none {k : List Char} {ls : List (List Char)}
    (hw : wholeLineSettings k ls = true) (h : (settingLines k ls).head? = none) :
    matchString (matchSettingAt k) (unlines ls) = false := by
  rw [matchString_unlines hw, List.any_eq_false]
  intro l hl hc
  have hmem : l ∈ settingLines k ls := List.mem_filter.2 ⟨hl, hc⟩
  rw [List.head?_eq_none_iff] at h
  rw [h] at hmem
  cases hmem

/-- The text the three toggles make of a tidy settings file, as lines. -/
theorem applyToggles_tidy (uni : Char → Bool) (r m s : Bool) {ls : List (List Char)}
    (h : tidyDoc ls = true) :
    applyToggles uni r m s (unlines ls)
      = unlines (toggleLines s shadowLOD "0".toList
          (toggleLines m gxMultisample "2".toList (toggleLines r farclip "177".toList ls))) := by
  have hk1 : ∀ c ∈ farclip, isSpace c = false ∧ c ≠ dq := by decide
  have hk2 : ∀ c ∈ gxMultisample, isSpace c = false ∧ c ≠ dq := by decide
  have hk3 : ∀ c ∈ shadowLOD, isSpace c = false ∧ c ≠ dq := by decide
  have hd1 : dollar ∉ newSetting farclip "177".toList := by decide
  have hd2 : dollar ∉ newSetting gxMultisample "2".toList := by decide
  have hd3 : dollar ∉ newSetting shadowLOD "0".toList := by decide
  have hE1 : tidyLine (newSetting farclip "177".toList) = true := by decide
  have hE2 : tidyLine (newSetting gxMultisample "2".toList) = true := by decide
  have t1 := tidyDoc_toggleLines r hE1 h
  have t2 := tidyDoc_toggleLines m hE2 t1
  unfold applyToggles
  simp only []
  rw [toggle_tidy uni r hk1 hd1 h, toggle_tidy uni m hk2 hd2 t1, toggle_tidy uni s hk3 hd3 t2]

/-! ## Lemmas: the calls a step makes -/

theorem OpsExtend.opsRefl (P : FileOp → Prop) (w : World) : OpsExtend P w w :=
  ⟨[], by simp, by simp⟩

theorem OpsExtend.opsTrans {P : FileOp → Prop} {w w2 w3 : World} (h1 : OpsExtend P w w2)
    (h2 : OpsExtend P w2 w3) : OpsExtend P w w3 := by
  obtain ⟨e1, a1, b1⟩ := h1
  obtain ⟨e2, a2, b2⟩ := h2
  refine ⟨e1 ++ e2, by rw [a2, a1, List.append_assoc], ?_⟩
  intro op hop
  rcases List.mem_append.1 hop with h | h
  · exact b1 op h
  · exact b2 op h

theorem OpsExtend.mono {P Q : FileOp → Prop} {w w2 : World} (h : OpsExtend P w w2)
    (hpq : ∀ op, P op → Q op) : OpsExtend Q w w2 := by
  obtain ⟨e1, a1, b1⟩ := h
  exact ⟨e1, a1, fun op hop => hpq op (b1 op hop)⟩

theorem OpsExtend.opsLog {P : FileOp → Prop} (w : World) (op : FileOp) (h : P op) :
    OpsExtend P w (w.log op) :=
  ⟨[op], rfl, by simpa using h⟩

theorem OpsExtend.of_ops_eq {P : FileOp → Prop} {w w2 w3 : World} (h : OpsExtend P w w2)
    (e : w3.ops = w2.ops) : OpsExtend P w w3 := by
  obtain ⟨e1, a1, b1⟩ := h
  exact ⟨e1, e.trans a1, b1⟩

theorem FinishStep.fsRefl (w : World) : FinishStep w w :=
  ⟨rfl, rfl, rfl, rfl, OpsExtend.opsRefl _ w⟩

theorem FinishStep.fsTrans {w w2 w3 : World} (h1 : FinishStep w w2) (h2 : FinishStep w2 w3) :
    FinishStep w w3 := by
  obtain ⟨a1, a2, a3, a4, a5⟩ := h1
  obtain ⟨b1, b2, b3, b4, b5⟩ := h2
  exact ⟨b1.trans a1, b2.trans a2, b3.trans a3, b4.trans a4, a5.opsTrans b5⟩

theorem FinishStep.fsLog (w : World) (op : FileOp) (h : op ∈ finishOps) :
    FinishStep w (w.log op) :=
  ⟨rfl, rfl, rfl, rfl, OpsExtend.opsLog w op h⟩

theorem FinishStep.of_eq {w w2 w3 : World} (h : FinishStep w w2) (e1 : w3.bin = w2.bin)
    (e2 : w3.resource = w2.resource) (e3 : w3.fails = w2.fails)
    (e4 : w3.turtlewowPath = w2.turtlewowPath) (e5 : w3.ops = w2.ops) : FinishStep w w3 := by
  obtain ⟨a1, a2, a3, a4, a5⟩ := h
  exact ⟨e1.trans a1, e2.trans a2, e3.trans a3, e4.trans a4, a5.of_ops_eq e5⟩

theorem FinishStep.ite {w a b : World} {c : Prop} [Decidable c] (ha : FinishStep w a)
    (hb : FinishStep w b) : FinishStep w (if c then a else b) := by
  split_ifs <;> assumption

theorem FinishStep.showError {w w2 : World} (h : FinishStep w w2) :
    FinishStep w w2.showError :=
  h.of_eq rfl rfl rfl rfl rfl

theorem patchDllsTxt_finishStep (should : Bool) (w : World) :
    FinishStep w (patchDllsTxt should w) := by
  have s0 := FinishStep.fsLog w (FileOp.readFile Path.dllsTxt) (by decide)
  have s1 := s0.fsTrans (FinishStep.fsLog _ (FileOp.stat Path.dllsTxt) (by decide))
  unfold patchDllsTxt
  simp only []
  apply FinishStep.ite
  · have hread : FinishStep w
        (match ((w.log (FileOp.readFile Path.dllsTxt)).log (FileOp.stat Path.dllsTxt)).dlls with
          | none => (((w.log (FileOp.readFile Path.dllsTxt)).log (FileOp.stat Path.dllsTxt)),
              ([] : List Char))
          | some content =>
            if ((((w.log (FileOp.readFile Path.dllsTxt)).log (FileOp.stat Path.dllsTxt)).log
                (FileOp.readFile Path.dllsTxt)).fails (FileOp.readFile Path.dllsTxt)) = true then
              (((((w.log (FileOp.readFile Path.dllsTxt)).log (FileOp.stat Path.dllsTxt)).log
                (FileOp.readFile Path.dllsTxt))).showError, [])
            else
              ((((w.log (FileOp.readFile Path.dllsTxt)).log (FileOp.stat Path.dllsTxt)).log
                (FileOp.readFile Path.dllsTxt)), content)).1 := by
      cases ((w.log (FileOp.readFile Path.dllsTxt)).log (FileOp.stat Path.dllsTxt)).dlls with
      | none => exact s1
      | some content =>
        have s2 := s1.fsTrans (FinishStep.fsLog _ (FileOp.readFile Path.dllsTxt) (by decide))
        simp only []
        rw [apply_ite Prod.fst]
        exact FinishStep.ite s2.showError s2
    have s3 := hread.fsTrans (FinishStep.fsLog _ (FileOp.writeFile Path.dllsTxt) (by decide))
    exact FinishStep.ite s3.showError (s3.of_eq rfl rfl rfl rfl rfl)
  · exact s0

theorem disableLibSiliconPatchInDlls_finishStep (w : World) :
    FinishStep w (disableLibSiliconPatchInDlls w).2 := by
  unfold disableLibSiliconPatchInDlls
  rw [apply_ite Prod.snd]
  apply FinishStep.ite (FinishStep.fsRefl w)
  have s0 := FinishStep.fsLog w (FileOp.stat Path.dllsTxt) (by decide)
  simp only []
  cases (w.log (FileOp.stat Path.dllsTxt)).dlls with
  | none => exact s0
  | some content =>
    have s1 := s0.fsTrans (FinishStep.fsLog _ (FileOp.readFile Path.dllsTxt) (by decide))
    have s2 := s1.fsTrans (FinishStep.fsLog _ (FileOp.writeFile Path.dllsTxt) (by decide))
    simp only []
    rw [apply_ite Prod.snd]
    apply FinishStep.ite s1
    rw [apply_ite Prod.snd]
    exact FinishStep.ite s2 (s2.of_eq rfl rfl rfl rfl rfl)

/-- The calls a settings function makes are among these. -/
theorem applySetting_ops (uni : Char → Bool) (k v : List Char) (fs : ConfigFs) :
    (applySetting uni k v fs).2.turtlewowPath = fs.turtlewowPath
    ∧ ∃ extra, (applySetting uni k v fs).2.ops = fs.ops ++ extra
        ∧ ∀ op ∈ extra, op ∈ finishOps := by
  unfold applySetting
  by_cases hroot : fs.turtlewowPath = []
  · rw [if_pos hroot]
    exact ⟨rfl, [], by simp, by simp⟩
  · rw [if_neg hroot]
    simp only [ConfigFs.log]
    by_cases hmk : fs.mkdirFails = true
    · rw [if_pos hmk]
      exact ⟨rfl, [FileOp.mkdirAll Path.wtfDir], rfl, by decide⟩
    · rw [if_neg hmk]
      by_cases hwr : fs.writeFails = true
      · rw [if_pos hwr]
        exact ⟨rfl, [FileOp.mkdirAll Path.wtfDir, FileOp.readFile Path.configWtf,
          FileOp.writeFile Path.configWtf], by simp, by decide⟩
      · rw [if_neg hwr]
        exact ⟨rfl, [FileOp.mkdirAll Path.wtfDir, FileOp.readFile Path.configWtf,
          FileOp.writeFile Path.configWtf], by simp, by decide⟩

theorem removeShadowLODSetting_ops (uni : Char → Bool) (fs : ConfigFs) :
    ∃ extra, (removeShadowLODSetting uni fs).2.ops = fs.ops ++ extra
      ∧ ∀ op ∈ extra, op ∈ finishOps := by
  unfold removeShadowLODSetting
  by_cases hroot : fs.turtlewowPath = []
  · rw [if_pos hroot]
    exact ⟨[], by simp, by simp⟩
  · rw [if_neg hroot]
    simp only [ConfigFs.log]
    cases fs.config with
    | none => exact ⟨[FileOp.stat Path.configWtf], rfl, by decide⟩
    | some content =>
      simp only []
      by_cases hrd : fs.readFails = true
      · rw [if_pos hrd]
        exact ⟨[FileOp.stat Path.configWtf, FileOp.readFile Path.configWtf], by simp, by decide⟩
      · rw [if_neg hrd]
        by_cases hm : matchString (matchSettingLineAt shadowLOD) content = true
        · rw [if_pos hm]
          by_cases hwr : fs.writeFails = true
          · rw [if_pos hwr]
            exact ⟨[FileOp.stat Path.configWtf, FileOp.readFile Path.configWtf,
              FileOp.writeFile Path.configWtf], by simp, by decide⟩
          · rw [if_neg hwr]
            exact ⟨[FileOp.stat Path.configWtf, FileOp.readFile Path.configWtf,
              FileOp.writeFile Path.configWtf], by simp, by decide⟩
        · rw [if_neg hm]
          exact ⟨[FileOp.stat Path.configWtf, FileOp.readFile Path.configWtf], by simp,
            by decide⟩

theorem withConfig_finishStep (w : World) (r : Option ConfigError × ConfigFs)
    (h1 : r.2.turtlewowPath = w.turtlewowPath)
    (h2 : ∃ extra, r.2.ops = w.ops ++ extra ∧ ∀ op ∈ extra, op ∈ finishOps) :
    FinishStep w (w.withConfig r) :=
  ⟨rfl, rfl, rfl, h1, h2⟩

/-- The last part of `PatchTurtleWoW` leaves the binary files, the resources
and the root as they are, and makes calls on `dlls.txt`, `WTF` and
`Config.wtf` only. -/
theorem finishPatch_finishStep (uni : Char → Bool) (w : World) :
    FinishStep w (finishPatch uni w) := by
  unfold finishPatch
  simp only [LoadPrefs]
  have s1 : FinishStep w (SavePrefs w (patchPrefs w.prefs)) := ⟨rfl, rfl, rfl, rfl, OpsExtend.opsRefl _ _⟩
  have s2 := s1.fsTrans (patchDllsTxt_finishStep (!w.prefs.userDisabledLibSiliconPatch) _)
  have s3 : FinishStep w
      (if (!(!w.prefs.userDisabledLibSiliconPatch)) = true then
        (disableLibSiliconPatchInDlls (patchDllsTxt (!w.prefs.userDisabledLibSiliconPatch)
          (SavePrefs w (patchPrefs w.prefs)))).2
      else patchDllsTxt (!w.prefs.userDisabledLibSiliconPatch)
        (SavePrefs w (patchPrefs w.prefs))) :=
    FinishStep.ite (s2.fsTrans (disableLibSiliconPatchInDlls_finishStep _)) s2
  generalize (if (!(!w.prefs.userDisabledLibSiliconPatch)) = true then
        (disableLibSiliconPatchInDlls (patchDllsTxt (!w.prefs.userDisabledLibSiliconPatch)
          (SavePrefs w (patchPrefs w.prefs)))).2
      else patchDllsTxt (!w.prefs.userDisabledLibSiliconPatch)
        (SavePrefs w (patchPrefs w.prefs))) = w3 at s3 ⊢
  have s4 := s3.fsTrans (withConfig_finishStep w3 (applyVertexAnimShadersSetting uni w3.toConfigFs)
    (applySetting_ops uni _ _ _).1 (applySetting_ops uni _ _ _).2)
  generalize (w3.withConfig (applyVertexAnimShadersSetting uni w3.toConfigFs)) = w4 at s4 ⊢
  have s5 : FinishStep w
      (if (!w.prefs.userDisabledShadowLOD) = true then
        w4.withConfig (applyShadowLODSetting uni w4.toConfigFs)
      else w4.withConfig (removeShadowLODSetting uni w4.toConfigFs)) :=
    FinishStep.ite
      (s4.fsTrans (withConfig_finishStep w4 _ (applySetting_ops uni _ _ _).1
        (applySetting_ops uni _ _ _).2))
      (s4.fsTrans (withConfig_finishStep w4 _ (removeShadowLODSetting_frame uni _)
        (removeShadowLODSetting_ops uni _)))
  exact s5.of_eq rfl rfl rfl rfl rfl

/-! ## Lemmas: the calls of the first steps of `PatchTurtleWoW` -/

theorem inPlace_congr {w w2 : World} (p : Path) (h1 : w2.bin p = w.bin p)
    (h2 : w2.resource = w.resource) : inPlace w2 p = inPlace w p := by
  unfold inPlace binExists CompareFileWithBundledResource
  rw [h1, h2]

theorem inPlace_setBin_self (w : World) (p : Path) (content : List Nat)
    (h : w.resource p = some content) : inPlace (w.setBin p (some content)) p = true := by
  unfold inPlace binExists CompareFileWithBundledResource World.setBin
  simp [h]

theorem inPlace_setBin_other (w : World) (p q : Path) (c : Option (List Nat)) (h : q ≠ p) :
    inPlace (w.setBin p c) q = inPlace w q := by
  unfold inPlace binExists CompareFileWithBundledResource World.setBin
  simp [h]

/-- When the first loop succeeds, every placing call it made succeeded, and
every file it went through is in place afterwards, as is every file that was
in place before. -/
theorem copyBundled_ok_spec (order : List Path) (w : World)
    (h : (copyBundled order w).1 = false) :
    OpsExtend (fun op => placingOp op = true → w.fails op = false) w (copyBundled order w).2
    ∧ ∀ q, (q ∈ order ∨ inPlace w q = true) → inPlace (copyBundled order w).2 q = true := by
  induction order generalizing w with
  | nil =>
    refine ⟨OpsExtend.opsRefl _ w, ?_⟩
    intro q hq
    rcases hq with hq | hq
    · cases hq
    · exact hq
  | cons p ps ih =>
    unfold copyBundled at h ⊢
    simp only [] at h ⊢
    have l0 : OpsExtend (fun op => placingOp op = true → w.fails op = false) w
        (w.log (FileOp.stat p)) := OpsExtend.opsLog w _ (by intro hp; cases hp)
    by_cases h1 : (binExists (w.log (FileOp.stat p)) p
        && CompareFileWithBundledResource (w.log (FileOp.stat p)) p) = true
    · rw [if_pos h1] at h ⊢
      obtain ⟨i1, i2⟩ := ih (w.log (FileOp.stat p)) h
      refine ⟨l0.opsTrans i1, ?_⟩
      intro q hq
      apply i2
      rcases hq with hq | hq
      · rcases List.mem_cons.1 hq with hq | hq
        · right
          rw [hq]
          exact h1
        · exact Or.inl hq
      · right
        rw [inPlace_congr q rfl rfl]
        exact hq
    · rw [if_neg h1] at h ⊢
      cases hr : ((w.log (FileOp.stat p)).log (FileOp.stat p)).resource p with
      | none =>
        rw [hr] at h
        cases h
      | some content =>
        rw [hr] at h
        simp only [] at h ⊢
        by_cases hc : (((w.log (FileOp.stat p)).log (FileOp.stat p)).log (FileOp.create p)).fails
            (FileOp.create p) = true
        · rw [if_pos hc] at h
          cases h
        · rw [if_neg hc] at h ⊢
          by_cases hy : (((((w.log (FileOp.stat p)).log (FileOp.stat p)).log
              (FileOp.create p)).setBin p (some [])).log (FileOp.copy p)).fails
              (FileOp.copy p) = true
          · rw [if_pos hy] at h
            cases h
          · rw [if_neg hy] at h ⊢
            obtain ⟨i1, i2⟩ := ih _ h
            have hcf : w.fails (FileOp.create p) = false := by simpa using hc
            have hyf : w.fails (FileOp.copy p) = false := by simpa using hy
            have l1 : OpsExtend (fun op => placingOp op = true → w.fails op = false) w
                ((((((w.log (FileOp.stat p)).log (FileOp.stat p)).log
                  (FileOp.create p)).setBin p (some [])).log (FileOp.copy p)).setBin p
                  (some content)) :=
              ⟨[FileOp.stat p, FileOp.stat p, FileOp.create p, FileOp.copy p],
                by simp [World.log, World.setBin],
                by
                  intro op hop
                  simp only [List.mem_cons, List.mem_singleton, List.not_mem_nil,
                    or_false] at hop
                  rcases hop with rfl | rfl | rfl | rfl
                  · intro hp; cases hp
                  · intro hp; cases hp
                  · intro _; exact hcf
                  · intro _; exact hyf⟩
            refine ⟨l1.opsTrans i1, ?_⟩
            intro q hq
            apply i2
            by_cases hqp : q = p
            · right
              rw [hqp]
              exact inPlace_setBin_self _ p content hr
            · rcases hq with hq | hq
              · rcases List.mem_cons.1 hq with hq | hq
                · exact absurd hq hqp
                · exact Or.inl hq
              · right
                refine Eq.trans (inPlace_congr (w := w) q ?_ ?_) hq
                · simp [World.setBin, World.log, hqp]
                · rfl

/-- When every file of the first loop is in place, the loop only looks at
them: its calls are `stat` calls and the binary files stay as they are. -/
theorem copyBundled_skip (order : List Path) (w : World)
    (h : ∀ p ∈ order, inPlace w p = true) :
    (copyBundled order w).1 = false
    ∧ OpsExtend (fun op => ∃ p, op = FileOp.stat p) w (copyBundled order w).2
    ∧ (copyBundled order w).2.bin = w.bin := by
  induction order generalizing w with
  | nil => exact ⟨rfl, OpsExtend.opsRefl _ w, rfl⟩
  | cons p ps ih =>
    unfold copyBundled
    simp only []
    have h1 : (binExists (w.log (FileOp.stat p)) p
        && CompareFileWithBundledResource (w.log (FileOp.stat p)) p) = true :=
      h p (by simp)
    rw [if_pos h1]
    obtain ⟨i1, i2, i3⟩ := ih (w.log (FileOp.stat p)) (fun q hq => h q (by simp [hq]))
    exact ⟨i1, (OpsExtend.opsLog w _ ⟨p, rfl⟩).opsTrans i2, i3⟩

theorem prepareRosettaDir_spec (w : World) :
    (prepareRosettaDir w).2.ops
      = w.ops ++ [FileOp.removeAll Path.rosettaDir, FileOp.mkdirAll Path.rosettaDir]
    ∧ (prepareRosettaDir w).1 = w.fails (FileOp.mkdirAll Path.rosettaDir)
    ∧ ∀ q, q ≠ Path.rosettax87 → q ≠ Path.libRuntimeRosettax87 →
        inPlace (prepareRosettaDir w).2 q = inPlace w q := by
  unfold prepareRosettaDir
  by_cases h1 : w.fails (FileOp.removeAll Path.rosettaDir) = true
    <;> by_cases h2 : w.fails (FileOp.mkdirAll Path.rosettaDir) = true
    <;> simp [World.log, World.setBin, h1, h2, inPlace, binExists,
      CompareFileWithBundledResource]
    <;> intro q hq1 hq2 <;> simp [hq1, hq2]

/-- When the second loop succeeds, every call it made is a placing call on
one of its files that succeeded, and the other files are as before. -/
theorem copyRosetta_ok_spec (rorder : List Path) (w : World)
    (h : (copyRosetta rorder w).1 = false) :
    OpsExtend (fun op => w.fails op = false
        ∧ ∃ p ∈ rorder, op = FileOp.create p ∨ op = FileOp.copy p ∨ op = FileOp.chmod p)
      w (copyRosetta rorder w).2
    ∧ ∀ q, q ∉ rorder → inPlace (copyRosetta rorder w).2 q = inPlace w q := by
  induction rorder generalizing w with
  | nil => exact ⟨OpsExtend.opsRefl _ w, fun _ _ => rfl⟩
  | cons p ps ih =>
    unfold copyRosetta at h ⊢
    cases hr : w.resource p with
    | none =>
      rw [hr] at h
      cases h
    | some content =>
      rw [hr] at h
      simp only [] at h ⊢
      by_cases hc : (w.log (FileOp.create p)).fails (FileOp.create p) = true
      · rw [if_pos hc] at h
        cases h
      · rw [if_neg hc] at h ⊢
        by_cases hy : (((w.log (FileOp.create p)).setBin p (some [])).log (FileOp.copy p)).fails
            (FileOp.copy p) = true
        · rw [if_pos hy] at h
          cases h
        · rw [if_neg hy] at h ⊢
          have hcf : w.fails (FileOp.create p) = false := by simpa using hc
          have hyf : w.fails (FileOp.copy p) = false := by simpa using hy
          have widen : ∀ {a b : World},
              OpsExtend (fun op => a.fails op = false
                ∧ ∃ q ∈ ps, op = FileOp.create q ∨ op = FileOp.copy q ∨ op = FileOp.chmod q)
                a b → a.fails = w.fails →
              OpsExtend (fun op => w.fails op = false
                ∧ ∃ q ∈ p :: ps, op = FileOp.create q ∨ op = FileOp.copy q
                    ∨ op = FileOp.chmod q) a b := by
            intro a b hab hf
            apply hab.mono
            rintro op ⟨h1, q, hq, h2⟩
            exact ⟨by rw [← hf]; exact h1, q, List.mem_cons_of_mem _ hq, h2⟩
          by_cases hp : p = Path.rosettax87
          · rw [if_pos hp] at h ⊢
            by_cases hm : (((((w.log (FileOp.create p)).setBin p (some [])).log
                (FileOp.copy p)).setBin p (some content)).log (FileOp.chmod p)).fails
                (FileOp.chmod p) = true
            · rw [if_pos hm] at h
              cases h
            · rw [if_neg hm] at h ⊢
              have hmf : w.fails (FileOp.chmod p) = false := by simpa using hm
              obtain ⟨i1, i2⟩ := ih _ h
              have l1 : OpsExtend (fun op => w.fails op = false
                  ∧ ∃ q ∈ p :: ps, op = FileOp.create q ∨ op = FileOp.copy q
                      ∨ op = FileOp.chmod q) w
                  (((((w.log (FileOp.create p)).setBin p (some [])).log
                    (FileOp.copy p)).setBin p (some content)).log (FileOp.chmod p)) :=
                ⟨[FileOp.create p, FileOp.copy p, FileOp.chmod p],
                  by simp [World.log, World.setBin],
                  by
                    intro op hop
                    simp only [List.mem_cons, List.mem_singleton, List.not_mem_nil,
                      or_false] at hop
                    rcases hop with rfl | rfl | rfl
                    · exact ⟨hcf, p, by simp, Or.inl rfl⟩
                    · exact ⟨hyf, p, by simp, Or.inr (Or.inl rfl)⟩
                    · exact ⟨hmf, p, by simp, Or.inr (Or.inr rfl)⟩⟩
              refine ⟨l1.opsTrans (widen i1 rfl), ?_⟩
              intro q hq
              have hqp : q ≠ p := fun e => hq (by simp [e])
              have hqs : q ∉ ps := fun e => hq (List.mem_cons_of_mem _ e)
              rw [i2 q hqs]
              refine inPlace_congr (w := w) q ?_ ?_
              · simp [World.setBin, World.log, hqp]
              · rfl
          · rw [if_neg hp] at h ⊢
            obtain ⟨i1, i2⟩ := ih _ h
            have l1 : OpsExtend (fun op => w.fails op = false
                ∧ ∃ q ∈ p :: ps, op = FileOp.create q ∨ op = FileOp.copy q
                    ∨ op = FileOp.chmod q) w
                ((((w.log (FileOp.create p)).setBin p (some [])).log
                  (FileOp.copy p)).setBin p (some content)) :=
              ⟨[FileOp.create p, FileOp.copy p],
                by simp [World.log, World.setBin],
                by
                  intro op hop
                  simp only [List.mem_cons, List.mem_singleton, List.not_mem_nil,
                    or_false] at hop
                  rcases hop with rfl | rfl
                  · exact ⟨hcf, p, by simp, Or.inl rfl⟩
                  · exact ⟨hyf, p, by simp, Or.inr (Or.inl rfl)⟩⟩
            refine ⟨l1.opsTrans (widen i1 rfl), ?_⟩
            intro q hq
            have hqp : q ≠ p := fun e => hq (by simp [e])
            have hqs : q ∉ ps := fun e => hq (List.mem_cons_of_mem _ e)
            rw [i2 q hqs]
            refine inPlace_congr (w := w) q ?_ ?_
            · simp [World.setBin, World.log, hqp]
            · rfl

/-- The four ways `PatchTurtleWoW` ends once the root is set. -/
theorem PatchTurtleWoW_run (uni : Char → Bool) (order rorder : List Path) (w : World)
    (hroot : w.turtlewowPath ≠ []) :
    ((copyBundled order w).1 = true →
      PatchTurtleWoW uni order rorder w = abortPatch (copyBundled order w).2)
    ∧ ((copyBundled order w).1 = false →
        (prepareRosettaDir (copyBundled order w).2).1 = true →
        PatchTurtleWoW uni order rorder w
          = abortPatch (prepareRosettaDir (copyBundled order w).2).2)
    ∧ ((copyBundled order w).1 = false →
        (prepareRosettaDir (copyBundled order w).2).1 = false →
        (copyRosetta rorder (prepareRosettaDir (copyBundled order w).2).2).1 = true →
        PatchTurtleWoW uni order rorder w
          = abortPatch (copyRosetta rorder (prepareRosettaDir (copyBundled order w).2).2).2)
    ∧ ((copyBundled order w).1 = false →
        (prepareRosettaDir (copyBundled order w).2).1 = false →
        (copyRosetta rorder (prepareRosettaDir (copyBundled order w).2).2).1 = false →
        PatchTurtleWoW uni order rorder w
          = finishPatch uni
              (copyRosetta rorder (prepareRosettaDir (copyBundled order w).2).2).2) := by
  unfold PatchTurtleWoW
  rw [if_neg hroot]
  rcases h1 : copyBundled order w with ⟨b1, w1⟩
  rcases h2 : prepareRosettaDir w1 with ⟨b2, w2⟩
  rcases h3 : copyRosetta rorder w2 with ⟨b3, w3⟩
  refine ⟨?_, ?_, ?_, ?_⟩
  · intro e
    simp only at e
    subst e
    rfl
  · intro e e2
    simp only at e e2
    subst e
    subst e2
    simp only [h2]
  · intro e e2 e3
    simp only at e e2 e3
    subst e
    subst e2
    subst e3
    simp only [h2, h3]
  · intro e e2 e3
    simp only at e e2 e3
    subst e
    subst e2
    subst e3
    simp only [h2, h3]

theorem finishPatch_success (uni : Char → Bool) (w : World) :
    Dialog.success ∈ (finishPatch uni w).dialogs := by
  unfold finishPatch
  simp

theorem placingOp_finishOps : ∀ op ∈ finishOps, placingOp op = false := by decide

theorem payloadWrite_finishOps : ∀ op ∈ finishOps, payloadWrite op = false := by decide

/-- A call of `PatchTurtleWoW` with no failing call and every resource
bundled: it runs to the end; its calls are those of the first loop, the
removal and creation of the directory `rosettax87`, placing calls on the
files of the second loop, and the calls of the last part; and every file of
the first loop that is not a file of the second loop or of the directory is
in place afterwards. -/
theorem PatchTurtleWoW_ok (uni : Char → Bool) (order rorder : List Path) (w : World)
    (hroot : w.turtlewowPath ≠ []) (hfails : ∀ op, w.fails op = false)
    (hres : ∀ p, w.resource p ≠ none) :
    (PatchTurtleWoW uni order rorder w).turtlewowPath = w.turtlewowPath
    ∧ (PatchTurtleWoW uni order rorder w).fails = w.fails
    ∧ (PatchTurtleWoW uni order rorder w).resource = w.resource
    ∧ (∀ p ∈ order, p ∉ rorder → p ≠ Path.rosettax87 → p ≠ Path.libRuntimeRosettax87 →
        inPlace (PatchTurtleWoW uni order rorder w) p = true)
    ∧ ∃ a b, (PatchTurtleWoW uni order rorder w).ops
        = w.ops ++ a ++ [FileOp.removeAll Path.rosettaDir, FileOp.mkdirAll Path.rosettaDir] ++ b
      ∧ (copyBundled order w).2.ops = w.ops ++ a
      ∧ ∀ op ∈ b, op ∈ finishOps
          ∨ ∃ p ∈ rorder, op = FileOp.create p ∨ op = FileOp.copy p ∨ op = FileOp.chmod p := by
  have f1 := copyBundled_frame order w
  have k1 := copyBundled_ok order w hfails hres
  have hf1 : ∀ op, (copyBundled order w).2.fails op = false := by
    intro op
    rw [f1.2.2.2.2.2.2.2.2.2.2.2.2.1]
    exact hfails op
  have hr1 : ∀ p, (copyBundled order w).2.resource p ≠ none := by
    intro p
    rw [f1.2.2.2.2.2.2.2.2.2.2.2.1]
    exact hres p
  have f2 := prepareRosettaDir_frame (copyBundled order w).2
  have k2 := prepareRosettaDir_ok (copyBundled order w).2 hf1
  have hf2 : ∀ op, (prepareRosettaDir (copyBundled order w).2).2.fails op = false := by
    intro op
    rw [f2.2.2.2.2.2.2.2.2.2.2.2.2.1]
    exact hf1 op
  have hr2 : ∀ p, (prepareRosettaDir (copyBundled order w).2).2.resource p ≠ none := by
    intro p
    rw [f2.2.2.2.2.2.2.2.2.2.2.2.1]
    exact hr1 p
  have f3 := copyRosetta_frame rorder (prepareRosettaDir (copyBundled order w).2).2
  have k3 := copyRosetta_ok rorder (prepareRosettaDir (copyBundled order w).2).2 hf2 hr2
  have f123 := (f1.obTrans f2).obTrans f3
  have hrun := (PatchTurtleWoW_run uni order rorder w hroot).2.2.2 k1 k2 k3
  obtain ⟨g1, g2, g3, g4, g5⟩ := finishPatch_finishStep uni
    (copyRosetta rorder (prepareRosettaDir (copyBundled order w).2).2).2
  obtain ⟨o1, i1⟩ := copyBundled_ok_spec order w k1
  obtain ⟨p1, -, p3⟩ := prepareRosettaDir_spec (copyBundled order w).2
  obtain ⟨o3, i3⟩ := copyRosetta_ok_spec rorder _ k3
  rw [hrun]
  refine ⟨g4.trans f123.1, g3.trans f123.2.2.2.2.2.2.2.2.2.2.2.2.1,
    g2.trans f123.2.2.2.2.2.2.2.2.2.2.2.1, ?_, ?_⟩
  · intro p hp hpr hp1 hp2
    rw [inPlace_congr p (congrFun g1 p) g2, i3 p hpr, p3 p hp1 hp2]
    exact i1 p (Or.inl hp)
  · obtain ⟨a, ha, -⟩ := o1
    obtain ⟨b1, hb1, hb1p⟩ := o3
    obtain ⟨b2, hb2, hb2p⟩ := g5
    refine ⟨a, b1 ++ b2, ?_, ha, ?_⟩
    · rw [hb2, hb1, p1, ha]
      simp
    · intro op hop
      rcases List.mem_append.1 hop with h | h
      · exact Or.inr (hb1p op h).2
      · exact Or.inl (hb2p op h)

/-- A second call of `PatchTurtleWoW` after a first one, with no failing call
and every resource bundled: it writes none of the three bundled libraries,
and it removes and creates the directory `rosettax87`. -/
theorem second_patch (uni : Char → Bool) (order rorder : List Path) (w : World)
    (hroot : w.turtlewowPath ≠ []) (hfails : ∀ op, w.fails op = false)
    (hres : ∀ p, w.resource p ≠ none)
    (horder : ∀ p ∈ order,
      p = Path.winerosettaDll ∨ p = Path.d3d9Dll ∨ p = Path.libSiliconPatchDll)
    (hrorder : ∀ p ∈ rorder, p = Path.rosettax87 ∨ p = Path.libRuntimeRosettax87) :
    OpsExtend (fun op => payloadWrite op = false) (PatchTurtleWoW uni order rorder w)
      (PatchTurtleWoW uni order rorder (PatchTurtleWoW uni order rorder w))
    ∧ ∃ a b, (PatchTurtleWoW uni order rorder (PatchTurtleWoW uni order rorder w)).ops
        = (PatchTurtleWoW uni order rorder w).ops ++ a
          ++ [FileOp.removeAll Path.rosettaDir, FileOp.mkdirAll Path.rosettaDir] ++ b := by
  obtain ⟨a1, a2, a3, a4, -⟩ := PatchTurtleWoW_ok uni order rorder w hroot hfails hres
  have hin : ∀ p ∈ order, inPlace (PatchTurtleWoW uni order rorder w) p = true := by
    intro p hp
    apply a4 p hp
    · intro hpr
      rcases horder p hp with h | h | h <;> rcases hrorder p hpr with h2 | h2
        <;> rw [h] at h2 <;> cases h2
    · rcases horder p hp with h | h | h <;> rw [h] <;> decide
    · rcases horder p hp with h | h | h <;> rw [h] <;> decide
  obtain ⟨-, -, -, -, a, b, hops, hcb, hb⟩ := PatchTurtleWoW_ok uni order rorder
    (PatchTurtleWoW uni order rorder w) (by rw [a1]; exact hroot)
    (by intro op; rw [a2]; exact hfails op) (by intro p; rw [a3]; exact hres p)
  obtain ⟨-, ⟨a', ha', hstat⟩, -⟩ := copyBundled_skip order _ hin
  have haa : a = a' := List.append_cancel_left (hcb.symm.trans ha')
  refine ⟨⟨a ++ [FileOp.removeAll Path.rosettaDir, FileOp.mkdirAll Path.rosettaDir] ++ b,
    by rw [hops]; simp, ?_⟩, a, b, hops⟩
  intro op hop
  rcases List.mem_append.1 hop with h | h
  · rcases List.mem_append.1 h with h | h
    · rw [haa] at h
      obtain ⟨p, hp⟩ := hstat op h
      rw [hp]
      rfl
    · simp only [List.mem_cons, List.mem_singleton, List.not_mem_nil, or_false] at h
      rcases h with rfl | rfl <;> rfl
  · rcases hb op h with h | ⟨p, hp, h⟩
    · exact payloadWrite_finishOps op h
    · rcases hrorder p hp with e | e <;> rcases h with h | h | h <;> rw [h, e] <;> rfl

/-! ## Lemmas: where the placing of files stops -/

theorem StoppedAt.prepend {fails : FileOp → Bool} {resource : Path → Option (List Nat)}
    {files files2 : List Path} {extra : List FileOp} (pre0 : List FileOp)
    (h : StoppedAt fails resource files extra)
    (hpre : ∀ o ∈ pre0, placingOp o = true → fails o = false)
    (hsub : ∀ p ∈ files, p ∈ files2) :
    StoppedAt fails resource files2 (pre0 ++ extra) := by
  rcases h with ⟨pre, op, he, hp, hf, hc⟩ | ⟨⟨p, hp, hr⟩, hc⟩
  · left
    refine ⟨pre0 ++ pre, op, by rw [he, List.append_assoc], hp, hf, ?_⟩
    intro o ho
    rcases List.mem_append.1 ho with h | h
    · exact hpre o h
    · exact hc o h
  · right
    refine ⟨⟨p, hsub p hp, hr⟩, ?_⟩
    intro o ho
    rcases List.mem_append.1 ho with h | h
    · exact hpre o h
    · exact hc o h

theorem StageSpec.done (w : World) : StageSpec w [] (false, w) :=
  ⟨[], by simp, by simp, by simp, by simp⟩

theorem StageSpec.failOp {w wf : World} (files : List Path) (pre0 : List FileOp) (op : FileOp)
    (hops : wf.ops = w.ops ++ (pre0 ++ [op]))
    (ht : ∀ o ∈ pre0 ++ [op], textFileOp o = false)
    (hpre : ∀ o ∈ pre0, placingOp o = true → w.fails o = false)
    (hp : placingOp op = true) (hf : w.fails op = true) :
    StageSpec w files (true, wf) :=
  ⟨pre0 ++ [op], hops, ht, fun _ => Or.inl ⟨pre0, op, rfl, hp, hf, hpre⟩,
    fun h => by cases h⟩

theorem StageSpec.failResource {w wf : World} (files : List Path) (pre0 : List FileOp)
    (p : Path) (hops : wf.ops = w.ops ++ pre0)
    (ht : ∀ o ∈ pre0, textFileOp o = false)
    (hpre : ∀ o ∈ pre0, placingOp o = true → w.fails o = false)
    (hp : p ∈ files) (hr : w.resource p = none) :
    StageSpec w files (true, wf) :=
  ⟨pre0, hops, ht, fun _ => Or.inr ⟨⟨p, hp, hr⟩, hpre⟩, fun h => by cases h⟩

theorem StageSpec.after {w : World} {files1 files2 : List Path} {r1 r2 : Bool × World}
    (h1 : StageSpec w files1 r1) (hok : r1.1 = false) (hf : r1.2.fails = w.fails)
    (hr : r1.2.resource = w.resource) (h2 : StageSpec r1.2 files2 r2) :
    StageSpec w (files1 ++ files2) r2 := by
  obtain ⟨e1, a1, t1, -, k1⟩ := h1
  obtain ⟨e2, a2, t2, f2, k2⟩ := h2
  obtain ⟨c1, s1⟩ := k1 hok
  rw [hf, hr] at f2 k2
  refine ⟨e1 ++ e2, by rw [a2, a1, List.append_assoc], ?_, ?_, ?_⟩
  · intro op hop
    rcases List.mem_append.1 hop with h | h
    · exact t1 op h
    · exact t2 op h
  · intro hb
    exact (f2 hb).prepend e1 c1 (fun p hp => List.mem_append_right _ hp)
  · intro hb
    obtain ⟨c2, s2⟩ := k2 hb
    constructor
    · intro o ho
      rcases List.mem_append.1 ho with h | h
      · exact c1 o h
      · exact c2 o h
    · intro p hp
      rcases List.mem_append.1 hp with h | h
      · exact s1 p h
      · exact s2 p h

theorem StageSpec.step {w w2 : World} {files : List Path} {r : Bool × World} (p : Path)
    (pre0 : List FileOp) (h : StageSpec w2 files r) (hops : w2.ops = w.ops ++ pre0)
    (ht : ∀ o ∈ pre0, textFileOp o = false)
    (hpre : ∀ o ∈ pre0, placingOp o = true → w.fails o = false)
    (hres : w.resource p ≠ none) (hf : w2.fails = w.fails) (hr : w2.resource = w.resource) :
    StageSpec w (p :: files) r := by
  have h1 : StageSpec w [p] (false, w2) := by
    refine ⟨pre0, hops, ht, ?_, ?_⟩
    · intro hb
      cases hb
    · intro _
      exact ⟨hpre, by simpa using hres⟩
  exact h1.after rfl hf hr h

theorem resource_of_inPlace {w : World} {p : Path} (h : inPlace w p = true) :
    w.resource p ≠ none := by
  unfold inPlace binExists CompareFileWithBundledResource at h
  intro hn
  rw [hn] at h
  cases hb : w.bin p <;> simp [hb] at h

theorem copyBundled_stage (order : List Path) (w : World) :
    StageSpec w order (copyBundled order w) := by
  induction order generalizing w with
  | nil => exact StageSpec.done w
  | cons p ps ih =>
    unfold copyBundled
    simp only []
    by_cases h1 : (binExists (w.log (FileOp.stat p)) p
        && CompareFileWithBundledResource (w.log (FileOp.stat p)) p) = true
    · rw [if_pos h1]
      have hin : inPlace w p = true := h1
      exact StageSpec.step p [FileOp.stat p] (ih _) rfl (by simp [textFileOp])
        (by simp [placingOp]) (resource_of_inPlace hin) rfl rfl
    · rw [if_neg h1]
      cases hr : ((w.log (FileOp.stat p)).log (FileOp.stat p)).resource p with
      | none =>
        simp only []
        exact StageSpec.failResource _ [FileOp.stat p, FileOp.stat p] p
          (by simp [World.log]) (by simp [textFileOp]) (by simp [placingOp]) (by simp) hr
      | some content =>
        simp only []
        have hres : w.resource p ≠ none := by
          intro hn
          rw [show ((w.log (FileOp.stat p)).log (FileOp.stat p)).resource p = w.resource p
            from rfl, hn] at hr
          cases hr
        by_cases hc : (((w.log (FileOp.stat p)).log (FileOp.stat p)).log (FileOp.create p)).fails
            (FileOp.create p) = true
        · rw [if_pos hc]
          exact StageSpec.failOp _ [FileOp.stat p, FileOp.stat p] (FileOp.create p)
            (by simp [World.log]) (by simp [textFileOp]) (by simp [placingOp]) rfl hc
        · rw [if_neg hc]
          have hcf : w.fails (FileOp.create p) = false := by simpa using hc
          by_cases hy : (((((w.log (FileOp.stat p)).log (FileOp.stat p)).log
              (FileOp.create p)).setBin p (some [])).log (FileOp.copy p)).fails
              (FileOp.copy p) = true
          · rw [if_pos hy]
            refine StageSpec.failOp _ [FileOp.stat p, FileOp.stat p, FileOp.create p]
              (FileOp.copy p) (by simp [World.log, World.setBin]) (by simp [textFileOp]) ?_ rfl hy
            intro o ho
            simp only [List.mem_cons, List.mem_singleton, List.not_mem_nil, or_false] at ho
            rcases ho with rfl | rfl | rfl
            · intro hp; cases hp
            · intro hp; cases hp
            · intro _; exact hcf
          · rw [if_neg hy]
            have hyf : w.fails (FileOp.copy p) = false := by simpa using hy
            refine StageSpec.step p
              [FileOp.stat p, FileOp.stat p, FileOp.create p, FileOp.copy p] (ih _)
              (by simp [World.log, World.setBin]) (by simp [textFileOp]) ?_ hres rfl rfl
            intro o ho
            simp only [List.mem_cons, List.mem_singleton, List.not_mem_nil, or_false] at ho
            rcases ho with rfl | rfl | rfl | rfl
            · intro hp; cases hp
            · intro hp; cases hp
            · intro _; exact hcf
            · intro _; exact hyf

theorem prepareRosettaDir_stage (w : World) : StageSpec w [] (prepareRosettaDir w) := by
  obtain ⟨p1, p2, -⟩ := prepareRosettaDir_spec w
  refine ⟨[FileOp.removeAll Path.rosettaDir, FileOp.mkdirAll Path.rosettaDir], p1,
    by simp [textFileOp], ?_, ?_⟩
  · intro hb
    left
    refine ⟨[FileOp.removeAll Path.rosettaDir], FileOp.mkdirAll Path.rosettaDir, rfl, rfl, ?_,
      by simp [placingOp]⟩
    rw [← p2]
    exact hb
  · intro hb
    refine ⟨?_, by simp⟩
    intro o ho
    simp only [List.mem_cons, List.mem_singleton, List.not_mem_nil, or_false] at ho
    rcases ho with rfl | rfl
    · intro hp; cases hp
    · intro _
      rw [← p2]
      exact hb

theorem copyRosetta_stage (rorder : List Path) (w : World) :
    StageSpec w rorder (copyRosetta rorder w) := by
  induction rorder generalizing w with
  | nil => exact StageSpec.done w
  | cons p ps ih =>
    unfold copyRosetta
    cases hr : w.resource p with
    | none =>
      simp only []
      exact StageSpec.failResource _ [] p (by simp) (by simp) (by simp) (by simp) hr
    | some content =>
      simp only []
      have hres : w.resource p ≠ none := by
        rw [hr]
        simp
      by_cases hc : (w.log (FileOp.create p)).fails (FileOp.create p) = true
      · rw [if_pos hc]
        exact StageSpec.failOp _ [] (FileOp.create p)
          (by simp [World.log]) (by simp [textFileOp]) (by simp) rfl hc
      · rw [if_neg hc]
        have hcf : w.fails (FileOp.create p) = false := by simpa using hc
        by_cases hy : (((w.log (FileOp.create p)).setBin p (some [])).log (FileOp.copy p)).fails
            (FileOp.copy p) = true
        · rw [if_pos hy]
          refine StageSpec.failOp _ [FileOp.create p] (FileOp.copy p)
            (by simp [World.log, World.setBin]) (by simp [textFileOp]) ?_ rfl hy
          intro o ho
          simp only [List.mem_singleton] at ho
          rw [ho]
          intro _
          exact hcf
        · rw [if_neg hy]
          have hyf : w.fails (FileOp.copy p) = false := by simpa using hy
          by_cases hp : p = Path.rosettax87
          · rw [if_pos hp]
            by_cases hm : (((((w.log (FileOp.create p)).setBin p (some [])).log
                (FileOp.copy p)).setBin p (some content)).log (FileOp.chmod p)).fails
                (FileOp.chmod p) = true
            · rw [if_pos hm]
              refine StageSpec.failOp _ [FileOp.create p, FileOp.copy p] (FileOp.chmod p)
                (by simp [World.log, World.setBin]) (by simp [textFileOp]) ?_ rfl hm
              intro o ho
              simp only [List.mem_cons, List.mem_singleton, List.not_mem_nil, or_false] at ho
              rcases ho with rfl | rfl
              · intro _; exact hcf
              · intro _; exact hyf
            · rw [if_neg hm]
              have hmf : w.fails (FileOp.chmod p) = false := by simpa using hm
              refine StageSpec.step p [FileOp.create p, FileOp.copy p, FileOp.chmod p] (ih _)
                (by simp [World.log, World.setBin]) (by simp [textFileOp]) ?_ hres rfl rfl
              intro o ho
              simp only [List.mem_cons, List.mem_singleton, List.not_mem_nil, or_false] at ho
              rcases ho with rfl | rfl | rfl
              · intro _; exact hcf
              · intro _; exact hyf
              · intro _; exact hmf
          · rw [if_neg hp]
            refine StageSpec.step p [FileOp.create p, FileOp.copy p] (ih _)
              (by simp [World.log, World.setBin]) (by simp [textFileOp]) ?_ hres rfl rfl
            intro o ho
            simp only [List.mem_cons, List.mem_singleton, List.not_mem_nil, or_false] at ho
            rcases ho with rfl | rfl
            · intro _; exact hcf
            · intro _; exact hyf

theorem finishPatch_last_dialog (uni : Char → Bool) (w : World) :
    (finishPatch uni w).dialogs.getLast? = some Dialog.success := by
  unfold finishPatch
  simp

theorem PatchOutcome.ofAbort {w : World} {files files2 : List Path} {r : Bool × World}
    (hs : StageSpec w files r) (hb : r.1 = true) (hframe : OnlyBinaries w r.2)
    (hsub : ∀ p ∈ files, p ∈ files2) : PatchOutcome w files2 (abortPatch r.2) := by
  obtain ⟨e, a, t, f, -⟩ := hs
  have st : StoppedAt w.fails w.resource files2 e := by
    have := (f hb).prepend [] (by simp) hsub
    simpa using this
  obtain ⟨-, -, a3, -, -, -, -, -, -, a10, a11, -, -, a14, a15⟩ := hframe
  refine ⟨e, a, ?_, ?_⟩
  · intro _
    refine ⟨?_, rfl, ?_, a11, a10, a3, t, st⟩
    · simp [abortPatch, World.showError, a14]
    · simp [abortPatch, World.showError, a15]
  · intro hn
    exfalso
    apply hn
    rcases st with ⟨pre, op, he, hp, hf, -⟩ | ⟨hres, -⟩
    · exact Or.inr ⟨op, by rw [he]; simp, hp, hf⟩
    · exact Or.inl hres

theorem PatchOutcome.ofFinish (uni : Char → Bool) {w : World} {files : List Path}
    {r : Bool × World} (hs : StageSpec w files r) (hb : r.1 = false) :
    PatchOutcome w files (finishPatch uni r.2) := by
  obtain ⟨e, a, -, -, k⟩ := hs
  obtain ⟨c, s⟩ := k hb
  obtain ⟨-, -, -, -, e2, a2, m2⟩ := finishPatch_finishStep uni r.2
  refine ⟨e ++ e2, by rw [a2, a, List.append_assoc], ?_, ?_⟩
  · intro hc
    exfalso
    rcases hc with ⟨p, hp, hr⟩ | ⟨op, hop, hp, hf⟩
    · exact s p hp hr
    · rcases List.mem_append.1 hop with h | h
      · rw [c op h hp] at hf
        cases hf
      · rw [placingOp_finishOps op (m2 op h)] at hp
        cases hp
  · intro _
    exact finishPatch_last_dialog uni r.2

/-! ## The restrictions on keys and values cannot be dropped -/

/-- A key with a double quote: the document `SET "` holds neither a directive
nor an unterminated directive for the key made of a double quote, a line feed
and `SET`, yet the appended directive is not the first match of the result. -/
theorem quote_in_key_example :
    endsInOpenSetting "\"\nSET".toList "SET \"".toList = false ∧
    (∀ uni, updateOrAddConfigSetting uni "SET \"".toList "\"\nSET".toList "v".toList
      = "SET \"\nSET \"\nSET \"v\"\n".toList) ∧
    isConfigSettingCorrect "SET \"\nSET \"\nSET \"v\"\n".toList "\"\nSET".toList "v".toList
      = false :=
  ⟨by decide, fun _ => rfl, by decide⟩

/-- A key with a dollar sign: the replace branch writes the directive under
the key `a`, and a second call appends a directive for `a$b`. -/
theorem dollar_in_key_example (uni : Char → Bool) :
    updateOrAddConfigSetting uni "SET a$b \"x\"".toList "a$b".toList "v".toList
      = "SET a \"v\"".toList ∧
    updateOrAddConfigSetting uni "SET a \"v\"".toList "a$b".toList "v".toList
      = "SET a \"v\"\nSET a$b \"v\"\n".toList :=
  ⟨rfl, rfl⟩

/-- A value with a dollar sign: on the document `SET k "old"` the value `$1`
is read as a reference to a capture group by `ReplaceAllString` and the
directive is written with an empty value, so the result is not `SET k "$1"`
and `isConfigSettingCorrect` rejects it; the append branch of the same
function writes the value as it is. -/
theorem dollar_in_value_example (uni : Char → Bool) :
    updateOrAddConfigSetting uni "SET k \"old\"".toList "k".toList "$1".toList
      = "SET k \"\"".toList ∧
    "SET k \"\"".toList ≠ "SET k \"$1\"".toList ∧
    isConfigSettingCorrect
      (updateOrAddConfigSetting uni "SET k \"old\"".toList "k".toList "$1".toList)
      "k".toList "$1".toList = false ∧
    updateOrAddConfigSetting uni [] "k".toList "$1".toList = "SET k \"$1\"\n".toList :=
  ⟨rfl, by decide, rfl, rfl⟩

/-! ## The claims -/

/-- C1 (as amended): for every key and value without double quote or dollar
sign, and every settings document that does not end inside an open directive
for the key, `isConfigSettingCorrect` holds of the document written by
`updateOrAddConfigSetting` for the same key and value. -/
theorem isConfigSettingCorrect_updateOrAdd (uni : Char → Bool) (doc k v : List Char)
    (hk : dq ∉ k) (hkd : dollar ∉ k) (hv : dq ∉ v) (hvd : dollar ∉ v)
    (hdoc : endsInOpenSetting k doc = false) :
    isConfigSettingCorrect (updateOrAddConfigSetting uni doc k v) k v = true := by
  obtain ⟨pre, post, e, hno, -⟩ := updateOrAdd_shape uni hk hkd hv hvd hdoc
  unfold isConfigSettingCorrect
  rw [e, findFirst_of_match hno (matchSettingAt_newSetting k post hv)]
  simp

/-- C1, witness: a document with a comment line and two directives for the
key. -/
theorem isConfigSettingCorrect_updateOrAdd_witness :
    (dq ∉ "farclip".toList ∧ dollar ∉ "farclip".toList ∧ dq ∉ "177".toList ∧
      dollar ∉ "177".toList ∧
      endsInOpenSetting "farclip".toList
        "# video\nSET  farclip \"350\"\nSET gxApi \"d3d9\"\nSET farclip \"90\"".toList = false) ∧
    isConfigSettingCorrect
      (updateOrAddConfigSetting (fun _ => false)
        "# video\nSET  farclip \"350\"\nSET gxApi \"d3d9\"\nSET farclip \"90\"".toList
        "farclip".toList "177".toList)
      "farclip".toList "177".toList = true :=
  ⟨by decide,
    isConfigSettingCorrect_updateOrAdd (fun _ => false) _ _ _ (by decide) (by decide)
      (by decide) (by decide) (by decide)⟩

/-- C1, counterexample: the document `SET k "` holds no directive for `k`, so
the directive is appended; the first match of the result then runs from the
open quote of the old text to the first quote of the new line, and its value
is not `v`. -/
theorem isConfigSettingCorrect_updateOrAdd_open :
    dq ∉ "v".toList ∧
    (∀ uni, updateOrAddConfigSetting uni "SET k \"".toList "k".toList "v".toList
      = "SET k \"\nSET k \"v\"\n".toList) ∧
    isConfigSettingCorrect "SET k \"\nSET k \"v\"\n".toList "k".toList "v".toList = false :=
  ⟨by decide, fun _ => rfl, by decide⟩

/-- C2 (as amended): for every key and value without double quote or dollar
sign, and every settings document that does not end inside an open directive
for the key, running `updateOrAddConfigSetting` a second time with the same key
and value changes nothing. -/
theorem updateOrAdd_idempotent (uni : Char → Bool) (doc k v : List Char)
    (hk : dq ∉ k) (hkd : dollar ∉ k) (hv : dq ∉ v) (hvd : dollar ∉ v)
    (hdoc : endsInOpenSetting k doc = false) :
    updateOrAddConfigSetting uni (updateOrAddConfigSetting uni doc k v) k v
      = updateOrAddConfigSetting uni doc k v := by
  obtain ⟨pre, post, e, hno, hpost⟩ := updateOrAdd_shape uni hk hkd hv hvd hdoc
  have hE := dollar_not_mem_newSetting hkd hvd
  have hm := matchSettingAt_newSetting k post hv
  have hms : matchString (matchSettingAt k) (pre ++ (newSetting k v ++ post)) = true :=
    matchString_of_suffix (by rw [hm]; rfl)
  rw [e, updateOrAdd_of_match uni v hms, replaceAll_skip hno,
    replaceAll_of_match (shrinks_matchSettingAt k) hm, hpost, expand_of_no_dollar uni _ hE]

/-- C2, witness: the replace branch on a document with two directives for the
key. -/
theorem updateOrAdd_idempotent_witness :
    (dq ∉ "farclip".toList ∧ dollar ∉ "farclip".toList ∧ dq ∉ "177".toList ∧
      dollar ∉ "177".toList ∧
      endsInOpenSetting "farclip".toList
        "SET farclip \"350\"\r\nSET gxApi \"d3d9\"\r\nSET\tfarclip\t\"90\"".toList = false) ∧
    updateOrAddConfigSetting (fun _ => false)
      (updateOrAddConfigSetting (fun _ => false)
        "SET farclip \"350\"\r\nSET gxApi \"d3d9\"\r\nSET\tfarclip\t\"90\"".toList
        "farclip".toList "177".toList)
      "farclip".toList "177".toList
    = updateOrAddConfigSetting (fun _ => false)
        "SET farclip \"350\"\r\nSET gxApi \"d3d9\"\r\nSET\tfarclip\t\"90\"".toList
        "farclip".toList "177".toList :=
  ⟨by decide,
    updateOrAdd_idempotent (fun _ => false) _ _ _ (by decide) (by decide)
      (by decide) (by decide) (by decide)⟩

/-- C2, counterexample: on the document `SET k "` the first run appends a
directive and the second run replaces the text from the old open quote to the
first quote of the appended line, so the two results differ. -/
theorem updateOrAdd_not_idempotent_open :
    dq ∉ "v".toList ∧
    (∀ uni, updateOrAddConfigSetting uni "SET k \"".toList "k".toList "v".toList
      = "SET k \"\nSET k \"v\"\n".toList) ∧
    (∀ uni, updateOrAddConfigSetting uni "SET k \"\nSET k \"v\"\n".toList "k".toList "v".toList
      = "SET k \"v\"v\"\n".toList) ∧
    "SET k \"v\"v\"\n".toList ≠ "SET k \"\nSET k \"v\"\n".toList :=
  ⟨by decide, fun _ => rfl, fun _ => rfl, by decide⟩

/-- C3 (as amended): when the document holds no directive for the key and does
not end inside an open one, and neither the key nor the value contains a double
quote, `removeConfigSetting` after `updateOrAddConfigSetting` gives back the
document followed by the line feed that the append put before the new line:
the document itself when it is empty or ends with a line feed, and the
document plus one line feed otherwise. -/
theorem remove_updateOrAdd_of_absent (uni : Char → Bool) (doc k v : List Char)
    (hk : dq ∉ k) (hv : dq ∉ v)
    (habs : matchString (matchSettingAt k) doc = false)
    (hdoc : endsInOpenSetting k doc = false) :
    removeConfigSetting uni (updateOrAddConfigSetting uni doc k v) k
      = if doc ≠ [] ∧ doc.getLast? ≠ some '\n' then doc ++ ['\n'] else doc := by
  have hopen : matchString (matchSettingAt k) (doc ++ [dq]) = false := by
    unfold endsInOpenSetting at hdoc
    rw [habs] at hdoc
    simpa using hdoc
  have hno : NoMatchIn (matchSettingAt k) (doc ++ lineSep doc) (newSetting k v ++ ['\n']) :=
    noMatchIn_before_appended hk (lineSep_spaces doc) hopen
  have hm := matchSettingAt_newSetting k ['\n'] hv
  have hml : matchSettingLineAt k (newSetting k v ++ ['\n']) = some (v, []) :=
    matchSettingLineAt_eq_some.2 ⟨['\n'], hm, by decide⟩
  have hms : matchString (matchSettingAt k) (doc ++ lineSep doc ++ (newSetting k v ++ ['\n']))
      = true := matchString_of_suffix (by rw [hm]; rfl)
  rw [updateOrAdd_of_no_match uni v habs, remove_of_match uni hms,
    replaceAll_skip (noMatchIn_line.2 hno),
    replaceAll_of_match (shrinks_matchSettingLineAt k) hml, replaceAll_nil]
  unfold lineSep
  split <;> simp

/-- C3, witness: a document that ends with a line feed comes back unchanged. -/
theorem remove_updateOrAdd_of_absent_witness :
    (dq ∉ "shadowLOD".toList ∧ dq ∉ "0".toList ∧
      matchString (matchSettingAt "shadowLOD".toList) "SET gxApi \"d3d9\"\n".toList = false ∧
      endsInOpenSetting "shadowLOD".toList "SET gxApi \"d3d9\"\n".toList = false) ∧
    removeConfigSetting (fun _ => false)
      (updateOrAddConfigSetting (fun _ => false) "SET gxApi \"d3d9\"\n".toList
        "shadowLOD".toList "0".toList) "shadowLOD".toList
      = "SET gxApi \"d3d9\"\n".toList :=
  ⟨by decide,
    remove_updateOrAdd_of_absent (fun _ => false) "SET gxApi \"d3d9\"\n".toList
      "shadowLOD".toList "0".toList (by decide) (by decide) (by decide) (by decide)⟩

/-- C3, counterexample: the document `x` has no final line feed; the append
adds one before the new directive and the removal leaves it in place. -/
theorem remove_updateOrAdd_adds_line_feed :
    dq ∉ "v".toList ∧
    matchString (matchSettingAt "k".toList) "x".toList = false ∧
    (∀ uni, removeConfigSetting uni
      (updateOrAddConfigSetting uni "x".toList "k".toList "v".toList) "k".toList
        = "x\n".toList) ∧
    "x\n".toList ≠ "x".toList :=
  ⟨by decide, by decide, fun _ => rfl, by decide⟩

/-- C4: `isConfigSettingCorrect` is true only if the document contains a
directive for the key whose value is the expected value; it is false when the
document contains no directive for the key, false when every directive for
the key in the document carries a value other than the expected one, and false
when the leftmost directive for the key carries a value other than the
expected one. -/
theorem isConfigSettingCorrect_only_if (doc k e : List Char) :
    (isConfigSettingCorrect doc k e = true → HasSetting k e doc) ∧
    ((¬ ∃ x, HasSetting k x doc) → isConfigSettingCorrect doc k e = false) ∧
    ((∀ x, HasSetting k x doc → x ≠ e) → isConfigSettingCorrect doc k e = false) ∧
    (∀ pre x r s, doc = pre ++ s → SettingAt k x r s → NoMatchIn (matchSettingAt k) pre s →
      x ≠ e → isConfigSettingCorrect doc k e = false) := by
  refine ⟨hasSetting_of_isConfigSettingCorrect, ?_, ?_, ?_⟩
  · intro h
    cases hc : isConfigSettingCorrect doc k e with
    | false => rfl
    | true => exact absurd ⟨e, hasSetting_of_isConfigSettingCorrect hc⟩ h
  · intro h
    cases hc : isConfigSettingCorrect doc k e with
    | false => rfl
    | true => exact absurd rfl (h e (hasSetting_of_isConfigSettingCorrect hc))
  · intro pre x r s hdoc hs hno hx
    unfold isConfigSettingCorrect
    rw [hdoc, findFirst_of_match hno (matchSettingAt_iff.2 hs)]
    simpa using hx

/-- C5 (as amended): when the leftmost directive for the key starts after
`pre`, is followed by `post`, and `post` holds no directive for the key, then
for every key and value without dollar sign `updateOrAddConfigSetting` returns
`pre`, the text `SET k "v"` and `post`: the directive is rewritten where it
stands and the text around it is kept.  When neither the old directive nor the
value contains a line feed, the number of line feeds is unchanged. -/
theorem updateOrAdd_replaces_in_place (uni : Char → Bool) (doc k v pre old post : List Char)
    (hkd : dollar ∉ k) (hvd : dollar ∉ v)
    (hfirst : findFirst (matchSettingAt k) doc = some (pre, old, post))
    (hrest : matchString (matchSettingAt k) post = false) :
    ∃ d, doc = pre ++ d ++ post ∧ SettingAt k old [] d ∧
      updateOrAddConfigSetting uni doc k v
        = pre ++ ("SET ".toList ++ k ++ " \"".toList ++ v ++ "\"".toList) ++ post ∧
      ('\n' ∉ d → '\n' ∉ v →
        (updateOrAddConfigSetting uni doc k v).count '\n' = doc.count '\n') := by
  obtain ⟨d, e, hs, hu⟩ := updateOrAdd_in_place uni v hfirst hrest
  have hE := dollar_not_mem_newSetting hkd hvd
  rw [expand_of_no_dollar uni d hE] at hu
  have hn : "SET ".toList ++ k ++ " \"".toList ++ v ++ "\"".toList = newSetting k v := rfl
  refine ⟨d, e, hs, by rw [hu, hn], ?_⟩
  intro hd hv
  have hk : '\n' ∉ k := by
    obtain ⟨w1, w2, -, -, -, -, -, ed⟩ := hs
    intro hmem
    apply hd
    rw [ed]
    simp [hmem]
  have h1 : (newSetting k v).count '\n' = 0 := by
    rw [List.count_eq_zero]
    unfold newSetting
    simp only [List.mem_append, not_or]
    exact ⟨⟨⟨⟨by decide, hk⟩, by decide⟩, hv⟩, by decide⟩
  have h2 : d.count '\n' = 0 := List.count_eq_zero.2 hd
  rw [hu, e]
  simp only [List.count_append, h1, h2]

/-- C5, witness: the directive for `farclip`, written with two spaces and a
tabulator, between two other lines. -/
theorem updateOrAdd_replaces_in_place_witness :
    (dollar ∉ "farclip".toList ∧ dollar ∉ "177".toList ∧
      findFirst (matchSettingAt "farclip".toList)
        "SET gxApi \"d3d9\"\nSET  farclip\t\"350\"\nSET x \"1\"\n".toList
        = some ("SET gxApi \"d3d9\"\n".toList, "350".toList, "\nSET x \"1\"\n".toList) ∧
      matchString (matchSettingAt "farclip".toList) "\nSET x \"1\"\n".toList = false) ∧
    updateOrAddConfigSetting (fun _ => false)
        "SET gxApi \"d3d9\"\nSET  farclip\t\"350\"\nSET x \"1\"\n".toList
        "farclip".toList "177".toList
      = "SET gxApi \"d3d9\"\nSET farclip \"177\"\nSET x \"1\"\n".toList := by
  obtain ⟨d, -, -, h, -⟩ := updateOrAdd_replaces_in_place (fun _ => false)
    "SET gxApi \"d3d9\"\nSET  farclip\t\"350\"\nSET x \"1\"\n".toList
    "farclip".toList "177".toList "SET gxApi \"d3d9\"\n".toList "350".toList
    "\nSET x \"1\"\n".toList (by decide) (by decide) (by decide) (by decide)
  exact ⟨by decide, h.trans (by decide)⟩

/-- C5, counterexample: a value with a line feed is written as it is, so the
document `SET k "old"` of one line becomes a document of two lines; and in a
document with two directives for the key both are rewritten, not only the one
between `pre` and `post`. -/
theorem updateOrAdd_changes_lines :
    dq ∉ "a\nb".toList ∧
    (∀ uni, updateOrAddConfigSetting uni "SET k \"old\"".toList "k".toList "a\nb".toList
      = "SET k \"a\nb\"".toList) ∧
    "SET k \"a\nb\"".toList.count '\n' ≠ "SET k \"old\"".toList.count '\n' ∧
    (∀ uni, updateOrAddConfigSetting uni
        ([] ++ "SET k \"old\"".toList ++ "\nSET k \"b\"".toList) "k".toList "v".toList
      = "SET k \"v\"\nSET k \"v\"".toList) ∧
    "SET k \"v\"\nSET k \"v\"".toList ≠ [] ++ "SET k \"v\"".toList ++ "\nSET k \"b\"".toList :=
  ⟨by decide, fun _ => rfl, by decide, fun _ => rfl, by decide⟩

/-- C6: when the document holds no directive for the key,
`updateOrAddConfigSetting` returns the document, a line feed if the document is
not empty and does not end with one, the line `SET k "v"` and a line feed; the
document is a prefix of the result. -/
theorem updateOrAdd_of_absent (uni : Char → Bool) (doc k v : List Char)
    (habs : matchString (matchSettingAt k) doc = false) :
    updateOrAddConfigSetting uni doc k v
      = doc ++ (if doc ≠ [] ∧ doc.getLast? ≠ some '\n' then ['\n'] else [])
          ++ ("SET ".toList ++ k ++ " \"".toList ++ v ++ "\"".toList) ++ ['\n'] ∧
    doc <+: updateOrAddConfigSetting uni doc k v := by
  have h := updateOrAdd_of_no_match uni v habs
  constructor
  · rw [h]
    simp [lineSep, newSetting, dq]
  · rw [h, List.append_assoc]
    exact List.prefix_append _ _

/-- C6, witness: a document without final line feed. -/
theorem updateOrAdd_of_absent_witness :
    matchString (matchSettingAt "shadowLOD".toList) "SET gxApi \"d3d9\"".toList = false ∧
    updateOrAddConfigSetting (fun _ => false) "SET gxApi \"d3d9\"".toList
        "shadowLOD".toList "0".toList
      = "SET gxApi \"d3d9\"\nSET shadowLOD \"0\"\n".toList :=
  ⟨by decide,
    (updateOrAdd_of_absent (fun _ => false) "SET gxApi \"d3d9\"".toList
      "shadowLOD".toList "0".toList (by decide)).1.trans (by decide)⟩

/-- C7 (as amended): when the first directive for the key starts after `pre`,
is followed by a line feed and `post`, and `post` holds no directive for the
key, `removeConfigSetting` returns `pre` followed by `post` without its leading
carriage returns and line feeds: the directive goes together with every line
terminator character that follows it.  A document without a directive for the
key is returned unchanged. -/
theorem remove_only_setting (uni : Char → Bool) (doc k : List Char) :
    (∀ pre x post : List Char,
      findFirst (matchSettingAt k) doc = some (pre, x, '\n' :: post) →
      matchString (matchSettingAt k) post = false →
      ∃ l, doc = pre ++ l ++ '\n' :: post ∧ SettingAt k x [] l ∧
        removeConfigSetting uni doc k = pre ++ post.dropWhile isLineBreak) ∧
    (matchString (matchSettingAt k) doc = false → removeConfigSetting uni doc k = doc) := by
  refine ⟨?_, remove_of_no_match uni⟩
  intro pre x post hfirst hrest
  obtain ⟨t, e, hm, hno⟩ := findFirst_eq_some hfirst
  obtain ⟨d, e1, hs, -, -⟩ := replaceAll_first (fun _ => []) hfirst
  have hml : matchSettingLineAt k t = some (x, post.dropWhile isLineBreak) :=
    matchSettingLineAt_eq_some.2 ⟨'\n' :: post, hm, by simp [isLineBreak]⟩
  have hpost := (findFirst_eq_none.1 (matchString_eq_false.1 hrest)).1
  have hpost1 : NoMatchIn (matchSettingAt k) (post.dropWhile isLineBreak) [] := by
    have h1 := hpost
    rw [← List.takeWhile_append_dropWhile isLineBreak post] at h1
    exact h1.suffix
  refine ⟨d, by rw [e1]; simp, hs.cancel, ?_⟩
  rw [remove_eq_replaceAll, e, replaceAll_skip (noMatchIn_line.2 hno),
    replaceAll_of_match (shrinks_matchSettingLineAt k) hml,
    replaceAll_no_match (noMatchIn_line.2 hpost1)]
  simp

/-- C7, witness: a directive between two other lines, and a document without
the directive. -/
theorem remove_only_setting_witness :
    removeConfigSetting (fun _ => false)
      "SET gxApi \"d3d9\"\nSET shadowLOD \"0\"\nSET farclip \"177\"\n".toList
      "shadowLOD".toList
      = "SET gxApi \"d3d9\"\n".toList ++ "SET farclip \"177\"\n".toList ∧
    removeConfigSetting (fun _ => false) "SET gxApi \"d3d9\"\n".toList "shadowLOD".toList
      = "SET gxApi \"d3d9\"\n".toList := by
  have h := remove_only_setting (fun _ => false)
    "SET gxApi \"d3d9\"\nSET shadowLOD \"0\"\nSET farclip \"177\"\n".toList "shadowLOD".toList
  have h1 := remove_only_setting (fun _ => false) "SET gxApi \"d3d9\"\n".toList
    "shadowLOD".toList
  constructor
  · obtain ⟨l, -, -, e⟩ := h.1 "SET gxApi \"d3d9\"\n".toList "0".toList
      "SET farclip \"177\"\n".toList (by decide) (by decide)
    exact e.trans (by decide)
  · exact h1.2 (by decide)

/-- C7, counterexample: the directive is the only one and fills its line, yet
the empty line after it is removed with it: the result is `x`, not the line
feed and `x` that surround the directive line. -/
theorem remove_eats_blank_line :
    findFirst (matchSettingAt "k".toList) "SET k \"1\"\n\nx".toList
      = some ([], "1".toList, '\n' :: "\nx".toList) ∧
    matchString (matchSettingAt "k".toList) "\nx".toList = false ∧
    (∀ uni, removeConfigSetting uni "SET k \"1\"\n\nx".toList "k".toList = "x".toList) ∧
    "x".toList ≠ [] ++ "\nx".toList :=
  ⟨by decide, by decide, fun _ => rfl, by decide⟩

/-- C8 (as amended): in a document made of lines that end with a line feed,
where each line either is exactly one directive for the key or has no directive
for the key starting inside it, `updateOrAddConfigSetting` rewrites the
directive lines for the key and leaves every other line as it is and where it
is (or appends one line when there is no directive), and `removeConfigSetting`
deletes the directive lines for the key and keeps every other line, in order,
provided no directive line is directly followed by an empty line or a line
that begins with a carriage return. -/
theorem other_lines_kept (uni : Char → Bool) (k v : List Char) (ls : List (List Char))
    (h : wholeLineSettings k ls = true) :
    updateOrAddConfigSetting uni (unlines ls) k v
      = unlines
          (if matchString (matchSettingAt k) (unlines ls) = true then
            ls.map (fun l => if isSettingLine k l = true then expand uni (newSetting k v) l else l)
          else ls ++ [newSetting k v]) ∧
    (noBreakAfterSetting k ls = true →
      removeConfigSetting uni (unlines ls) k
        = unlines (ls.filter (fun l => !isSettingLine k l))) := by
  constructor
  · cases hm : matchString (matchSettingAt k) (unlines ls) with
    | true =>
      rw [updateOrAdd_of_match uni v hm, replaceAll_unlines _ h]
      simp
    | false =>
      rw [updateOrAdd_of_no_match uni v hm, lineSep_unlines]
      simp only [Bool.false_eq_true, if_false]
      rw [unlines_append]
      simp
  · intro hb
    rw [remove_eq_replaceAll, removeAll_unlines h hb]

/-- C8, witness: four lines, one of them the directive for `shadowLOD`. -/
theorem other_lines_kept_witness :
    wholeLineSettings "shadowLOD".toList
      ["SET gxApi \"d3d9\"".toList, [], "SET shadowLOD \"1\"".toList, "# note".toList] = true ∧
    updateOrAddConfigSetting (fun _ => false)
      (unlines ["SET gxApi \"d3d9\"".toList, [], "SET shadowLOD \"1\"".toList, "# note".toList])
      "shadowLOD".toList "0".toList
      = unlines ["SET gxApi \"d3d9\"".toList, [], "SET shadowLOD \"0\"".toList, "# note".toList] ∧
    removeConfigSetting (fun _ => false)
      (unlines ["SET gxApi \"d3d9\"".toList, [], "SET shadowLOD \"1\"".toList, "# note".toList])
      "shadowLOD".toList
      = unlines ["SET gxApi \"d3d9\"".toList, [], "# note".toList] := by
  have h := other_lines_kept (fun _ => false) "shadowLOD".toList "0".toList
    ["SET gxApi \"d3d9\"".toList, [], "SET shadowLOD \"1\"".toList, "# note".toList] (by decide)
  exact ⟨by decide, h.1.trans (by decide), (h.2 (by decide)).trans (by decide)⟩

/-- C8, counterexample: the empty second line is not a directive, and it is
gone after `removeConfigSetting`: the lines of the result are only `b`. -/
theorem remove_drops_blank_line :
    ([] : List Char) ∈ ["SET k \"1\"".toList, [], "b".toList] ∧
    isSettingLine "k".toList [] = false ∧
    (∀ uni, removeConfigSetting uni (unlines ["SET k \"1\"".toList, [], "b".toList]) "k".toList
      = unlines ["b".toList]) ∧
    ([] : List Char) ∉ ["b".toList] :=
  ⟨by decide, by decide, fun _ => rfl, by decide⟩

/-- C9 (as amended): keys are matched literally.  For keys without white space
or double quote and a value without double quote, `isConfigSettingCorrect` on
the one-line document `SET k2 "v"`, asked for the key `k` and the value `v`, is
true exactly when `k = k2`. -/
theorem isConfigSettingCorrect_literal_key (k k2 v : List Char)
    (hk : ∀ c ∈ k, isSpace c = false ∧ c ≠ dq)
    (hk2 : ∀ c ∈ k2, isSpace c = false ∧ c ≠ dq) (hv : dq ∉ v) :
    isConfigSettingCorrect ("SET ".toList ++ k2 ++ " \"".toList ++ v ++ "\"".toList) k v = true
      ↔ k = k2 := by
  have edoc : "SET ".toList ++ k2 ++ " \"".toList ++ v ++ "\"".toList = newSetting k2 v := rfl
  rw [edoc]
  constructor
  · intro h
    obtain ⟨pre, r, s, e, w1, w2, hw1, hs1, hw2, hs2, -, es⟩ :=
      hasSetting_of_isConfigSettingCorrect h
    rw [es] at e
    have hkd : dq ∉ k := fun hd => (hk dq hd).2 rfl
    have hk2d : dq ∉ k2 := fun hd => (hk2 dq hd).2 rfl
    have hp : ∀ l : List Char, dq ∉ l → ∀ x ∈ l, (fun c => c != dq) x = true := by
      intro l hl x hx
      have : x ≠ dq := fun e => hl (e ▸ hx)
      simpa using this
    have hl : dq ∉ kw ++ [' '] ++ k2 ++ [' '] := by
      simp only [List.mem_append, not_or]
      exact ⟨⟨⟨dq_not_mem_kw, by decide⟩, hk2d⟩, by decide⟩
    have hhead : dq ∉ kw ++ w1 ++ k ++ w2 := by
      simp only [List.mem_append, not_or]
      exact ⟨⟨⟨dq_not_mem_kw, dq_not_mem_of_spaces hs1⟩, hkd⟩, dq_not_mem_of_spaces hs2⟩
    by_cases hpre : dq ∈ pre
    · exfalso
      obtain ⟨p1, p2, e1, hp1⟩ := exists_first_dq hpre
      have e2 : (kw ++ [' '] ++ k2 ++ [' ']) ++ dq :: (v ++ [dq])
          = p1 ++ dq :: (p2 ++ (kw ++ w1 ++ k ++ w2 ++ [dq] ++ v ++ [dq] ++ r)) := by
        have e3 := e
        rw [e1] at e3
        simpa [newSetting, kw] using e3
      have h3 := (span_unique (p := fun c => c != dq) (hp _ hl) (hp _ hp1) (by simp) (by simp)
        e2).2
      have h4 := congrArg List.length h3
      simp at h4
      omega
    · have e2 : (kw ++ [' '] ++ k2 ++ [' ']) ++ dq :: (v ++ [dq])
          = (pre ++ (kw ++ w1 ++ k ++ w2)) ++ dq :: (v ++ dq :: r) := by
        simpa [newSetting, kw] using e
      have hpk : dq ∉ pre ++ (kw ++ w1 ++ k ++ w2) := by
        intro hd
        rcases List.mem_append.1 hd with hd | hd
        · exact hpre hd
        · exact hhead hd
      have h3 := (span_unique (p := fun c => c != dq) (hl |> hp _) (hp _ hpk) (by simp)
        (by simp) e2).1
      -- count the white space on both sides
      have hc := congrArg (List.countP isSpace) h3
      have c1 : List.countP isSpace kw = 0 := by decide
      have c2 : List.countP isSpace [' '] = 1 := by decide
      simp only [List.countP_append, c1, c2, countP_space_of_spaces hs1,
        countP_space_of_spaces hs2, countP_space_of_none (fun c hc => (hk c hc).1),
        countP_space_of_none (fun c hc => (hk2 c hc).1)] at hc
      have l1 : 0 < w1.length := List.length_pos.2 hw1
      have l2 : 0 < w2.length := List.length_pos.2 hw2
      have hpre0 : List.countP isSpace pre = 0 := by omega
      have hw1l : w1.length = 1 := by omega
      have hw2l : w2.length = 1 := by omega
      obtain ⟨a, rfl⟩ := List.length_eq_one.1 hw1l
      obtain ⟨b, rfl⟩ := List.length_eq_one.1 hw2l
      have ha : isSpace a = true := hs1 a (List.mem_singleton_self a)
      have hb : isSpace b = true := hs2 b (List.mem_singleton_self b)
      have hq : ∀ l : List Char, (∀ c ∈ l, isSpace c = false) →
          ∀ x ∈ l, (fun c => !isSpace c) x = true := by
        intro l hl x hx
        simp [hl x hx]
      have hpre1 : ∀ c ∈ pre, isSpace c = false := by
        intro c hc
        have := (List.countP_eq_zero.1 hpre0) c hc
        simpa using this
      have hkw : ∀ c ∈ kw, isSpace c = false := by decide
      have e4 : kw ++ ' ' :: (k2 ++ [' ']) = (pre ++ kw) ++ a :: (k ++ [b]) := by
        simpa using h3
      have h5 := span_unique (p := fun c => !isSpace c) (hq _ hkw)
        (hq _ (fun c hc => by
          rcases List.mem_append.1 hc with hc | hc
          · exact hpre1 c hc
          · exact hkw c hc))
        (by decide) (by simp [ha]) e4
      have h6 : k2 ++ ' ' :: [] = k ++ b :: [] := by
        have := h5.2
        simp only [List.cons.injEq] at this
        exact this.2
      have h7 := span_unique (p := fun c => !isSpace c) (hq _ (fun c hc => (hk2 c hc).1))
        (hq _ (fun c hc => (hk c hc).1)) (by decide) (by simp [hb]) h6
      exact h7.1.symm
  · intro h
    subst h
    unfold isConfigSettingCorrect
    have h1 : findFirst (matchSettingAt k) ([] ++ (newSetting k v ++ [])) = some ([], v, []) :=
      findFirst_of_match (NoMatchIn.nil _ _) (matchSettingAt_newSetting k [] hv)
    simp only [List.nil_append, List.append_nil] at h1
    rw [h1]
    simp

/-- C9, witness: the key `a.b` does not match the directive for `aXb`. -/
theorem isConfigSettingCorrect_literal_key_witness :
    ((∀ c ∈ "a.b".toList, isSpace c = false ∧ c ≠ dq) ∧
      (∀ c ∈ "aXb".toList, isSpace c = false ∧ c ≠ dq) ∧ dq ∉ "1".toList) ∧
    (isConfigSettingCorrect
        ("SET ".toList ++ "aXb".toList ++ " \"".toList ++ "1".toList ++ "\"".toList)
        "a.b".toList "1".toList = true
      ↔ "a.b".toList = "aXb".toList) :=
  ⟨by decide,
    isConfigSettingCorrect_literal_key "a.b".toList "aXb".toList "1".toList
      (by decide) (by decide) (by decide)⟩

/-- C9, counterexample: with the value `a"b` the one-line document
`SET k "a"b"` is not accepted for its own key and value, because the value
read back stops at the first double quote. -/
theorem isConfigSettingCorrect_quote_in_value :
    isConfigSettingCorrect
      ("SET ".toList ++ "k".toList ++ " \"".toList ++ "a\"b".toList ++ "\"".toList)
      "k".toList "a\"b".toList = false ∧
    "k".toList = "k".toList :=
  ⟨by decide, rfl⟩

/-- C10: on a root without settings file, and with no failing `os` call,
`applyShadowLODSetting` writes a file that holds exactly the line
`SET shadowLOD "0"`; a second call leaves the file as it is; and
`removeShadowLODSetting` then leaves an empty file.  All three calls return no
error. -/
theorem shadowLOD_end_to_end (uni : Char → Bool) (fs : ConfigFs)
    (hroot : fs.turtlewowPath ≠ []) (hnone : fs.config = none)
    (hmk : fs.mkdirFails = false) (hrd : fs.readFails = false) (hwr : fs.writeFails = false) :
    (applyShadowLODSetting uni fs).1 = none ∧
    (applyShadowLODSetting uni fs).2.config = some "SET shadowLOD \"0\"\n".toList ∧
    (applyShadowLODSetting uni (applyShadowLODSetting uni fs).2).1 = none ∧
    (applyShadowLODSetting uni (applyShadowLODSetting uni fs).2).2.config
      = (applyShadowLODSetting uni fs).2.config ∧
    (removeShadowLODSetting uni
      (applyShadowLODSetting uni (applyShadowLODSetting uni fs).2).2).1 = none ∧
    (removeShadowLODSetting uni
      (applyShadowLODSetting uni (applyShadowLODSetting uni fs).2).2).2.config = some [] := by
  have hE : updateOrAddConfigSetting uni [] shadowLOD "0".toList
      = "SET shadowLOD \"0\"\n".toList := rfl
  have hE2 : updateOrAddConfigSetting uni "SET shadowLOD \"0\"\n".toList shadowLOD "0".toList
      = "SET shadowLOD \"0\"\n".toList := rfl
  have hE3 : matchString (matchSettingLineAt shadowLOD) "SET shadowLOD \"0\"\n".toList = true := rfl
  have hE4 : replaceAllString uni (matchSettingLineAt shadowLOD)
      "SET shadowLOD \"0\"\n".toList [] = [] := rfl
  have h1 : ∀ g : ConfigFs, g.turtlewowPath ≠ [] → g.mkdirFails = false → g.writeFails = false →
      g.config = none →
      (applyShadowLODSetting uni g).1 = none ∧
      (applyShadowLODSetting uni g).2.config = some "SET shadowLOD \"0\"\n".toList ∧
      (applyShadowLODSetting uni g).2.turtlewowPath = g.turtlewowPath ∧
      (applyShadowLODSetting uni g).2.mkdirFails = g.mkdirFails ∧
      (applyShadowLODSetting uni g).2.readFails = g.readFails ∧
      (applyShadowLODSetting uni g).2.writeFails = g.writeFails := by
    intro g h1 h2 h3 h4
    simp [applyShadowLODSetting, applySetting, ConfigFs.log, h1, h2, h3, h4]
    rfl
  have h2 : ∀ g : ConfigFs, g.turtlewowPath ≠ [] → g.mkdirFails = false → g.writeFails = false →
      g.readFails = false → g.config = some "SET shadowLOD \"0\"\n".toList →
      (applyShadowLODSetting uni g).1 = none ∧
      (applyShadowLODSetting uni g).2.config = some "SET shadowLOD \"0\"\n".toList ∧
      (applyShadowLODSetting uni g).2.turtlewowPath = g.turtlewowPath ∧
      (applyShadowLODSetting uni g).2.mkdirFails = g.mkdirFails ∧
      (applyShadowLODSetting uni g).2.readFails = g.readFails ∧
      (applyShadowLODSetting uni g).2.writeFails = g.writeFails := by
    intro g h1 h2 h3 h4 h5
    simp [applyShadowLODSetting, applySetting, ConfigFs.log, h1, h2, h3, h4, h5]
    rfl
  have h3 : ∀ g : ConfigFs, g.turtlewowPath ≠ [] → g.writeFails = false →
      g.readFails = false → g.config = some "SET shadowLOD \"0\"\n".toList →
      (removeShadowLODSetting uni g).1 = none ∧
      (removeShadowLODSetting uni g).2.config = some [] := by
    intro g h1 h3 h4 h5
    simp only [removeShadowLODSetting, ConfigFs.log, if_neg h1, h3, h4, h5, hE3, hE4,
      Bool.false_eq_true, if_false, if_true, and_self]
  obtain ⟨a1, a2, a3, a4, a5, a6⟩ := h1 fs hroot hmk hwr hnone
  obtain ⟨b1, b2, b3, b4, b5, b6⟩ := h2 (applyShadowLODSetting uni fs).2
    (by rw [a3]; exact hroot) (by rw [a4]; exact hmk) (by rw [a6]; exact hwr)
    (by rw [a5]; exact hrd) a2
  obtain ⟨c1, c2⟩ := h3 (applyShadowLODSetting uni (applyShadowLODSetting uni fs).2).2
    (by rw [b3, a3]; exact hroot) (by rw [b6, a6]; exact hwr)
    (by rw [b5, a5]; exact hrd) b2
  exact ⟨a1, a2, b1, by rw [b2, a2], c1, c2⟩

/-- C10, witness: the root `/Games/TurtleWoW` with neither the directory `WTF`
nor the settings file. -/
theorem shadowLOD_end_to_end_witness :
    "/Games/TurtleWoW".toList ≠ [] ∧
    (applyShadowLODSetting (fun _ => false)
      { turtlewowPath := "/Games/TurtleWoW".toList, wtfDir := false, config := none,
        mkdirFails := false, readFails := false, writeFails := false }).2.config
      = some "SET shadowLOD \"0\"\n".toList ∧
    (removeShadowLODSetting (fun _ => false)
      (applyShadowLODSetting (fun _ => false)
        (applyShadowLODSetting (fun _ => false)
          { turtlewowPath := "/Games/TurtleWoW".toList, wtfDir := false, config := none,
            mkdirFails := false, readFails := false, writeFails := false }).2).2).2.config
      = some [] := by
  have h := shadowLOD_end_to_end (fun _ => false)
    { turtlewowPath := "/Games/TurtleWoW".toList, wtfDir := false, config := none,
      mkdirFails := false, readFails := false, writeFails := false }
    (by decide) rfl rfl rfl rfl
  exact ⟨by decide, h.2.1, h.2.2.2.2.2⟩

/-- C11, counterexample: in the manifest `libSiliconPatch.dll.bak` no line,
trimmed, equals `libSiliconPatch.dll`, yet `enableLibSiliconPatchInDlls`
takes the entry for present: it returns no error and leaves the file as it
is. -/
theorem enable_present_without_line :
    hasLine libSiliconPatchEntry "libSiliconPatch.dll.bak\n".toList = false ∧
    (enableLibSiliconPatchInDlls
      { freshWorld "/g".toList [] with dlls := some "libSiliconPatch.dll.bak\n".toList }).1 = none ∧
    (enableLibSiliconPatchInDlls
      { freshWorld "/g".toList [] with dlls := some "libSiliconPatch.dll.bak\n".toList }).2.dlls
      = some "libSiliconPatch.dll.bak\n".toList ∧
    (enableLibSiliconPatchInDlls
      { freshWorld "/g".toList [] with dlls := some "libSiliconPatch.dll.bak\n".toList }).2.ops
      = [FileOp.stat Path.dllsTxt, FileOp.readFile Path.dllsTxt] := by
  refine ⟨by decide, by decide, by decide, by decide⟩

/-- C11, amended: the presence test before adding is whether the text of the
entry occurs anywhere in the file.  With the root set and a manifest that
can be read, `enableLibSiliconPatchInDlls` writes the file exactly when
`libSiliconPatch.dll` does not occur in it, and the step of `PatchTurtleWoW`
on `dlls.txt` writes the file exactly when `winerosetta.dll` does not occur
in it or, the library being wanted, `libSiliconPatch.dll` does not; a line
that, trimmed, equals the entry is one way for the entry to occur. -/
theorem presence_test_is_occurrence (w : World) (content : List Char) (should : Bool)
    (hroot : w.turtlewowPath ≠ []) (hdlls : w.dlls = some content)
    (hrd : w.fails (FileOp.readFile Path.dllsTxt) = false) :
    (enableLibSiliconPatchInDlls w).2.ops
      = w.ops ++ [FileOp.stat Path.dllsTxt, FileOp.readFile Path.dllsTxt]
          ++ (if stringsContains content libSiliconPatchEntry then []
              else [FileOp.writeFile Path.dllsTxt])
    ∧ (patchDllsTxt should w).ops
      = w.ops ++ [FileOp.readFile Path.dllsTxt]
          ++ (if stringsContains content winerosettaEntry
                && (!should || stringsContains content libSiliconPatchEntry) then []
              else [FileOp.stat Path.dllsTxt, FileOp.readFile Path.dllsTxt,
                    FileOp.writeFile Path.dllsTxt])
    ∧ (∀ entry, hasLine entry content = true → stringsContains content entry = true) := by
  refine ⟨?_, ?_, fun entry h => stringsContains_of_hasLine entry content h⟩
  · unfold enableLibSiliconPatchInDlls
    simp only [if_neg hroot, World.log, hdlls, hrd, Bool.false_eq_true, if_false]
    by_cases hc : stringsContains content libSiliconPatchEntry = true
    · simp [hc]
    · simp only [hc, if_false]
      split_ifs <;> simp
  · unfold patchDllsTxt
    simp only [World.log, hdlls, hrd, Bool.false_eq_true, if_false]
    by_cases hw : stringsContains content winerosettaEntry = true
      <;> by_cases hl : stringsContains content libSiliconPatchEntry = true
      <;> cases should
      <;> simp [hw, hl, World.showError]
      <;> split_ifs <;> simp

/-- C11, witness: a manifest that holds `winerosetta.dll` only. -/
theorem presence_test_is_occurrence_witness :
    (enableLibSiliconPatchInDlls
      { freshWorld "/g".toList [] with dlls := some "winerosetta.dll\n".toList }).2.ops
      = [] ++ [FileOp.stat Path.dllsTxt, FileOp.readFile Path.dllsTxt]
          ++ (if stringsContains "winerosetta.dll\n".toList libSiliconPatchEntry then []
              else [FileOp.writeFile Path.dllsTxt]) :=
  (presence_test_is_occurrence
    { freshWorld "/g".toList [] with dlls := some "winerosetta.dll\n".toList }
    "winerosetta.dll\n".toList true (by decide) rfl rfl).1

/-- C12, counterexample: in the manifest `# libSiliconPatch.dll` no line,
trimmed, equals the entry, so the entry is absent as a line, yet
`enableLibSiliconPatchInDlls` appends nothing. -/
theorem enable_skips_commented_entry :
    hasLine libSiliconPatchEntry "# libSiliconPatch.dll\n".toList = false ∧
    (enableLibSiliconPatchInDlls
      { freshWorld "/g".toList [] with dlls := some "# libSiliconPatch.dll\n".toList }).2.dlls
      = some "# libSiliconPatch.dll\n".toList ∧
    "# libSiliconPatch.dll\n".toList
      ≠ appendEntry "# libSiliconPatch.dll\n".toList libSiliconPatchEntry := by
  refine ⟨by decide, by decide, by decide⟩

/-- C12, amended: with the root set and no failing call on `dlls.txt`,
`enableLibSiliconPatchInDlls` returns no error and: a missing manifest is
created holding exactly the entry line; a manifest in which the text
`libSiliconPatch.dll` does not occur becomes the old content, a line feed
when the old content is not empty and does not end in one, the entry and a
line feed, so the lines before the entry are the old lines; a manifest in
which the text occurs is not written. -/
theorem enable_appends_one_line (w : World) (hroot : w.turtlewowPath ≠ [])
    (hrd : w.fails (FileOp.readFile Path.dllsTxt) = false)
    (hwr : w.fails (FileOp.writeFile Path.dllsTxt) = false) :
    (w.dlls = none →
      (enableLibSiliconPatchInDlls w).1 = none
      ∧ (enableLibSiliconPatchInDlls w).2.dlls = some (libSiliconPatchEntry ++ ['\n']))
    ∧ (∀ content, w.dlls = some content →
        stringsContains content libSiliconPatchEntry = false →
        (enableLibSiliconPatchInDlls w).1 = none
        ∧ (enableLibSiliconPatchInDlls w).2.dlls
            = some (withNewline content ++ libSiliconPatchEntry ++ ['\n'])
        ∧ stringsSplit (withNewline content ++ libSiliconPatchEntry ++ ['\n'])
            = (stringsSplit (withNewline content)).dropLast ++ [libSiliconPatchEntry, []])
    ∧ (∀ content, w.dlls = some content →
        stringsContains content libSiliconPatchEntry = true →
        (enableLibSiliconPatchInDlls w).1 = none
        ∧ (enableLibSiliconPatchInDlls w).2.dlls = some content
        ∧ (enableLibSiliconPatchInDlls w).2.ops
            = w.ops ++ [FileOp.stat Path.dllsTxt, FileOp.readFile Path.dllsTxt]) := by
  have hnl : '\n' ∉ libSiliconPatchEntry := by decide
  refine ⟨?_, ?_, ?_⟩
  · intro hd
    unfold enableLibSiliconPatchInDlls
    simp only [if_neg hroot, World.log, hd, hwr, Bool.false_eq_true, if_false]
    have hc : stringsContains [] libSiliconPatchEntry = false := by decide
    simp only [hc, Bool.false_eq_true, if_false, true_and]
    rfl
  · intro content hd habs
    refine ⟨?_, ?_, ?_⟩
    · unfold enableLibSiliconPatchInDlls
      simp [if_neg hroot, World.log, hd, hrd, hwr, habs]
    · unfold enableLibSiliconPatchInDlls
      simp [if_neg hroot, World.log, hd, hrd, hwr, habs, appendEntry_eq]
    · rcases withNewline_cases content with h0 | ⟨t, ht, _⟩
      · rw [h0, List.nil_append,
          show libSiliconPatchEntry ++ ['\n'] = libSiliconPatchEntry ++ '\n' :: [] from rfl,
          stringsSplit_append_nl, stringsSplit_of_no_nl _ hnl]
        rfl
      · rw [ht, show t ++ ['\n'] ++ libSiliconPatchEntry ++ ['\n']
            = t ++ '\n' :: (libSiliconPatchEntry ++ '\n' :: []) by simp,
          stringsSplit_append_nl, stringsSplit_append_nl, stringsSplit_of_no_nl _ hnl,
          show t ++ ['\n'] = t ++ '\n' :: [] from rfl, stringsSplit_append_nl]
        simp [stringsSplit]
  · intro content hd hpres
    unfold enableLibSiliconPatchInDlls
    simp [if_neg hroot, World.log, hd, hrd, hpres]

/-- C12, witness: a manifest that holds `winerosetta.dll` without a final
line feed. -/
theorem enable_appends_one_line_witness :
    (enableLibSiliconPatchInDlls
      { freshWorld "/g".toList [] with dlls := some "winerosetta.dll".toList }).2.dlls
      = some (withNewline "winerosetta.dll".toList ++ libSiliconPatchEntry ++ ['\n']) :=
  ((enable_appends_one_line
    { freshWorld "/g".toList [] with dlls := some "winerosetta.dll".toList }
    (by decide) rfl rfl).2.1 "winerosetta.dll".toList rfl (by decide)).2.1

/-- C13: with the root set and no failing call on `dlls.txt`, the removal
functions write the lines of the manifest, in their order, without the lines
whose trimmed text is a removed entry: `libSiliconPatch.dll` for
`disableLibSiliconPatchInDlls`, and `winerosetta.dll` and
`libSiliconPatch.dll` for `UnpatchTurtleWoW`; afterwards no line, trimmed,
equals a removed entry; and a missing manifest stays missing, without an
error. -/
theorem removal_filters_lines (uni : Char → Bool) (w : World) (hroot : w.turtlewowPath ≠ [])
    (hrd : w.fails (FileOp.readFile Path.dllsTxt) = false)
    (hwr : w.fails (FileOp.writeFile Path.dllsTxt) = false) :
    (w.dlls = none →
      disableLibSiliconPatchInDlls w = (none, w.log (FileOp.stat Path.dllsTxt))
      ∧ (w.log (FileOp.stat Path.dllsTxt)).dlls = none
      ∧ (UnpatchTurtleWoW uni w).dlls = none)
    ∧ (∀ content, w.dlls = some content →
        (disableLibSiliconPatchInDlls w).1 = none
        ∧ (disableLibSiliconPatchInDlls w).2.dlls
            = some (stringsJoin ((stringsSplit content).filter
                (fun line => stringsTrimSpace line != libSiliconPatchEntry)))
        ∧ hasLine libSiliconPatchEntry
            (stringsJoin ((stringsSplit content).filter
                (fun line => stringsTrimSpace line != libSiliconPatchEntry))) = false
        ∧ (UnpatchTurtleWoW uni w).dlls
            = some (stringsJoin ((stringsSplit content).filter
                (fun line => stringsTrimSpace line != winerosettaEntry
                  && stringsTrimSpace line != libSiliconPatchEntry)))
        ∧ hasLine winerosettaEntry
            (stringsJoin ((stringsSplit content).filter
                (fun line => stringsTrimSpace line != winerosettaEntry
                  && stringsTrimSpace line != libSiliconPatchEntry))) = false
        ∧ hasLine libSiliconPatchEntry
            (stringsJoin ((stringsSplit content).filter
                (fun line => stringsTrimSpace line != winerosettaEntry
                  && stringsTrimSpace line != libSiliconPatchEntry))) = false) := by
  have e1 : ∀ content, stringsJoin ((stringsSplit content).filter
      (fun line => stringsTrimSpace line != libSiliconPatchEntry))
      = removeEntries [libSiliconPatchEntry] content := by
    intro content
    unfold removeEntries
    congr 2
    funext line
    by_cases h : stringsTrimSpace line = libSiliconPatchEntry <;> simp [h]
  have e2 : ∀ content, stringsJoin ((stringsSplit content).filter
      (fun line => stringsTrimSpace line != winerosettaEntry
        && stringsTrimSpace line != libSiliconPatchEntry))
      = removeEntries [winerosettaEntry, libSiliconPatchEntry] content := by
    intro content
    unfold removeEntries
    congr 2
    funext line
    by_cases h : stringsTrimSpace line = libSiliconPatchEntry
      <;> by_cases h2 : stringsTrimSpace line = winerosettaEntry <;> simp [h, h2]
  have hl : libSiliconPatchEntry ≠ [] := by decide
  have hw : winerosettaEntry ≠ [] := by decide
  refine ⟨?_, ?_⟩
  · intro hd
    refine ⟨?_, ?_, ?_⟩
    · unfold disableLibSiliconPatchInDlls
      simp [if_neg hroot, World.log, hd]
    · simp [World.log, hd]
    · rw [UnpatchTurtleWoW_dlls uni w hroot, hd]
  · intro content hd
    rw [e1, e2, UnpatchTurtleWoW_dlls uni w hroot, hd]
    refine ⟨?_, ?_, hasLine_removeEntries _ _ _ (by simp) hl, ?_,
      hasLine_removeEntries _ _ _ (by simp) hw, hasLine_removeEntries _ _ _ (by simp) hl⟩
    · unfold disableLibSiliconPatchInDlls
      simp [if_neg hroot, World.log, hd, hrd, hwr]
    · unfold disableLibSiliconPatchInDlls
      simp [if_neg hroot, World.log, hd, hrd, hwr]
    · simp [hrd, hwr]

/-- C13, witness: a manifest with both entries around another line. -/
theorem removal_filters_lines_witness :
    (disableLibSiliconPatchInDlls
      { freshWorld "/g".toList [] with
        dlls := some "winerosetta.dll\n libSiliconPatch.dll \nother.dll\n".toList }).2.dlls
      = some (stringsJoin ((stringsSplit
          "winerosetta.dll\n libSiliconPatch.dll \nother.dll\n".toList).filter
          (fun line => stringsTrimSpace line != libSiliconPatchEntry))) :=
  ((removal_filters_lines (fun _ => false)
    { freshWorld "/g".toList [] with
      dlls := some "winerosetta.dll\n libSiliconPatch.dll \nother.dll\n".toList }
    (by decide) rfl rfl).2 _ rfl).2.1

/-- C14, counterexample: from the manifest that holds the line
`libSiliconPatch.dll`, enabling changes nothing and disabling removes the
line, so the file ends empty. -/
theorem round_trip_loses_present_entry :
    (disableLibSiliconPatchInDlls
      (enableLibSiliconPatchInDlls
        { freshWorld "/g".toList [] with dlls := some "libSiliconPatch.dll\n".toList }).2).2.dlls
      = some [] ∧
    withNewline [] ≠ withNewline "libSiliconPatch.dll\n".toList := by
  refine ⟨by decide, by decide⟩

/-- C14, amended: with the root set and no failing call on `dlls.txt`, for
every manifest content in which the text `libSiliconPatch.dll` does not
occur, `enableLibSiliconPatchInDlls` followed by
`disableLibSiliconPatchInDlls` leaves the content with a line feed added when
it is not empty and does not end in one; from a missing manifest they leave
an empty file. -/
theorem enable_disable_round_trip (w : World) (hroot : w.turtlewowPath ≠ [])
    (hrd : w.fails (FileOp.readFile Path.dllsTxt) = false)
    (hwr : w.fails (FileOp.writeFile Path.dllsTxt) = false) :
    (∀ content, w.dlls = some content →
      stringsContains content libSiliconPatchEntry = false →
      (disableLibSiliconPatchInDlls (enableLibSiliconPatchInDlls w).2).2.dlls
        = some (withNewline content))
    ∧ (w.dlls = none →
      (disableLibSiliconPatchInDlls (enableLibSiliconPatchInDlls w).2).2.dlls = some []) := by
  have hnl : '\n' ∉ libSiliconPatchEntry := by decide
  have htrim : stringsTrimSpace libSiliconPatchEntry = libSiliconPatchEntry := by decide
  have hne : libSiliconPatchEntry ≠ [] := by decide
  constructor
  · intro content hd habs
    have h1 : enableLibSiliconPatchInDlls w
        = (none, { w with
            ops := w.ops ++ [FileOp.stat Path.dllsTxt, FileOp.readFile Path.dllsTxt,
              FileOp.writeFile Path.dllsTxt],
            dlls := some (appendEntry content libSiliconPatchEntry) }) := by
      unfold enableLibSiliconPatchInDlls
      simp [if_neg hroot, World.log, hd, hrd, hwr, habs]
    rw [h1]
    unfold disableLibSiliconPatchInDlls
    simp only [if_neg hroot, World.log, hrd, hwr, Bool.false_eq_true, if_false]
    rw [removeEntries_appendEntry content _ habs hnl htrim hne]
  · intro hd
    have h1 : enableLibSiliconPatchInDlls w
        = (none, { w with
            ops := w.ops ++ [FileOp.stat Path.dllsTxt, FileOp.writeFile Path.dllsTxt],
            dlls := some (appendEntry [] libSiliconPatchEntry) }) := by
      unfold enableLibSiliconPatchInDlls
      have hc : stringsContains [] libSiliconPatchEntry = false := by decide
      simp [if_neg hroot, World.log, hd, hwr, hc]
    rw [h1]
    unfold disableLibSiliconPatchInDlls
    simp only [if_neg hroot, World.log, hrd, hwr, Bool.false_eq_true, if_false]
    rw [removeEntries_appendEntry [] _ (by decide) hnl htrim hne]
    rfl

/-- C14, witness: a manifest that holds `winerosetta.dll` without a final
line feed ends with the line feed added. -/
theorem enable_disable_round_trip_witness :
    (disableLibSiliconPatchInDlls
      (enableLibSiliconPatchInDlls
        { freshWorld "/g".toList [] with dlls := some "winerosetta.dll".toList }).2).2.dlls
      = some (withNewline "winerosetta.dll".toList) :=
  (enable_disable_round_trip
    { freshWorld "/g".toList [] with dlls := some "winerosetta.dll".toList }
    (by decide) rfl rfl).1 "winerosetta.dll".toList rfl (by decide)

/-- C15: with the root set, no failing call and every resource bundled,
when `UserDisabledLibSiliconPatch` is set the manifest `PatchTurtleWoW`
leaves, whatever `dlls.txt` held or whether it existed, has no line whose
trimmed text is `libSiliconPatch.dll`, and it has a line whose trimmed text is
`winerosetta.dll` exactly when the manifest left from the same world without
the opt-out has one. -/
theorem optout_keeps_library_out (uni : Char → Bool) (order rorder : List Path) (w : World)
    (hroot : w.turtlewowPath ≠ []) (hfails : ∀ op, w.fails op = false)
    (hres : ∀ p, w.resource p ≠ none) (hopt : w.prefs.userDisabledLibSiliconPatch = true) :
    ∃ content content2,
      (PatchTurtleWoW uni order rorder w).dlls = some content
      ∧ (PatchTurtleWoW uni order rorder
          { w with prefs := { w.prefs with userDisabledLibSiliconPatch := false } }).dlls
          = some content2
      ∧ hasLine libSiliconPatchEntry content = false
      ∧ hasLine winerosettaEntry content = hasLine winerosettaEntry content2 := by
  have hl : libSiliconPatchEntry ≠ [] := by decide
  have hw : winerosettaEntry ≠ [] := by decide
  have hwl : winerosettaEntry ≠ libSiliconPatchEntry := by decide
  refine ⟨removeEntries [libSiliconPatchEntry] (patchedManifest false w.dlls),
    patchedManifest true w.dlls, ?_, ?_, ?_, ?_⟩
  · rw [PatchTurtleWoW_dlls uni order rorder w hroot hfails hres, if_pos hopt]
  · have h2 := PatchTurtleWoW_dlls uni order rorder
      { w with prefs := { w.prefs with userDisabledLibSiliconPatch := false } }
      hroot hfails hres
    rw [h2]
    simp
  · exact hasLine_removeEntries _ _ _ (by simp) hl
  · rw [hasLine_removeEntries_other _ _ _ hw hwl, hasLine_winerosetta_patchedManifest true]

/-- C15, witness: a fresh game folder whose manifest holds the library and
whose user opted out. -/
theorem optout_keeps_library_out_witness :
    ∃ content content2,
      (PatchTurtleWoW (fun _ => false)
        [Path.winerosettaDll, Path.d3d9Dll, Path.libSiliconPatchDll]
        [Path.rosettax87, Path.libRuntimeRosettax87]
        { freshWorld "/g".toList [] with
          dlls := some "libSiliconPatch.dll\n".toList,
          prefs := { userDisabledLibSiliconPatch := true, userDisabledShadowLOD := false,
                     enableLibSiliconPatch := false, setShadowLOD0 := false } }).dlls
        = some content
      ∧ (PatchTurtleWoW (fun _ => false)
        [Path.winerosettaDll, Path.d3d9Dll, Path.libSiliconPatchDll]
        [Path.rosettax87, Path.libRuntimeRosettax87]
        { freshWorld "/g".toList [] with
          dlls := some "libSiliconPatch.dll\n".toList,
          prefs := { userDisabledLibSiliconPatch := false, userDisabledShadowLOD := false,
                     enableLibSiliconPatch := false, setShadowLOD0 := false } }).dlls
        = some content2
      ∧ hasLine libSiliconPatchEntry content = false
      ∧ hasLine winerosettaEntry content = hasLine winerosettaEntry content2 :=
  optout_keeps_library_out (fun _ => false)
    [Path.winerosettaDll, Path.d3d9Dll, Path.libSiliconPatchDll]
    [Path.rosettax87, Path.libRuntimeRosettax87]
    { freshWorld "/g".toList [] with
      dlls := some "libSiliconPatch.dll\n".toList,
      prefs := { userDisabledLibSiliconPatch := true, userDisabledShadowLOD := false,
                 enableLibSiliconPatch := false, setShadowLOD0 := false } }
    (by decide) (fun _ => rfl) (fun _ => by simp [freshWorld]) rfl

/-- C16, counterexample: with `SetShadowLOD0` set and a settings file whose
directive for `shadowLOD` is not closed on its line, `UnpatchTurtleWoW` also
deletes the beginning of the directive for `farclip` on the next line, which
`isConfigSettingCorrect` read before and does not read after. -/
theorem unpatch_breaks_next_directive :
    isConfigSettingCorrect "SET shadowLOD \"\nSET farclip \"177\"\n".toList
      farclip "177".toList = true ∧
    (∀ uni, (UnpatchTurtleWoW uni
      { freshWorld "/g".toList [] with
        config := some "SET shadowLOD \"\nSET farclip \"177\"\n".toList,
        prefs := { userDisabledLibSiliconPatch := false, userDisabledShadowLOD := false,
                   enableLibSiliconPatch := true, setShadowLOD0 := true } }).config
      = some "177\"\n".toList) ∧
    isConfigSettingCorrect "177\"\n".toList farclip "177".toList = false :=
  ⟨by decide, fun _ => rfl, by decide⟩

/-- C16, amended: `UnpatchTurtleWoW` leaves the settings file as it is when
`SetShadowLOD0` is false, and leaves a missing settings file missing; when
`SetShadowLOD0` is true, the file can be read and written and it is a tidy
settings file, the file afterwards holds the lines that are not a directive
for `shadowLOD`, so the directive lines for every other key without white
space or double quote are the same as before. -/
theorem unpatch_removes_only_shadowLOD (uni : Char → Bool) (w : World)
    (hroot : w.turtlewowPath ≠ []) :
    (w.prefs.setShadowLOD0 = false → (UnpatchTurtleWoW uni w).config = w.config)
    ∧ (w.config = none → (UnpatchTurtleWoW uni w).config = none)
    ∧ (∀ ls, w.prefs.setShadowLOD0 = true → w.readFails = false → w.writeFails = false →
        tidyDoc ls = true → w.config = some (unlines ls) →
        (UnpatchTurtleWoW uni w).config = some (unlines (removeLines shadowLOD ls))
        ∧ ∀ k2, (∀ c ∈ k2, isSpace c = false ∧ c ≠ dq) → k2 ≠ shadowLOD →
            settingLines k2 (removeLines shadowLOD ls) = settingLines k2 ls) := by
  have hk : ∀ c ∈ shadowLOD, isSpace c = false ∧ c ≠ dq := by decide
  obtain ⟨fs, f1, f2, f3, f4, hcfg⟩ := UnpatchTurtleWoW_config uni w hroot
  refine ⟨?_, ?_, ?_⟩
  · intro hp
    rw [hcfg, hp]
    rfl
  · intro hn
    rw [hcfg]
    split_ifs
    · exact removeShadowLODSetting_config_none uni fs (f1.trans hn)
    · exact hn
  · intro ls hp hrd hwr ht hc
    constructor
    · rw [hcfg, if_pos hp, removeShadowLODSetting_config uni fs (f2 ▸ hroot) (f3.trans hrd)
        (f4.trans hwr), f1, hc, Option.map_some', remove_tidy uni hk ht]
    · intro k2 hk2 hne
      exact settingLines_removeLines_other ls hk hk2 (Ne.symm hne)

/-- C16, witness: a tidy settings file with the directives for `shadowLOD`
and `farclip`. -/
theorem unpatch_removes_only_shadowLOD_witness :
    (UnpatchTurtleWoW (fun _ => false)
      { freshWorld "/g".toList [] with
        config := some (unlines ["SET shadowLOD \"0\"".toList, "SET farclip \"177\"".toList]),
        prefs := { userDisabledLibSiliconPatch := false, userDisabledShadowLOD := false,
                   enableLibSiliconPatch := true, setShadowLOD0 := true } }).config
      = some (unlines (removeLines shadowLOD
          ["SET shadowLOD \"0\"".toList, "SET farclip \"177\"".toList])) :=
  ((unpatch_removes_only_shadowLOD (fun _ => false)
    { freshWorld "/g".toList [] with
      config := some (unlines ["SET shadowLOD \"0\"".toList, "SET farclip \"177\"".toList]),
      prefs := { userDisabledLibSiliconPatch := false, userDisabledShadowLOD := false,
                 enableLibSiliconPatch := true, setShadowLOD0 := true } }
    (by decide)).2.2 _ rfl rfl rfl (by decide) rfl).1

/-- C17, counterexample: with every toggle off and no settings file, none of
the three toggles is reported correct. -/
theorem CheckGraphicsSettings_missing_file :
    (({ gamePath := "/g".toList,
        settings := { reduceTerrainDistance := false, setMultisampleTo2x := false,
                      setShadowLOD0 := false, enableLibSiliconPatch := false,
                      userDisabledShadowLOD := false, userDisabledLibSiliconPatch := false } }
        : GameVersion).settings.reduceTerrainDistance = false) ∧
    CheckGraphicsSettings
      (some { gamePath := "/g".toList,
              settings := { reduceTerrainDistance := false, setMultisampleTo2x := false,
                            setShadowLOD0 := false, enableLibSiliconPatch := false,
                            userDisabledShadowLOD := false,
                            userDisabledLibSiliconPatch := false } })
      none false = (false, false, false) :=
  ⟨rfl, rfl⟩

/-- C17, amended: when the game path is set and the settings file exists and
can be read, a toggle that is off is reported correct whatever the file
holds, and a toggle that is on is reported correct exactly when
`isConfigSettingCorrect` holds for its key and value (`farclip` and `177`,
`gxMultisample` and `2`, `shadowLOD` and `0`); when the settings file does not
exist or cannot be read, all three are reported as not correct. -/
theorem CheckGraphicsSettings_spec (v : GameVersion) (content : List Char)
    (hpath : v.gamePath ≠ []) :
    ((CheckGraphicsSettings (some v) (some content) false).1
        = (!v.settings.reduceTerrainDistance || isConfigSettingCorrect content farclip "177".toList))
    ∧ ((CheckGraphicsSettings (some v) (some content) false).2.1
        = (!v.settings.setMultisampleTo2x
            || isConfigSettingCorrect content gxMultisample "2".toList))
    ∧ ((CheckGraphicsSettings (some v) (some content) false).2.2
        = (!v.settings.setShadowLOD0 || isConfigSettingCorrect content shadowLOD "0".toList))
    ∧ (∀ readFails, CheckGraphicsSettings (some v) none readFails = (false, false, false))
    ∧ CheckGraphicsSettings (some v) (some content) true = (false, false, false) := by
  simp [CheckGraphicsSettings, hpath]

/-- C17, witness: the terrain toggle on, the other two off, and a settings
file that holds the directive for `farclip`. -/
theorem CheckGraphicsSettings_spec_witness :
    "/g".toList ≠ [] ∧
    (CheckGraphicsSettings
      (some { gamePath := "/g".toList,
              settings := { reduceTerrainDistance := true, setMultisampleTo2x := false,
                            setShadowLOD0 := false, enableLibSiliconPatch := false,
                            userDisabledShadowLOD := false,
                            userDisabledLibSiliconPatch := false } })
      (some "SET farclip \"177\"\n".toList) false).1
      = (!true || isConfigSettingCorrect "SET farclip \"177\"\n".toList farclip "177".toList) :=
  ⟨by decide,
   (CheckGraphicsSettings_spec
    { gamePath := "/g".toList,
      settings := { reduceTerrainDistance := true, setMultisampleTo2x := false,
                    setShadowLOD0 := false, enableLibSiliconPatch := false,
                    userDisabledShadowLOD := false, userDisabledLibSiliconPatch := false } }
    "SET farclip \"177\"\n".toList (by decide)).1⟩

/-- C18: the flag after `updateCrossoverStatus` is true exactly when the path
is set and either `wineloader2` exists or the flag was true before, and the
label follows the flag: with the path set, `wineloader2` missing and the flag
true before the call, the flag stays true and the label reads `Patched`. -/
theorem updateCrossoverStatus_keeps_cached_flag :
    (∀ (crossoverPath : List Char) (flag wineloader2Exists : Bool),
      (updateCrossoverStatus crossoverPath flag wineloader2Exists).1
          = (!crossoverPath.isEmpty && (wineloader2Exists || flag))
      ∧ (updateCrossoverStatus crossoverPath flag wineloader2Exists).2.patched
          = (updateCrossoverStatus crossoverPath flag wineloader2Exists).1)
    ∧ (updateCrossoverStatus "/Applications/CrossOver.app".toList true false).1 = true
    ∧ (updateCrossoverStatus "/Applications/CrossOver.app".toList true false).2.patched = true := by
  refine ⟨?_, by decide, by decide⟩
  intro p flag e
  cases p <;> cases flag <;> cases e <;> simp [updateCrossoverStatus]

/-- C19: whenever the running flag is true, `runGameIntegrated` returns the
error `game is already running`, spawns no process, and leaves the flag and
the handle as they were, whatever would have happened to the command. -/
theorem runGameIntegrated_already_running (cmd : Nat) (o : SpawnOutcome) (s : Supervisor)
    (h : s.isGameRunning = true) :
    runGameIntegrated cmd o s
      = { err := some LaunchError.alreadyRunning, sup := s, spawned := false } := by
  simp [runGameIntegrated, h]

/-- C19, at a running supervisor holding the handle of command 7. -/
theorem runGameIntegrated_already_running_witness :
    runGameIntegrated 8 SpawnOutcome.started { isGameRunning := true, currentGameProcess := some 7 }
      = { err := some LaunchError.alreadyRunning,
          sup := { isGameRunning := true, currentGameProcess := some 7 }, spawned := false } :=
  runGameIntegrated_already_running 8 SpawnOutcome.started
    { isGameRunning := true, currentGameProcess := some 7 } rfl

/-- C20: from the idle state with no handle, a failure of either pipe call
returns the error with the flag false and the handle still `nil`, but a
failure of `cmd.Start` returns with the flag false and the handle set to the
command that was never started, because the handle is assigned before
`cmd.Start` is called and is not cleared when it fails. -/
theorem runGameIntegrated_start_failure_keeps_handle (cmd : Nat) :
    runGameIntegrated cmd SpawnOutcome.stdoutPipeFails
        { isGameRunning := false, currentGameProcess := none }
      = { err := some LaunchError.stdoutPipe,
          sup := { isGameRunning := false, currentGameProcess := none }, spawned := false }
    ∧ runGameIntegrated cmd SpawnOutcome.stderrPipeFails
        { isGameRunning := false, currentGameProcess := none }
      = { err := some LaunchError.stderrPipe,
          sup := { isGameRunning := false, currentGameProcess := none }, spawned := false }
    ∧ runGameIntegrated cmd SpawnOutcome.startFails
        { isGameRunning := false, currentGameProcess := none }
      = { err := some LaunchError.start,
          sup := { isGameRunning := false, currentGameProcess := some cmd }, spawned := false }
    ∧ (runGameIntegrated cmd SpawnOutcome.startFails
        { isGameRunning := false, currentGameProcess := none }).sup.currentGameProcess ≠ none :=
  ⟨rfl, rfl, rfl, by simp [runGameIntegrated]⟩

/-- C21: `StopGame` returns the error `no game process is running` exactly
when the flag is false or there is no handle, and then sends no signal;
otherwise it sends the interrupt first, sends the kill only when sending the
interrupt failed, and then returns what the kill returned; in every case the
flag and the handle are as before. -/
theorem StopGame_spec (signalFails killFails : Bool) (s : Supervisor) :
    ((StopGame signalFails killFails s).err = some StopError.notRunning
        ↔ (s.isGameRunning = false ∨ s.currentGameProcess = none))
    ∧ ((s.isGameRunning = false ∨ s.currentGameProcess = none)
        → (StopGame signalFails killFails s).sent = [])
    ∧ (¬ (s.isGameRunning = false ∨ s.currentGameProcess = none)
        → (StopGame signalFails killFails s).sent
            = (if signalFails then [Signal.interrupt, Signal.kill] else [Signal.interrupt])
          ∧ (StopGame signalFails killFails s).err
            = (if signalFails && killFails then some StopError.killFailed else none))
    ∧ (StopGame signalFails killFails s).sup = s := by
  obtain ⟨r, h⟩ := s
  cases r <;> cases h <;> cases signalFails <;> cases killFails <;> simp [StopGame]

/-- C22: in every state the supervisor reaches there is at most one child
that was spawned and not yet cleared by its waiter, the running flag is true
exactly when there is one, and a call of `runGameIntegrated` spawns a child
only when there is none. -/
theorem at_most_one_child (σ : Sys) (h : Reachable σ) :
    σ.live.length ≤ 1
    ∧ (σ.sup.isGameRunning = true ↔ σ.live.length = 1)
    ∧ ∀ (cmd : Nat) (o : SpawnOutcome),
        (runGameIntegrated cmd o σ.sup).spawned = true → σ.live = [] := by
  obtain ⟨hlen, hrun⟩ := reachable_invariant σ h
  refine ⟨hlen, ?_, ?_⟩
  · rw [hrun]
    constructor
    · intro hne
      have : σ.live.length ≠ 0 := by simpa using hne
      omega
    · intro h1 hnil
      simp [hnil] at h1
  · intro cmd o hsp
    by_contra hne
    have hr : σ.sup.isGameRunning = true := hrun.mpr hne
    simp [runGameIntegrated, hr] at hsp

/-- C22, at the state after the first successful spawn. -/
theorem at_most_one_child_witness :
    Reachable { sup := { isGameRunning := true, currentGameProcess := some 1 }, live := [1] }
    ∧ ([1] : List Nat).length ≤ 1
    ∧ ((true = true) ↔ ([1] : List Nat).length = 1) :=
  have hr : Reachable
      { sup := { isGameRunning := true, currentGameProcess := some 1 }, live := [1] } :=
    Reachable.step _ _ Reachable.init
      (Step.start { sup := { isGameRunning := false, currentGameProcess := none }, live := [] }
        1 SpawnOutcome.started)
  ⟨hr, (at_most_one_child _ hr).1, (at_most_one_child _ hr).2.1⟩

/-- C23: with an empty game path, `PatchTurtleWoW` and `UnpatchTurtleWoW`
show the error dialog and change nothing else in the world, so no call
touches the file system and no flag changes, and `applyShadowLODSetting`,
`removeShadowLODSetting`, `applyVertexAnimShadersSetting`,
`enableLibSiliconPatchInDlls` and `disableLibSiliconPatchInDlls` return the
error with the world as it was; with an empty CrossOver path the same holds
for `PatchCrossOver` and `UnpatchCrossOver`; and
`ApplyGraphicsSettingsForVersion` with an empty game path returns the error
with the world as it was. -/
theorem empty_root_is_fatal (uni : Char → Bool) (w : World) :
    (w.turtlewowPath = [] →
      (∀ order rorder, PatchTurtleWoW uni order rorder w = w.showError)
      ∧ UnpatchTurtleWoW uni w = w.showError
      ∧ applyShadowLODSetting uni w.toConfigFs = (some ConfigError.pathNotSet, w.toConfigFs)
      ∧ removeShadowLODSetting uni w.toConfigFs = (some ConfigError.pathNotSet, w.toConfigFs)
      ∧ applyVertexAnimShadersSetting uni w.toConfigFs
          = (some ConfigError.pathNotSet, w.toConfigFs)
      ∧ enableLibSiliconPatchInDlls w = (some DllsError.pathNotSet, w)
      ∧ disableLibSiliconPatchInDlls w = (some DllsError.pathNotSet, w))
    ∧ (w.crossoverPath = [] →
      PatchCrossOver w = w.showError ∧ UnpatchCrossOver w = w.showError)
    ∧ (∀ r m s e, ApplyGraphicsSettingsForVersion uni [] r m s e w
        = (some ConfigError.pathNotSet, w))
    ∧ w.showError.ops = w.ops
    ∧ w.showError.patchesAppliedTurtleWoW = w.patchesAppliedTurtleWoW
    ∧ w.showError.patchesAppliedCrossOver = w.patchesAppliedCrossOver
    ∧ w.showError.dialogs = w.dialogs ++ [Dialog.error] := by
  refine ⟨?_, ?_, ?_, rfl, rfl, rfl, rfl⟩
  · intro h
    refine ⟨?_, ?_, ?_, ?_, ?_, ?_, ?_⟩
    · intro order rorder
      simp [PatchTurtleWoW, h]
    · simp [UnpatchTurtleWoW, h]
    · simp [applyShadowLODSetting, applySetting, h]
    · simp [removeShadowLODSetting, h]
    · simp [applyVertexAnimShadersSetting, applySetting, h]
    · simp [enableLibSiliconPatchInDlls, h]
    · simp [disableLibSiliconPatchInDlls, h]
  · intro h
    exact ⟨by simp [PatchCrossOver, h], by simp [UnpatchCrossOver, h]⟩
  · intro r m s e
    simp [ApplyGraphicsSettingsForVersion]

/-- C23, at a world with neither path set: the four buttons only show the
error dialog. -/
theorem empty_root_is_fatal_witness :
    (freshWorld [] []).turtlewowPath = [] ∧ (freshWorld [] []).crossoverPath = [] ∧
    UnpatchTurtleWoW (fun _ => false) (freshWorld [] []) = (freshWorld [] []).showError ∧
    PatchCrossOver (freshWorld [] []) = (freshWorld [] []).showError :=
  ⟨rfl, rfl, ((empty_root_is_fatal (fun _ => false) (freshWorld [] [])).1 rfl).2.1,
   ((empty_root_is_fatal (fun _ => false) (freshWorld [] [])).2.1 rfl).1⟩

/-- C24, counterexample: a second `PatchTurtleWoW` right after a first one
that reported success on a fresh game folder removes and creates the
directory `rosettax87` again, which is a write; with no letter or digit above
ASCII its writes are the removal and creation of the directory, the two files
in it, and `Config.wtf` twice. -/
theorem second_patch_writes_again :
    FileOp.isWrite (FileOp.removeAll Path.rosettaDir) = true
    ∧ (∀ uni,
      (PatchTurtleWoW uni [Path.winerosettaDll, Path.d3d9Dll, Path.libSiliconPatchDll]
          [Path.rosettax87, Path.libRuntimeRosettax87] (freshWorld "/g".toList [])).dialogs
        = [Dialog.success]
      ∧ ∃ a b,
        (PatchTurtleWoW uni [Path.winerosettaDll, Path.d3d9Dll, Path.libSiliconPatchDll]
          [Path.rosettax87, Path.libRuntimeRosettax87]
          (PatchTurtleWoW uni [Path.winerosettaDll, Path.d3d9Dll, Path.libSiliconPatchDll]
            [Path.rosettax87, Path.libRuntimeRosettax87] (freshWorld "/g".toList []))).ops
        = (PatchTurtleWoW uni [Path.winerosettaDll, Path.d3d9Dll, Path.libSiliconPatchDll]
            [Path.rosettax87, Path.libRuntimeRosettax87] (freshWorld "/g".toList [])).ops
          ++ a ++ [FileOp.removeAll Path.rosettaDir, FileOp.mkdirAll Path.rosettaDir] ++ b)
    ∧ ((PatchTurtleWoW (fun _ => false)
          [Path.winerosettaDll, Path.d3d9Dll, Path.libSiliconPatchDll]
          [Path.rosettax87, Path.libRuntimeRosettax87]
          (PatchTurtleWoW (fun _ => false)
            [Path.winerosettaDll, Path.d3d9Dll, Path.libSiliconPatchDll]
            [Path.rosettax87, Path.libRuntimeRosettax87]
            (freshWorld "/g".toList []))).ops.drop 28).filter FileOp.isWrite
        = [FileOp.removeAll Path.rosettaDir, FileOp.mkdirAll Path.rosettaDir,
           FileOp.create Path.rosettax87, FileOp.copy Path.rosettax87,
           FileOp.chmod Path.rosettax87, FileOp.create Path.libRuntimeRosettax87,
           FileOp.copy Path.libRuntimeRosettax87, FileOp.mkdirAll Path.wtfDir,
           FileOp.writeFile Path.configWtf, FileOp.mkdirAll Path.wtfDir,
           FileOp.writeFile Path.configWtf] :=
  ⟨rfl,
   fun uni => ⟨rfl,
    (second_patch uni [Path.winerosettaDll, Path.d3d9Dll, Path.libSiliconPatchDll]
      [Path.rosettax87, Path.libRuntimeRosettax87] (freshWorld "/g".toList [])
      (by decide) (fun _ => rfl) (fun _ => by simp [freshWorld]) (by decide) (by decide)).2⟩,
   by decide⟩

/-- C24, amended: after a first `PatchTurtleWoW` with no failing call and
every resource bundled, a second one on the world it left writes none of the
three bundled libraries, each of which is copied only when its destination is
missing or differs from the resource in byte length: a file that is in place
is only looked at.  The second call does remove and create the directory
`rosettax87` again. -/
theorem second_patch_skips_payloads (uni : Char → Bool) (order rorder : List Path) (w : World)
    (hroot : w.turtlewowPath ≠ []) (hfails : ∀ op, w.fails op = false)
    (hres : ∀ p, w.resource p ≠ none)
    (horder : ∀ p ∈ order,
      p = Path.winerosettaDll ∨ p = Path.d3d9Dll ∨ p = Path.libSiliconPatchDll)
    (hrorder : ∀ p ∈ rorder, p = Path.rosettax87 ∨ p = Path.libRuntimeRosettax87) :
    OpsExtend (fun op => payloadWrite op = false) (PatchTurtleWoW uni order rorder w)
      (PatchTurtleWoW uni order rorder (PatchTurtleWoW uni order rorder w))
    ∧ (∃ a b, (PatchTurtleWoW uni order rorder (PatchTurtleWoW uni order rorder w)).ops
        = (PatchTurtleWoW uni order rorder w).ops ++ a
          ++ [FileOp.removeAll Path.rosettaDir, FileOp.mkdirAll Path.rosettaDir] ++ b)
    ∧ (∀ p ∈ order, inPlace (PatchTurtleWoW uni order rorder w) p = true)
    ∧ (∀ (v : World) (p : Path), inPlace v p = true →
        copyBundled [p] v = (false, v.log (FileOp.stat p))) := by
  obtain ⟨h1, h2⟩ := second_patch uni order rorder w hroot hfails hres horder hrorder
  refine ⟨h1, h2, ?_, ?_⟩
  · intro p hp
    apply (PatchTurtleWoW_ok uni order rorder w hroot hfails hres).2.2.2.1 p hp
    · intro hpr
      rcases horder p hp with h | h | h <;> rcases hrorder p hpr with h2 | h2
        <;> rw [h] at h2 <;> cases h2
    · rcases horder p hp with h | h | h <;> rw [h] <;> decide
    · rcases horder p hp with h | h | h <;> rw [h] <;> decide
  · intro v p hv
    have hv2 : (binExists (v.log (FileOp.stat p)) p
        && CompareFileWithBundledResource (v.log (FileOp.stat p)) p) = true := hv
    unfold copyBundled
    simp only []
    rw [if_pos hv2]
    rfl

/-- C24, witness: the second call on a fresh game folder. -/
theorem second_patch_skips_payloads_witness :
    OpsExtend (fun op => payloadWrite op = false)
      (PatchTurtleWoW (fun _ => false)
        [Path.winerosettaDll, Path.d3d9Dll, Path.libSiliconPatchDll]
        [Path.rosettax87, Path.libRuntimeRosettax87] (freshWorld "/g".toList []))
      (PatchTurtleWoW (fun _ => false)
        [Path.winerosettaDll, Path.d3d9Dll, Path.libSiliconPatchDll]
        [Path.rosettax87, Path.libRuntimeRosettax87]
        (PatchTurtleWoW (fun _ => false)
          [Path.winerosettaDll, Path.d3d9Dll, Path.libSiliconPatchDll]
          [Path.rosettax87, Path.libRuntimeRosettax87] (freshWorld "/g".toList []))) :=
  (second_patch_skips_payloads (fun _ => false)
    [Path.winerosettaDll, Path.d3d9Dll, Path.libSiliconPatchDll]
    [Path.rosettax87, Path.libRuntimeRosettax87] (freshWorld "/g".toList [])
    (by decide) (fun _ => rfl) (fun _ => by simp [freshWorld]) (by decide) (by decide)).1

/-- C25, counterexample: when every write of `Config.wtf` fails,
`PatchTurtleWoW` on a fresh game folder still goes on after the failed update
for `M2UseShaders`, tries the update for `shadowLOD`, and reports success. -/
theorem patch_succeeds_despite_config_failure :
    ({ freshWorld "/g".toList [] with writeFails := true } : World).writeFails = true ∧
    (∀ uni,
      (PatchTurtleWoW uni [Path.winerosettaDll, Path.d3d9Dll, Path.libSiliconPatchDll]
        [Path.rosettax87, Path.libRuntimeRosettax87]
        { freshWorld "/g".toList [] with writeFails := true }).dialogs = [Dialog.success]
      ∧ (PatchTurtleWoW uni [Path.winerosettaDll, Path.d3d9Dll, Path.libSiliconPatchDll]
        [Path.rosettax87, Path.libRuntimeRosettax87]
        { freshWorld "/g".toList [] with writeFails := true }).config = none
      ∧ (PatchTurtleWoW uni [Path.winerosettaDll, Path.d3d9Dll, Path.libSiliconPatchDll]
        [Path.rosettax87, Path.libRuntimeRosettax87]
        { freshWorld "/g".toList [] with writeFails := true }).ops.drop 22
        = [FileOp.mkdirAll Path.wtfDir, FileOp.readFile Path.configWtf,
           FileOp.writeFile Path.configWtf, FileOp.mkdirAll Path.wtfDir,
           FileOp.readFile Path.configWtf, FileOp.writeFile Path.configWtf]) :=
  ⟨rfl, fun _ => ⟨rfl, rfl, rfl⟩⟩

/-- C25, amended: with the root set, `PatchTurtleWoW` aborts exactly when it
cannot put a file in place.  When the resource of one of the files of its two
maps is not bundled, or a call it made that creates or fills a file, creates
the directory `rosettax87` or sets a file mode failed, it shows the error
dialog, sets `PatchesAppliedTurtleWoW` to false, calls `updateAllStatuses`,
leaves the preferences, `dlls.txt` and `Config.wtf` as they were and makes no
`os.ReadFile` or `os.WriteFile` call, so no later step runs; and either the
failed call is the last call it made and every such call before it succeeded,
or a resource is not bundled and every such call succeeded.  Otherwise,
whatever else fails, the last dialog it shows is `Success`. -/
theorem patch_aborts_or_succeeds (uni : Char → Bool) (order rorder : List Path) (w : World)
    (hroot : w.turtlewowPath ≠ []) :
    ∃ extra, (PatchTurtleWoW uni order rorder w).ops = w.ops ++ extra
      ∧ (((∃ p ∈ order ++ rorder, w.resource p = none)
            ∨ ∃ op ∈ extra, placingOp op = true ∧ w.fails op = true) →
          (PatchTurtleWoW uni order rorder w).dialogs = w.dialogs ++ [Dialog.error]
          ∧ (PatchTurtleWoW uni order rorder w).patchesAppliedTurtleWoW = false
          ∧ (PatchTurtleWoW uni order rorder w).statusUpdates = w.statusUpdates + 1
          ∧ (PatchTurtleWoW uni order rorder w).prefs = w.prefs
          ∧ (PatchTurtleWoW uni order rorder w).dlls = w.dlls
          ∧ (PatchTurtleWoW uni order rorder w).config = w.config
          ∧ (∀ op ∈ extra, textFileOp op = false)
          ∧ ((∃ pre op, extra = pre ++ [op] ∧ placingOp op = true ∧ w.fails op = true
                ∧ ∀ o ∈ pre, placingOp o = true → w.fails o = false)
            ∨ ((∃ p ∈ order ++ rorder, w.resource p = none)
                ∧ ∀ o ∈ extra, placingOp o = true → w.fails o = false)))
      ∧ (¬ ((∃ p ∈ order ++ rorder, w.resource p = none)
            ∨ ∃ op ∈ extra, placingOp op = true ∧ w.fails op = true) →
          (PatchTurtleWoW uni order rorder w).dialogs.getLast? = some Dialog.success) := by
  obtain ⟨r1, r2, r3, r4⟩ := PatchTurtleWoW_run uni order rorder w hroot
  have f1 := copyBundled_frame order w
  have f2 := prepareRosettaDir_frame (copyBundled order w).2
  have f3 := copyRosetta_frame rorder (prepareRosettaDir (copyBundled order w).2).2
  have s1 := copyBundled_stage order w
  have s2 := prepareRosettaDir_stage (copyBundled order w).2
  have s3 := copyRosetta_stage rorder (prepareRosettaDir (copyBundled order w).2).2
  have key : PatchOutcome w (order ++ rorder) (PatchTurtleWoW uni order rorder w) := by
    cases h1 : (copyBundled order w).1 with
    | true =>
      rw [r1 h1]
      exact PatchOutcome.ofAbort s1 h1 f1 (fun p hp => List.mem_append_left _ hp)
    | false =>
      have s12 := s1.after h1 f1.2.2.2.2.2.2.2.2.2.2.2.2.1 f1.2.2.2.2.2.2.2.2.2.2.2.1 s2
      rw [List.append_nil] at s12
      have f12 := f1.obTrans f2
      cases h2 : (prepareRosettaDir (copyBundled order w).2).1 with
      | true =>
        rw [r2 h1 h2]
        exact PatchOutcome.ofAbort s12 h2 f12 (fun p hp => List.mem_append_left _ hp)
      | false =>
        have s123 := s12.after h2 f12.2.2.2.2.2.2.2.2.2.2.2.2.1 f12.2.2.2.2.2.2.2.2.2.2.2.1 s3
        cases h3 : (copyRosetta rorder (prepareRosettaDir (copyBundled order w).2).2).1 with
        | true =>
          rw [r3 h1 h2 h3]
          exact PatchOutcome.ofAbort s123 h3 (f12.obTrans f3) (fun p hp => hp)
        | false =>
          rw [r4 h1 h2 h3]
          exact PatchOutcome.ofFinish uni s123 h3
  exact key

/-- C25, witness: on a fresh game folder without the bundled resource for
`d3d9.dll`, the call aborts with the error dialog and leaves `dlls.txt`
missing. -/
theorem patch_aborts_or_succeeds_witness :
    (PatchTurtleWoW (fun _ => false) [Path.winerosettaDll, Path.d3d9Dll, Path.libSiliconPatchDll]
      [Path.rosettax87, Path.libRuntimeRosettax87]
      { freshWorld "/g".toList [] with
        resource := fun p => if p = Path.d3d9Dll then none else some [7, 7, 7, 7] }).dialogs
      = [] ++ [Dialog.error]
    ∧ (PatchTurtleWoW (fun _ => false)
      [Path.winerosettaDll, Path.d3d9Dll, Path.libSiliconPatchDll]
      [Path.rosettax87, Path.libRuntimeRosettax87]
      { freshWorld "/g".toList [] with
        resource := fun p => if p = Path.d3d9Dll then none else some [7, 7, 7, 7] }).dlls
      = none := by
  obtain ⟨extra, -, h, -⟩ := patch_aborts_or_succeeds (fun _ => false)
    [Path.winerosettaDll, Path.d3d9Dll, Path.libSiliconPatchDll]
    [Path.rosettax87, Path.libRuntimeRosettax87]
    { freshWorld "/g".toList [] with
      resource := fun p => if p = Path.d3d9Dll then none else some [7, 7, 7, 7] }
    (by decide)
  have hc := h (Or.inl ⟨Path.d3d9Dll, by decide, rfl⟩)
  exact ⟨hc.1, hc.2.2.2.2.1⟩

/-- C26, counterexample: removing the directive for `k` from
`SET SET k "x" k "y"` joins what stood before and after it into the directive
`SET  k "y"`, which `isConfigSettingCorrect` then reads, and which a second
removal deletes. -/
theorem remove_leaves_joined_setting :
    (∀ uni, removeConfigSetting uni "SET SET k \"x\" k \"y\"".toList "k".toList
      = "SET  k \"y\"".toList) ∧
    isConfigSettingCorrect "SET  k \"y\"".toList "k".toList "y".toList = true ∧
    (∀ uni, removeConfigSetting uni "SET  k \"y\"".toList "k".toList = []) ∧
    ([] : List Char) ≠ "SET  k \"y\"".toList :=
  ⟨fun _ => rfl, by decide, fun _ => rfl, by decide⟩

/-- C26, amended: for a tidy settings file (lines that end with a line feed,
are not empty, do not begin with a carriage return, hold `SET` at most at
their start and, when they begin with `SET`, are exactly one directive) and a
key without white space or double quote, `removeConfigSetting` leaves the
lines that are not a directive for the key; `isConfigSettingCorrect` is then
false for the key and every value, the pattern for the key no longer matches,
and a second removal changes nothing. -/
theorem remove_leaves_no_setting (uni : Char → Bool) (k : List Char) (ls : List (List Char))
    (hk : ∀ c ∈ k, isSpace c = false ∧ c ≠ dq) (h : tidyDoc ls = true) :
    removeConfigSetting uni (unlines ls) k = unlines (removeLines k ls)
    ∧ (∀ e, isConfigSettingCorrect (removeConfigSetting uni (unlines ls) k) k e = false)
    ∧ matchString (matchSettingAt k) (removeConfigSetting uni (unlines ls) k) = false
    ∧ removeConfigSetting uni (removeConfigSetting uni (unlines ls) k) k
        = removeConfigSetting uni (unlines ls) k := by
  have h1 := remove_tidy uni hk h
  have ht := tidyDoc_removeLines k h
  obtain ⟨hw, -⟩ := tidyDoc_wholeLineSettings hk ht
  have hm : matchString (matchSettingAt k) (unlines (removeLines k ls)) = false := by
    rw [matchString_unlines hw]
    have := settingLines_removeLines_self k ls
    unfold settingLines at this
    rw [List.any_eq_false]
    intro l hl hc
    have hmem : l ∈ (removeLines k ls).filter (fun l => isSettingLine k l) :=
      List.mem_filter.2 ⟨hl, hc⟩
    rw [this] at hmem
    cases hmem
  rw [h1]
  refine ⟨rfl, ?_, hm, remove_of_no_match uni hm⟩
  intro e
  rw [isConfigSettingCorrect_unlines e hw, settingLines_removeLines_self]
  rfl

/-- C26, witness: a settings file of three lines, one the directive for
`farclip`. -/
theorem remove_leaves_no_setting_witness :
    tidyDoc ["SET farclip \"500\"".toList, "SET gxApi \"d3d9\"".toList, "# note".toList] = true ∧
    removeConfigSetting (fun _ => false)
      (unlines ["SET farclip \"500\"".toList, "SET gxApi \"d3d9\"".toList, "# note".toList])
      "farclip".toList
      = unlines (removeLines "farclip".toList
          ["SET farclip \"500\"".toList, "SET gxApi \"d3d9\"".toList, "# note".toList]) :=
  ⟨by decide,
   (remove_leaves_no_setting (fun _ => false) "farclip".toList
    ["SET farclip \"500\"".toList, "SET gxApi \"d3d9\"".toList, "# note".toList]
    (by decide) (by decide)).1⟩

/-- C27, counterexample: from a settings file that ends inside an open
directive for `farclip`, `ApplyGraphicsSettingsForVersion` with the terrain
toggle on appends the directive, and `CheckGraphicsSettings` with the same
toggles reports the terrain setting as not correct. -/
theorem apply_then_check_open_directive :
    (∀ uni, (ApplyGraphicsSettingsForVersion uni "/g".toList true false false false
      { freshWorld "/g".toList [] with
        wtfDir := true, config := some "SET farclip \"".toList }).2.config
      = some "SET farclip \"\nSET farclip \"177\"\n".toList) ∧
    CheckGraphicsSettings
      (some { gamePath := "/g".toList,
              settings := { reduceTerrainDistance := true, setMultisampleTo2x := false,
                            setShadowLOD0 := false, enableLibSiliconPatch := false,
                            userDisabledShadowLOD := false,
                            userDisabledLibSiliconPatch := false } })
      (some "SET farclip \"\nSET farclip \"177\"\n".toList) false = (false, true, true) :=
  ⟨fun _ => rfl, by decide⟩

/-- C27, amended: when the game path is set, no call on the settings file
fails and the settings file is missing or tidy, the file
`ApplyGraphicsSettingsForVersion` writes makes `CheckGraphicsSettings` with
the same toggles report all three settings correct, and for each toggle that
is off the pattern for its key does not match the written file. -/
theorem apply_then_check (uni : Char → Bool) (v : GameVersion) (w : World)
    (ls : List (List Char)) (hpath : v.gamePath ≠ []) (hmk : w.mkdirFails = false)
    (hrd : w.readFails = false) (hwr : w.writeFails = false)
    (hcfg : w.config.getD [] = unlines ls) (ht : tidyDoc ls = true) :
    ∃ doc,
      ApplyGraphicsSettingsForVersion uni v.gamePath v.settings.reduceTerrainDistance
          v.settings.setMultisampleTo2x v.settings.setShadowLOD0
          v.settings.enableLibSiliconPatch w
        = (none, (ApplyGraphicsSettingsForVersion uni v.gamePath
            v.settings.reduceTerrainDistance v.settings.setMultisampleTo2x
            v.settings.setShadowLOD0 v.settings.enableLibSiliconPatch w).2)
      ∧ (ApplyGraphicsSettingsForVersion uni v.gamePath v.settings.reduceTerrainDistance
          v.settings.setMultisampleTo2x v.settings.setShadowLOD0
          v.settings.enableLibSiliconPatch w).2.config = some doc
      ∧ CheckGraphicsSettings (some v) (some doc) false = (true, true, true)
      ∧ (v.settings.reduceTerrainDistance = false →
          matchString (matchSettingAt farclip) doc = false)
      ∧ (v.settings.setMultisampleTo2x = false →
          matchString (matchSettingAt gxMultisample) doc = false)
      ∧ (v.settings.setShadowLOD0 = false →
          matchString (matchSettingAt shadowLOD) doc = false) := by
  have hk1 : ∀ c ∈ farclip, isSpace c = false ∧ c ≠ dq := by decide
  have hk2 : ∀ c ∈ gxMultisample, isSpace c = false ∧ c ≠ dq := by decide
  have hk3 : ∀ c ∈ shadowLOD, isSpace c = false ∧ c ≠ dq := by decide
  have hv1 : dq ∉ "177".toList := by decide
  have hv2 : dq ∉ "2".toList := by decide
  have hv3 : dq ∉ "0".toList := by decide
  have hE1 : tidyLine (newSetting farclip "177".toList) = true := by decide
  have hE2 : tidyLine (newSetting gxMultisample "2".toList) = true := by decide
  have hE3 : tidyLine (newSetting shadowLOD "0".toList) = true := by decide
  have c1 : isConfigSettingCorrect (newSetting farclip "177".toList) farclip "177".toList
      = true := by decide
  have c2 : isConfigSettingCorrect (newSetting gxMultisample "2".toList) gxMultisample
      "2".toList = true := by decide
  have c3 : isConfigSettingCorrect (newSetting shadowLOD "0".toList) shadowLOD "0".toList
      = true := by decide
  obtain ⟨a1, a2⟩ := ApplyGraphicsSettingsForVersion_config uni v.gamePath
    v.settings.reduceTerrainDistance v.settings.setMultisampleTo2x v.settings.setShadowLOD0
    v.settings.enableLibSiliconPatch w hpath hmk hrd hwr
  rw [hcfg, applyToggles_tidy uni _ _ _ ht] at a2
  generalize hr : v.settings.reduceTerrainDistance = r at *
  generalize hm : v.settings.setMultisampleTo2x = m at *
  generalize hs : v.settings.setShadowLOD0 = s at *
  have t1 := tidyDoc_toggleLines r hE1 ht
  have t2 := tidyDoc_toggleLines m hE2 t1
  have t3 := tidyDoc_toggleLines s hE3 t2
  have w1 := (tidyDoc_wholeLineSettings hk1 t3).1
  have w2 := (tidyDoc_wholeLineSettings hk2 t3).1
  have w3 := (tidyDoc_wholeLineSettings hk3 t3).1
  have s1 : (settingLines farclip (toggleLines s shadowLOD "0".toList
      (toggleLines m gxMultisample "2".toList (toggleLines r farclip "177".toList ls)))).head?
      = (if r then some (newSetting farclip "177".toList) else none) := by
    rw [settingLines_toggleLines_other s _ hk3 hk1 hv3 (by decide),
      settingLines_toggleLines_other m _ hk2 hk1 hv2 (by decide),
      head_settingLines_toggleLines farclip r ls hv1]
  have s2 : (settingLines gxMultisample (toggleLines s shadowLOD "0".toList
      (toggleLines m gxMultisample "2".toList (toggleLines r farclip "177".toList ls)))).head?
      = (if m then some (newSetting gxMultisample "2".toList) else none) := by
    rw [settingLines_toggleLines_other s _ hk3 hk2 hv3 (by decide),
      head_settingLines_toggleLines gxMultisample m _ hv2]
  have s3 : (settingLines shadowLOD (toggleLines s shadowLOD "0".toList
      (toggleLines m gxMultisample "2".toList (toggleLines r farclip "177".toList ls)))).head?
      = (if s then some (newSetting shadowLOD "0".toList) else none) :=
    head_settingLines_toggleLines shadowLOD s _ hv3
  refine ⟨_, Prod.ext a1 rfl, a2, ?_, ?_, ?_, ?_⟩
  · unfold CheckGraphicsSettings
    simp only [if_neg hpath, Bool.false_eq_true, if_false, hr, hm, hs]
    rw [isConfigSettingCorrect_unlines _ w1, isConfigSettingCorrect_unlines _ w2,
      isConfigSettingCorrect_unlines _ w3, s1, s2, s3]
    cases r <;> cases m <;> cases s <;>
      simp only [if_true, if_false, Bool.false_eq_true, c1, c2, c3, Bool.not_true,
        Bool.not_false, Bool.or_true, Bool.true_or, Bool.or_false, Bool.false_or]
  · intro hr0
    apply matchString_of_head_none w1
    rw [s1, hr0]
    rfl
  · intro hm0
    apply matchString_of_head_none w2
    rw [s2, hm0]
    rfl
  · intro hs0
    apply matchString_of_head_none w3
    rw [s3, hs0]
    rfl

/-- C27, witness: a tidy settings file with a directive for `farclip`, the
terrain toggle on and the other two off. -/
theorem apply_then_check_witness :
    ∃ doc,
      (ApplyGraphicsSettingsForVersion (fun _ => false) "/g".toList true false false false
        { freshWorld "/g".toList [] with
          config := some (unlines ["SET farclip \"500\"".toList, "# note".toList]) }).2.config
        = some doc
      ∧ CheckGraphicsSettings
          (some { gamePath := "/g".toList,
                  settings := { reduceTerrainDistance := true, setMultisampleTo2x := false,
                                setShadowLOD0 := false, enableLibSiliconPatch := false,
                                userDisabledShadowLOD := false,
                                userDisabledLibSiliconPatch := false } })
          (some doc) false = (true, true, true) := by
  obtain ⟨doc, -, h2, h3, -⟩ := apply_then_check (fun _ => false)
    { gamePath := "/g".toList,
      settings := { reduceTerrainDistance := true, setMultisampleTo2x := false,
                    setShadowLOD0 := false, enableLibSiliconPatch := false,
                    userDisabledShadowLOD := false, userDisabledLibSiliconPatch := false } }
    { freshWorld "/g".toList [] with
      config := some (unlines ["SET farclip \"500\"".toList, "# note".toList]) }
    ["SET farclip \"500\"".toList, "# note".toList] (by decide) rfl rfl rfl rfl (by decide)
  exact ⟨doc, h2, h3⟩

/-- C28: when either cached patch flag is false, `LaunchGame` never reaches
`continueLaunch`, whatever the user answers in the dialog, and with both
paths set it ends right after showing the confirmation dialog. -/
theorem LaunchGame_unpatched_never_launches (answer : Bool) (s : LaunchState)
    (h : s.patchesAppliedTurtleWoW = false ∨ s.patchesAppliedCrossOver = false) :
    (∀ t, LaunchGame answer s ≠ LaunchOutcome.continueLaunch t)
    ∧ (s.crossoverPath ≠ [] → s.turtlewowPath ≠ [] →
        LaunchGame answer s = LaunchOutcome.confirmShown) := by
  have hc : (!s.patchesAppliedTurtleWoW || !s.patchesAppliedCrossOver) = true := by
    rcases h with h | h <;> simp [h]
  constructor
  · intro t
    unfold LaunchGame
    split
    · simp
    · split
      · simp
      · simp [hc]
  · intro h1 h2
    simp [LaunchGame, h1, h2, hc]

/-- C28, for a user who answers yes while the game folder is not patched. -/
theorem LaunchGame_unpatched_never_launches_witness :
    LaunchGame true
      { crossoverPath := "/Applications/CrossOver.app".toList, turtlewowPath := "/g".toList,
        patchesAppliedTurtleWoW := false, patchesAppliedCrossOver := true,
        isGameRunning := false, enableVanillaTweaks := false, tweakedExecutable := false }
      = LaunchOutcome.confirmShown :=
  (LaunchGame_unpatched_never_launches true
    { crossoverPath := "/Applications/CrossOver.app".toList, turtlewowPath := "/g".toList,
      patchesAppliedTurtleWoW := false, patchesAppliedCrossOver := true,
      isGameRunning := false, enableVanillaTweaks := false, tweakedExecutable := false }
    (Or.inl rfl)).2 (by decide) (by decide)

/-- C29: for every current version, disk state and prior settings,
`CheckGraphicsSettingsPresence` leaves `EnableLibSiliconPatch` and
`SetShadowLOD0` true when they were true, clears the matching `UserDisabled`
flag whenever it turns one of them from false to true, never sets a
`UserDisabled` flag that was false, and leaves the other two toggles as they
were. -/
theorem CheckGraphicsSettingsPresence_only_switches_on (v : GameVersion)
    (libSiliconPatchExists : Bool) (dlls : Option (List Char)) (fs : ConfigFs) :
    ∃ s, CheckGraphicsSettingsPresence (some v) libSiliconPatchExists dlls fs = some s
      ∧ (v.settings.enableLibSiliconPatch = true → s.enableLibSiliconPatch = true)
      ∧ (v.settings.setShadowLOD0 = true → s.setShadowLOD0 = true)
      ∧ (v.settings.enableLibSiliconPatch = false → s.enableLibSiliconPatch = true →
          s.userDisabledLibSiliconPatch = false)
      ∧ (v.settings.setShadowLOD0 = false → s.setShadowLOD0 = true →
          s.userDisabledShadowLOD = false)
      ∧ (s.userDisabledLibSiliconPatch = true → v.settings.userDisabledLibSiliconPatch = true)
      ∧ (s.userDisabledShadowLOD = true → v.settings.userDisabledShadowLOD = true)
      ∧ s.reduceTerrainDistance = v.settings.reduceTerrainDistance
      ∧ s.setMultisampleTo2x = v.settings.setMultisampleTo2x := by
  unfold CheckGraphicsSettingsPresence
  by_cases hp : v.gamePath = []
  · refine ⟨v.settings, by simp [hp], id, id, ?_, ?_, id, id, rfl, rfl⟩
    · intro h1 h2
      simp [h1] at h2
    · intro h1 h2
      simp [h1] at h2
  · simp only [if_neg hp]
    refine ⟨_, rfl, ?_⟩
    split_ifs <;> simp_all

end TurtleSilicon
